import Mathlib

/-!
# PLUMED actions and tools

A shallow embedding of `QuaternionProductMatrix::setupForTask`, `performTask` and
`runEndOfRowJobs` (src/crystdistrib/QuaternionProductMatrix.cpp), `LWalls::calculate`
(src/bias/LWalls.cpp), the constructor and `calculate` of `WholeMolecules`
(src/generic/WholeMolecules.cpp), `InterpolateGrid::setupOnFirstStep` and
`gatherStoredValue` (src/gridtools/InterpolateGrid.cpp) and the methods of `LoopUnroller<n>`
(src/tools/LoopUnroller.h), with the properties proved about them.

Conventions of the embedding:
* `double` is an exact number: the definitions are written over an arbitrary commutative
  ring / linearly ordered field `α`, so that they evaluate on `ℤ` or `ℚ` and specialise to `ℝ`;
* `unsigned` indices and sizes are `Nat` (they index vectors held in memory and stay far
  below `2^32`); where a subtraction can wrap around, or an index is computed as a product
  of grid sizes, the arithmetic is written modulo the word size;
* a `std::vector` is a function on its indices, or a `List` where it is resized or where
  reading past its end matters;
* `std::pow` is a parameter `pow` of the wall; it is `Real.rpow` where a property needs
  analysis (the wall only calls it with the positive base `-lscale`);
* a call of `error(...)` or `plumed_error()` is the result `Except.error`;
* where a method writes through a pointer `double*`, the memory is a function from addresses
  to numbers and the pointer is an address.
-/

namespace PLMD

/-- Modelled from the spec: the per-task scratch record `MultiValue` (core/MultiValue.h is not
among the sources). It holds the dense result slots of the current task (`values`, one slot per
output component, the slot being named by the component number that
`getConstPntrToComponent(c)->getPositionInStream()` stands for), the partial derivatives
accumulated per output slot and per input (`derivatives c jarg jelem` is the partial of
component `c` with respect to element `jelem` of argument number `jarg`), and the split index
of a matrix task. -/
structure MultiValue (α : Type) where
  values : Nat → α
  derivatives : Nat → Nat → Nat → α
  splitIndex : Nat

namespace MultiValue

variable {α : Type} [CommRing α]

/-- Modelled from the spec: `MultiValue::addValue(ival, val)` accumulates `val` into result
slot `ival`. -/
def addValue (myvals : MultiValue α) (ival : Nat) (val : α) : MultiValue α :=
  { myvals with values := fun k => if k = ival then myvals.values k + val else myvals.values k }

/-- Modelled from the spec: `MultiValue::setSplitIndex(n)` records where the row of column
indices of a matrix task ends. -/
def setSplitIndex (myvals : MultiValue α) (n : Nat) : MultiValue α :=
  { myvals with splitIndex := n }

/-- Modelled from the spec: `addDerivativeOnVectorArgument(false, ival, jarg, jelem, der, myvals)`
(core/ActionWithVector.h is not among the sources; the action only calls it with
`inchain = false`) accumulates `der` into the partial derivative of output component `ival`
with respect to element `jelem` of argument `jarg`. -/
def addDerivativeOnVectorArgument (myvals : MultiValue α) (ival jarg jelem : Nat) (der : α) :
    MultiValue α :=
  { myvals with
    derivatives := fun c a e =>
      if c = ival ∧ a = jarg ∧ e = jelem then myvals.derivatives c a e + der
      else myvals.derivatives c a e }

/-- A cleared scratch record: every result slot and every partial derivative is zero. -/
def cleared : MultiValue α :=
  { values := fun _ => 0, derivatives := fun _ _ _ => 0, splitIndex := 0 }

end MultiValue

namespace crystdistrib

variable {α : Type} [CommRing α]

/-- The `std::vector<unsigned>::resize(n)` of `setupForTask`: keep the first `n` entries and
pad with zeros. -/
def resize (indices : List Nat) (n : Nat) : List Nat :=
  indices.take n ++ List.replicate (n - indices.length) 0

/-- The method `QuaternionProductMatrix::setupForTask`: `start_n` and `size_v` are the lengths
`getPntrToArgument(0)->getShape()[0]` and `getPntrToArgument(4)->getShape()[0]` of the two
quaternion vectors. Returns the updated `indices` and `myvals`. -/
def setupForTask (start_n size_v : Nat) (task_index : Nat) (indices : List Nat)
    (myvals : MultiValue α) : List Nat × MultiValue α :=
  let _ := task_index
  let indices := if indices.length ≠ size_v + 1 then resize indices (size_v + 1) else indices
  let indices := (List.range size_v).foldl (fun ind i => ind.set (i + 1) (start_n + i)) indices
  (indices, myvals.setSplitIndex (size_v + 1))

/-- The local variables that the four loops of `performTask` carry from one iteration to the
next. -/
structure LoopVars (α : Type) where
  pref : α
  pref2 : α
  conj : α
  myvals : MultiValue α

/-- Body of the first loop of `performTask` (real part of q1*q2), one iteration `i`. -/
def wLoopBody (doNotCalculateDerivatives : Bool) (quat1 quat2 : Nat → α) (index1 ind2 : Nat)
    (s : LoopVars α) (i : Nat) : LoopVars α :=
  let pref := if i > 0 then -1 else s.pref
  let pref2 := if i > 0 then -1 else s.pref2
  let mv := s.myvals.addValue 0 (pref * quat1 i * quat2 i)
  if doNotCalculateDerivatives then
    { pref := pref, pref2 := pref2, conj := s.conj, myvals := mv }
  else
    let conj := if i > 0 then -1 else s.conj
    let mv := mv.addDerivativeOnVectorArgument 0 i index1 (conj * pref * quat2 i)
    let mv := mv.addDerivativeOnVectorArgument 0 (4 + i) ind2 (pref2 * quat1 i)
    { pref := pref, pref2 := pref2, conj := conj, myvals := mv }

/-- Body of the second loop of `performTask` (i component), one iteration `i`. -/
def iLoopBody (doNotCalculateDerivatives : Bool) (quat1 quat2 : Nat → α) (index1 ind2 : Nat)
    (s : LoopVars α) (i : Nat) : LoopVars α :=
  let pref := if i = 3 then -1 else 1
  let pref2 := if i = 2 then -1 else 1
  let mv := s.myvals.addValue 1 (pref * quat1 i * quat2 ((5 - i) % 4))
  if doNotCalculateDerivatives then
    { pref := pref, pref2 := pref2, conj := s.conj, myvals := mv }
  else
    let conj := if i > 0 then -1 else s.conj
    let mv := mv.addDerivativeOnVectorArgument 1 i index1 (conj * pref * quat2 ((5 - i) % 4))
    let mv := mv.addDerivativeOnVectorArgument 1 (4 + i) ind2 (pref2 * quat1 ((5 - i) % 4))
    { pref := pref, pref2 := pref2, conj := conj, myvals := mv }

/-- Body of the third loop of `performTask` (j component), one iteration `i`. -/
def jLoopBody (doNotCalculateDerivatives : Bool) (quat1 quat2 : Nat → α) (index1 ind2 : Nat)
    (s : LoopVars α) (i : Nat) : LoopVars α :=
  let pref := if i = 1 then -1 else 1
  let pref2 := if i = 3 then -1 else 1
  let mv := s.myvals.addValue 2 (pref * quat1 i * quat2 ((i + 2) % 4))
  if doNotCalculateDerivatives then
    { pref := pref, pref2 := pref2, conj := s.conj, myvals := mv }
  else
    let conj := if i > 0 then -1 else s.conj
    let mv := mv.addDerivativeOnVectorArgument 2 i index1 (conj * pref * quat2 ((i + 2) % 4))
    let mv := mv.addDerivativeOnVectorArgument 2 (4 + i) ind2 (pref2 * quat1 ((i + 2) % 4))
    { pref := pref, pref2 := pref2, conj := conj, myvals := mv }

/-- Body of the fourth loop of `performTask` (k component), one iteration `i`. -/
def kLoopBody (doNotCalculateDerivatives : Bool) (quat1 quat2 : Nat → α) (index1 ind2 : Nat)
    (s : LoopVars α) (i : Nat) : LoopVars α :=
  let pref := if i = 2 then -1 else 1
  let pref2 := if i = 1 then -1 else 1
  let mv := s.myvals.addValue 3 (pref * quat1 i * quat2 (3 - i))
  if doNotCalculateDerivatives then
    { pref := pref, pref2 := pref2, conj := s.conj, myvals := mv }
  else
    let conj := if i > 0 then -1 else s.conj
    let mv := mv.addDerivativeOnVectorArgument 3 i index1 (conj * pref * quat2 (3 - i))
    let mv := mv.addDerivativeOnVectorArgument 3 (4 + i) ind2 (pref2 * quat1 (3 - i))
    { pref := pref, pref2 := pref2, conj := conj, myvals := mv }

/-- The statement `pref=1; conj=1; pref2=1;` between two loops of `performTask`. -/
def resetPrefactors (s : LoopVars α) : LoopVars α :=
  { pref := 1, pref2 := 1, conj := 1, myvals := s.myvals }

/-- The method `QuaternionProductMatrix::performTask`. `doNotCalculateDerivatives` is the flag
of the same name, `shape0` is `getPntrToArgument(0)->getShape()[0]`, and `getArgumentElement i k` is element
`k` of argument number `i` (arguments 0-3: w,i,j,k of the first quaternion vector, arguments
4-7: those of the second). The four `for(unsigned i=0; i<4; ++i)` loops are folds of their
bodies over `0,1,2,3`. -/
def performTask (doNotCalculateDerivatives : Bool) (shape0 : Nat)
    (getArgumentElement : Nat → Nat → α) (index1 index2 : Nat) (myvals : MultiValue α) :
    MultiValue α :=
  let ind2 := if index2 ≥ shape0 then index2 - shape0 else index2
  -- Retrieve the first and the second quaternion
  let quat1r : Nat → α := fun i => getArgumentElement i index1
  let quat2 : Nat → α := fun i => getArgumentElement (4 + i) ind2
  -- make q1 the conjugate
  let quat1 : Nat → α := fun i => if i = 1 ∨ i = 2 ∨ i = 3 then quat1r i * (-1) else quat1r i
  let s0 : LoopVars α := { pref := 1, pref2 := 1, conj := 1, myvals := myvals }
  let s1 := (List.range 4).foldl (wLoopBody doNotCalculateDerivatives quat1 quat2 index1 ind2) s0
  let s2 := (List.range 4).foldl (iLoopBody doNotCalculateDerivatives quat1 quat2 index1 ind2)
    (resetPrefactors s1)
  let s3 := (List.range 4).foldl (jLoopBody doNotCalculateDerivatives quat1 quat2 index1 ind2)
    (resetPrefactors s2)
  let s4 := (List.range 4).foldl (kLoopBody doNotCalculateDerivatives quat1 quat2 index1 ind2)
    (resetPrefactors s3)
  s4.myvals

/-- The input `arg` with element `e` of argument number `m` replaced by `x`: the perturbation
used to state what a partial derivative of `performTask` is. -/
def setInput (arg : Nat → Nat → α) (m e : Nat) (x : α) : Nat → Nat → α :=
  fun a k => if a = m ∧ k = e then x else arg a k

/-- Sample input: two quaternion vectors with integer components, the first of length 2
(arguments 0-3), the second of length 3 (arguments 4-7). -/
def sampleArg : Nat → Nat → ℤ := fun i k =>
  ([[1, 2], [3, 4], [5, 6], [7, 8], [11, 13, 17], [19, 23, 29], [31, 37, 41],
    [43, 47, 53]].getD i []).getD k 0

/-- Sample input: the unit quaternions `(3/5, 4/5, 0, 0)` and `(0, 0, 5/13, 12/13)`, each as a
vector of length 1. -/
def sampleUnitArg (α : Type) [Field α] : Nat → Nat → α := fun i _ =>
  if i = 0 then 3 / 5 else if i = 1 then 4 / 5 else if i = 6 then 5 / 13
  else if i = 7 then 12 / 13 else 0

end crystdistrib

namespace bias

variable {α : Type} [LinearOrderedField α]

/-- Modelled from the spec: `Value::difference(d1, d2)` of a non-periodic argument
(core/Value.h is not among the sources), the plain difference `d2 - d1`, so that
`difference(i, at[i], getArgument(i))` is `getArgument(i) - at[i]`. -/
def differenceNotPeriodic (_i : Nat) (d1 d2 : α) : α := d2 - d1

/-- The data members of class `LWalls`: the vectors `at`, `kappa`, `exp`, `eps`, `offset`, each
of length `getNumberOfArguments()` (`at` is a reserved word, hence `at_`). -/
structure LWalls (α : Type) where
  at_ : Nat → α
  kappa : Nat → α
  exp : Nat → α
  eps : Nat → α
  offset : Nat → α

/-- The variables that the loop of `LWalls::calculate` updates: the accumulators `ene` and
`totf2`, and the forces stored by `setOutputForce`. -/
structure CalcState (α : Type) where
  ene : α
  totf2 : α
  outputForces : Nat → α

/-- One iteration `i` of the loop of `LWalls::calculate`. `pow` is `std::pow`, `difference` is
`ActionWithArguments::difference` (periodicity-aware), `getArgument i` the current value of
argument `i`. The division is that of exact numbers: for `eps[i] = 0` the source divides by
zero in floating point (an infinite `lscale`, then an infinite or undefined bias and force),
which exact numbers do not express, so a property that depends on the value of the quotient is
stated for `eps[i] ≠ 0`. -/
def calculateBody (pow : α → α → α) (difference : Nat → α → α → α) (w : LWalls α)
    (getArgument : Nat → α) (s : CalcState α) (i : Nat) : CalcState α :=
  let f : α := 0
  let cv := difference i (w.at_ i) (getArgument i)
  let off := w.offset i
  let epsilon := w.eps i
  let lscale := (cv - off) / epsilon
  if lscale < 0 then
    let k := w.kappa i
    let exponent := w.exp i
    let power := pow (-lscale) exponent
    let f := -(k / epsilon) * exponent * power / lscale
    { ene := s.ene + k * power, totf2 := s.totf2 + f * f,
      outputForces := Function.update s.outputForces i f }
  else
    { s with outputForces := Function.update s.outputForces i f }

/-- What `LWalls::calculate` publishes: the bias (`setBias`), the component `force2`, and the
output forces (`setOutputForce`). -/
structure CalcResult (α : Type) where
  bias : α
  force2 : α
  outputForces : Nat → α

/-- The method `LWalls::calculate`, for `getNumberOfArguments() = n`; `outputForces` is the
content of the force buffer before the call. -/
def calculate (pow : α → α → α) (difference : Nat → α → α → α) (w : LWalls α) (n : Nat)
    (getArgument : Nat → α) (outputForces : Nat → α) : CalcResult α :=
  let s := (List.range n).foldl (calculateBody pow difference w getArgument)
    { ene := 0, totf2 := 0, outputForces := outputForces }
  { bias := s.ene, force2 := s.totf2, outputForces := s.outputForces }

/-- The value of the local variable `lscale` of `LWalls::calculate` in iteration `i`. -/
def lscale (difference : Nat → α → α → α) (w : LWalls α) (getArgument : Nat → α) (i : Nat) : α :=
  (difference i (w.at_ i) (getArgument i) - w.offset i) / w.eps i

/-- The value of the local variable `f` of `LWalls::calculate` at the end of iteration `i`,
the one handed to `setOutputForce(i,f)`. -/
def wallForce (pow : α → α → α) (difference : Nat → α → α → α) (w : LWalls α)
    (getArgument : Nat → α) (i : Nat) : α :=
  if lscale difference w getArgument i < 0 then
    -(w.kappa i / w.eps i) * w.exp i * pow (-lscale difference w getArgument i) (w.exp i)
      / lscale difference w getArgument i
  else 0

/-- The amount that iteration `i` of `LWalls::calculate` adds to `ene`. -/
def wallEnergy (pow : α → α → α) (difference : Nat → α → α → α) (w : LWalls α)
    (getArgument : Nat → α) (i : Nat) : α :=
  if lscale difference w getArgument i < 0 then
    w.kappa i * pow (-lscale difference w getArgument i) (w.exp i)
  else 0

/-- Sample walls on one argument: `AT=0 KAPPA=150 EXP=2 EPS=1 OFFSET=1`. -/
def sampleWalls (α : Type) [Field α] : LWalls α :=
  { at_ := fun _ => 0, kappa := fun _ => 150, exp := fun _ => 2, eps := fun _ => 1,
    offset := fun _ => 1 }

/-- Sample walls on one argument with an exponent below one:
`AT=0 KAPPA=1 EXP=0.5 EPS=1 OFFSET=0`. -/
def sampleRootWalls (α : Type) [Field α] : LWalls α :=
  { at_ := fun _ => 0, kappa := fun _ => 1, exp := fun _ => 1 / 2, eps := fun _ => 1,
    offset := fun _ => 0 }

/-- Sample walls on one argument with a negative force constant:
`AT=0 KAPPA=-1 EXP=2 EPS=1 OFFSET=0`. -/
def sampleNegativeWalls (α : Type) [Field α] : LWalls α :=
  { at_ := fun _ => 0, kappa := fun _ => -1, exp := fun _ => 2, eps := fun _ => 1,
    offset := fun _ => 0 }

end bias

namespace generic

/-- Modelled from the spec: the minimum-image difference `pbcDistance(v1, v2)` of
`ActionAtomistic` for an orthorhombic box with sides `box k` (tools/Pbc.h is not among the
sources): along every axis the difference `v2 - v1` is reduced by the nearest whole number of
box sides. Positions (`PLMD::Vector`) are functions on the three axes. -/
def pbcDistanceOrthorhombic {α : Type} [LinearOrderedField α] [FloorRing α] (box : Fin 3 → α)
    (v1 v2 : Fin 3 → α) : Fin 3 → α :=
  fun k => (v2 k - v1 k) - box k * (round ((v2 k - v1 k) / box k) : ℤ)

/-- A lattice translation of the orthorhombic box: a whole number of box sides along every axis. -/
def IsLatticeVector {α : Type} [LinearOrderedField α] (box : Fin 3 → α) (t : Fin 3 → α) : Prop :=
  ∀ k, ∃ n : ℤ, t k = n * box k

variable {V : Type} [AddCommGroup V]

/-- The data members of class `WholeMolecules`. An atom is named by the value indices
`std::pair<std::size_t,std::size_t>` that `getValueIndices` gives it. -/
structure WholeMolecules (V : Type) where
  p_groups : List (List (Nat × Nat))
  p_roots : List (List (Nat × Nat))
  refs : List V
  doemst : Bool
  addref : Bool

/-- One iteration `j` of the inner loop of `WholeMolecules::calculate` in default mode
(`!doemst`), on the entity `group`; the state is the local variable `first` and the stored
positions (`getGlobalPosition` reads them, `setGlobalPosition` updates them). -/
def defaultBody (pbcDistance : V → V → V) (group : List (Nat × Nat))
    (s : V × (Nat × Nat → V)) (j : Nat) : V × (Nat × Nat → V) :=
  let second := s.2 (group.getD j default)
  let first := s.1 + pbcDistance s.1 second
  (first, Function.update s.2 (group.getD j default) first)

/-- One iteration `j` of the inner loop of `WholeMolecules::calculate` in tree mode (`doemst`),
on the entity `group` with root list `roots`; the state is the stored positions. -/
def treeBody (pbcDistance : V → V → V) (group roots : List (Nat × Nat))
    (pos : Nat × Nat → V) (j : Nat) : Nat × Nat → V :=
  let first := pos (roots.getD (j - 1) default)
  let second := pos (group.getD j default)
  let second := first + pbcDistance first second
  Function.update pos (group.getD j default) second

/-- One iteration `i` of the outer loop of `WholeMolecules::calculate`: the reconstruction of
entity `i`. The inner loops `for(unsigned j=1; j<p_groups[i].size(); ++j)` are folds of their
bodies over `1, ..., size-1`. -/
def calculateEntity (pbcDistance : V → V → V) (w : WholeMolecules V) (pos : Nat × Nat → V)
    (i : Nat) : Nat × Nat → V :=
  let group := w.p_groups.getD i []
  let first := pos (group.getD 0 default)
  let s : V × (Nat × Nat → V) :=
    if w.addref then
      (w.refs.getD i 0 + pbcDistance (w.refs.getD i 0) first,
        Function.update pos (group.getD 0 default)
          (w.refs.getD i 0 + pbcDistance (w.refs.getD i 0) first))
    else (first, pos)
  if !w.doemst then
    ((List.range' 1 (group.length - 1)).foldl (defaultBody pbcDistance group) s).2
  else
    (List.range' 1 (group.length - 1)).foldl
      (treeBody pbcDistance group (w.p_roots.getD i [])) s.2

/-- The method `WholeMolecules::calculate`: `pos` are the stored positions before the call, the
result the stored positions after it. -/
def calculate (pbcDistance : V → V → V) (w : WholeMolecules V) (pos : Nat × Nat → V) :
    Nat × Nat → V :=
  (List.range w.p_groups.length).foldl (calculateEntity pbcDistance w) pos

/-- The atoms whose stored position entity `k` of `WholeMolecules::calculate` rewrites with
`setGlobalPosition`: the first atom when `addref` is set, and every later atom of the list. -/
def rewrittenAtoms (w : WholeMolecules V) (k : Nat) : List (Nat × Nat) :=
  (if w.addref then [(w.p_groups.getD k []).getD 0 default] else []) ++ (w.p_groups.getD k []).tail

/-- The stored positions after the statement `if(addref) ...` of iteration `i` of the outer loop
of `WholeMolecules::calculate`, before the inner loop starts. -/
def anchoredPositions (pbcDistance : V → V → V) (w : WholeMolecules V) (pos : Nat × Nat → V)
    (i : Nat) : Nat × Nat → V :=
  if w.addref then
    Function.update pos ((w.p_groups.getD i []).getD 0 default)
      (w.refs.getD i 0 +
        pbcDistance (w.refs.getD i 0) (pos ((w.p_groups.getD i []).getD 0 default)))
  else pos

/-- The atom that anchors atom `j` of entity `i` in `WholeMolecules::calculate`: the root
`p_roots[i][j-1]` in tree mode, the preceding atom `p_groups[i][j-1]` in default mode. -/
def anchorAtom (w : WholeMolecules V) (i j : Nat) : Nat × Nat :=
  if w.doemst then (w.p_roots.getD i []).getD (j - 1) default
  else (w.p_groups.getD i []).getD (j - 1) default

/-- Sample box: the cubic box of side 10. -/
def sampleBox (α : Type) [Field α] : Fin 3 → α := fun _ => 10

/-- Sample stored positions on the x axis of a box of side 10: atom `(0,1)` at 0.1, atom
`(0,2)` at 9.9, every other atom at 10.3. -/
def samplePositions (α : Type) [Field α] : Nat × Nat → Fin 3 → α := fun a k =>
  if k = 0 then (if a = (0, 1) then 1 / 10 else if a = (0, 2) then 99 / 10 else 103 / 10) else 0

/-- Sample unwrapped configuration of which `samplePositions` are lattice images: atom `(0,1)`
at 0.1, atom `(0,2)` at -0.1, every other atom at 0.3 on the x axis. -/
def sampleTruePositions (α : Type) [Field α] : Nat × Nat → Fin 3 → α := fun a k =>
  if k = 0 then (if a = (0, 1) then 1 / 10 else if a = (0, 2) then -1 / 10 else 3 / 10) else 0

/-- Sample action with one entity of two atoms, `ENTITY0=1,2`, in default mode. -/
def sampleWhole (V : Type) : WholeMolecules V :=
  { p_groups := [[(0, 1), (0, 2)]], p_roots := [[(0, 1)]], refs := [], doemst := false,
    addref := false }

/-- Sample action with two entities that share an atom, `ENTITY0=1,2 ENTITY1=3,2`, in default
mode. -/
def sampleOverlap (V : Type) : WholeMolecules V :=
  { p_groups := [[(0, 1), (0, 2)], [(0, 3), (0, 2)]], p_roots := [[(0, 1)], [(0, 3)]],
    refs := [], doemst := false, addref := false }

end generic

namespace generic

/-- Modelled from the spec: the part of the `MOLINFO` action (`GenericMolInfo`, not among the
sources) that the constructor of `WholeMolecules` uses: the `WHOLE` flag, the backbone atoms of
a list of residues for a molecule type, and the reference position of an atom. -/
structure GenericMolInfo (V : Type) where
  isWhole : Bool
  getBackbone : List String → String → List (List Nat)
  getPosition : Nat → V

/-- The keywords read by the constructor of `WholeMolecules`: the flags `EMST` and
`ADDREFERENCE`, the atom lists `ENTITY0`, `ENTITY1`, ... in order (an absent keyword reads as
the empty list), the strings of `RESIDUES`, and the string of `MOLTYPE` (empty when absent). -/
structure WholeMoleculesInput where
  EMST : Bool
  ADDREFERENCE : Bool
  ENTITY : List (List Nat)
  RESIDUES : List String
  MOLTYPE : String

/-- The groups that the second part of the constructor of `WholeMolecules` adds for the
`RESIDUES` keyword; `error(...)` aborts the construction with its message. -/
def readResidues {V : Type} (moldat : Option (GenericMolInfo V)) (input : WholeMoleculesInput)
    (groups : List (List Nat)) : Except String (List (List Nat)) :=
  let resstrings := input.RESIDUES
  if resstrings.length > 0 then
    let resstrings :=
      if resstrings.length = 1 ∧ resstrings.getD 0 "" = "all" then ["all-ter"] else resstrings
    let moltype := input.MOLTYPE
    if moltype.length = 0 then
      Except.error "Found RESIDUES keyword without specification of the molecule - use MOLTYPE"
    else
      match moldat with
      | none => Except.error "MOLINFO is required to use RESIDUES"
      | some m => Except.ok (groups ++ m.getBackbone resstrings moltype)
  else Except.ok groups

/-- The part of the constructor of `WholeMolecules` that orders the groups and builds the root
lists: with `doemst` through the tree of `tools/Tree.h` (not among the sources; `tree m g` is
the pair of `getTree(g)` and the `getRoot()` that follows it), otherwise with the previous atom
of each group. Groups are lists of at least one atom: for an empty group (which only an empty
backbone group of `MOLINFO` could be) the bound `groups[i].size()-1` of the source wraps around
and the source reads past the end of the group, where the model gives the empty root list. -/
def buildRoots {V : Type} (tree : GenericMolInfo V → List Nat → List Nat × List Nat)
    (moldat : Option (GenericMolInfo V)) (doemst : Bool) (groups : List (List Nat)) :
    Except String (List (List Nat) × List (List Nat)) :=
  if doemst then
    match moldat with
    | none => Except.error "MOLINFO is required to use EMST"
    | some m =>
      Except.ok (groups.map (fun g => (tree m g).1), groups.map (fun g => (tree m g).2))
  else
    Except.ok (groups, groups.map (fun g => g.take (g.length - 1)))

/-- The part of the constructor of `WholeMolecules` that stores the reference position of the
first atom of every entity when `ADDREFERENCE` is set. -/
def buildRefs {V : Type} (moldat : Option (GenericMolInfo V)) (addref : Bool)
    (groups : List (List Nat)) : Except String (List V) :=
  if addref then
    match moldat with
    | none => Except.error "MOLINFO is required to use ADDREFERENCE"
    | some m => Except.ok (groups.map (fun g => m.getPosition (g.getD 0 0)))
  else Except.ok []

/-- The condition `moldat && moldat->isWhole()` of the constructor of `WholeMolecules`. -/
def molInfoIsWhole {V : Type} (moldat : Option (GenericMolInfo V)) : Bool :=
  match moldat with
  | some m => m.isWhole
  | none => false

set_option linter.dupNamespace false in
/-- The constructor `WholeMolecules::WholeMolecules`. `moldat` is the latest preceding `MOLINFO`
action if there is one, `getValueIndices` and `Tools::removeDuplicates` come from outside the
sources. The result is the constructed action together with the atoms handed to
`requestAtoms`, or the message of the `error(...)` that aborted the construction. -/
def WholeMolecules.WholeMolecules {V : Type} (getValueIndices : Nat → Nat × Nat)
    (tree : GenericMolInfo V → List Nat → List Nat × List Nat)
    (removeDuplicates : List Nat → List Nat) (moldat : Option (GenericMolInfo V))
    (input : WholeMoleculesInput) : Except String (WholeMolecules V × List Nat) :=
  -- parse optional flags
  let doemst_tmp := input.EMST
  let addref := input.ADDREFERENCE
  -- create groups from ENTITY
  let groups := input.ENTITY.takeWhile (fun group => !group.isEmpty)
  -- Read residues to align from MOLINFO
  match readResidues moldat input groups with
  | Except.error e => Except.error e
  | Except.ok groups =>
    -- check number of groups
    if groups.length = 0 then Except.error "no atoms found for WHOLEMOLECULES!"
    else
      -- if using PDBs reorder atoms in groups based on proximity in PDB file
      let doemst := molInfoIsWhole moldat
      if doemst_tmp && !doemst then Except.error "cannot enable EMST if MOLINFO is not WHOLE"
      else
        match buildRoots tree moldat doemst groups with
        | Except.error e => Except.error e
        | Except.ok (groups, roots) =>
          -- adding reference if needed
          match buildRefs moldat addref groups with
          | Except.error e => Except.error e
          | Except.ok refs =>
            -- collect all atoms
            let merge := groups.flatten
            Except.ok
              ({ p_groups := groups.map (fun g => g.map getValueIndices),
                 p_roots := roots.map (fun r => r.map getValueIndices),
                 refs := refs, doemst := doemst, addref := addref },
                removeDuplicates merge)

/-- Sample `MOLINFO` flagged `WHOLE`. -/
def sampleMolInfo : GenericMolInfo (Fin 3 → ℚ) :=
  { isWhole := true, getBackbone := fun _ _ => [], getPosition := fun _ => 0 }

/-- Sample input `WHOLEMOLECULES ENTITY0=1,2 RESIDUES=all EMST`, without `MOLTYPE`. -/
def sampleResiduesInput : WholeMoleculesInput :=
  { EMST := true, ADDREFERENCE := false, ENTITY := [[1, 2]], RESIDUES := ["all"],
    MOLTYPE := "" }

/-- Sample input `WHOLEMOLECULES ENTITY0=1,2 EMST`. -/
def sampleEntityInput : WholeMoleculesInput :=
  { EMST := true, ADDREFERENCE := false, ENTITY := [[1, 2]], RESIDUES := [], MOLTYPE := "" }

end generic

namespace gridtools

/-- Modelled from the spec: the description of the input grid that `InterpolateGrid` reads
through `EvaluateGridFunction` (not among the sources): per dimension the bounds `getMin`,
`getMax` (strings holding numbers, here the numbers), the spacing, the periodicity flag and the
number of bins. -/
structure EvaluateGridFunction (α : Type) where
  getMin : Nat → α
  getMax : Nat → α
  getGridSpacing : Nat → α
  getPbc : Nat → Bool
  getNbin : Nat → Nat

/-- Modelled from the spec: the output grid `GridCoordinatesObject` (not among the sources), as
far as `setupOnFirstStep` determines it: the arguments of the last call of
`setBounds(min, max, nbin, spacing)`. -/
structure GridCoordinatesObject (α : Type) where
  str_min : Nat → α
  str_max : Nat → α
  nbin : List Nat
  gspacing : List α

/-- The data members of class `InterpolateGrid`. -/
structure InterpolateGrid (α : Type) where
  midpoints : Bool
  nbin : List Nat
  gspacing : List α
  input_grid : EvaluateGridFunction α
  output_grid : GridCoordinatesObject α

/-- The variables that the loop of `setupOnFirstStep` in `MIDPOINTS` mode updates: the local
`min`, `max`, `str_min`, `str_max` and the member `nbin`. -/
structure MidpointsVars (α : Type) where
  min : α
  max : α
  str_min : Nat → α
  str_max : Nat → α
  nbin : List Nat

variable {α : Type} [Field α]

/-- One iteration `i` of the loop of `InterpolateGrid::setupOnFirstStep` in `MIDPOINTS` mode.
`Tools::convert` between a string and the number it holds is the identity, `0.5` is the number
`1 / 2`, and the subtraction `getNbin()[i] - 1` is that of `std::size_t` (64 bits). -/
def midpointsBody (input_grid : EvaluateGridFunction α) (incalc : Bool) (s : MidpointsVars α)
    (i : Nat) : MidpointsVars α :=
  let s : MidpointsVars α :=
    if incalc then
      { s with min := s.str_min i + 1 / 2 * input_grid.getGridSpacing i, max := s.str_max i }
    else s
  let s : MidpointsVars α :=
    if input_grid.getPbc i then
      let s := { s with nbin := s.nbin.set i (input_grid.getNbin i) }
      if incalc then { s with max := s.max + 1 / 2 * input_grid.getGridSpacing i } else s
    else
      let s := { s with nbin := s.nbin.set i ((input_grid.getNbin i + (2 ^ 64 - 1)) % 2 ^ 64) }
      if incalc then { s with max := s.max - 1 / 2 * input_grid.getGridSpacing i } else s
  if incalc then
    { s with str_min := Function.update s.str_min i s.min,
             str_max := Function.update s.str_max i s.max }
  else s

/-- The method `InterpolateGrid::setupOnFirstStep`. `rank` is `getPntrToComponent(0)->getRank()`,
`mygridMin` and `mygridMax` are the bounds `mygrid.getMin()`, `mygrid.getMax()` of the grid of
the input action, which `plumed_assert( ag )` requires to exist; the locals `min` and `max`
start uninitialised (here 0) and are assigned before they are read. The shape handed to
`setShape` is read back from the output grid and is not modelled. -/
def setupOnFirstStep (rank : Nat) (mygridMin mygridMax : Nat → α) (self : InterpolateGrid α)
    (incalc : Bool) : InterpolateGrid α :=
  let self : InterpolateGrid α :=
    if self.midpoints then
      let nbin := crystdistrib.resize self.nbin rank
      let s := (List.range nbin.length).foldl (midpointsBody self.input_grid incalc)
        { min := 0, max := 0, str_min := self.input_grid.getMin,
          str_max := self.input_grid.getMax, nbin := nbin }
      { self with
        nbin := s.nbin
        output_grid :=
          { str_min := s.str_min, str_max := s.str_max, nbin := s.nbin,
            gspacing := self.gspacing } }
    else
      { self with
        output_grid :=
          { str_min := mygridMin, str_max := mygridMax, nbin := self.nbin,
            gspacing := self.gspacing } }
  if !incalc then { self with gspacing := [] } else self

/-- Sample input grid in two dimensions: bounds 0 and 3, spacing 0.03 (100 bins), the first
dimension periodic, the second not. -/
def sampleInputGrid (α : Type) [Field α] : EvaluateGridFunction α :=
  { getMin := fun _ => 0, getMax := fun _ => 3, getGridSpacing := fun _ => 3 / 100,
    getPbc := fun i => decide (i = 0), getNbin := fun _ => 100 }

/-- Sample `INTERPOLATE_GRID ... MIDPOINTS GRID_BIN=200,200` on the sample input grid. -/
def sampleInterpolateGrid (α : Type) [Field α] : InterpolateGrid α :=
  { midpoints := true, nbin := [200, 200], gspacing := [], input_grid := sampleInputGrid α,
    output_grid :=
      { str_min := fun _ => 0, str_max := fun _ => 0, nbin := [], gspacing := [] } }

end gridtools

namespace LoopUnroller

variable {α : Type} [Mul α] [AddZeroClass α]

/-- The method `LoopUnroller<n>::_sum2`. The array `d` is the list of its elements and reading
past its end gives no value. `LoopUnroller<0>` cannot be instantiated (its methods would need
`LoopUnroller<n-1>` with `n-1` wrapped around), so there is no value for `n = 0`. -/
def _sum2 : Nat → List α → Option α
  | 0, _ => none
  | 1, d => do
    let d0 ← d[0]?
    pure (d0 * d0)
  | n + 2, d => do
    let r ← _sum2 (n + 1) d
    let dn ← d[n + 1]?
    pure (r + dn * dn)

/-- The method `LoopUnroller<n>::_dot`, with the same conventions as `_sum2`. -/
def _dot : Nat → List α → List α → Option α
  | 0, _, _ => none
  | 1, d, v => do
    let d0 ← d[0]?
    let v0 ← v[0]?
    pure (d0 * v0)
  | n + 2, d, v => do
    let r ← _dot (n + 1) d v
    let dn ← d[n + 1]?
    let vn ← v[n + 1]?
    pure (r + dn * vn)

/-- The body `r+=d[i]*d[i]` of the loop that documents `_sum2`. -/
def sum2LoopBody (d : List α) (r : α) (i : Nat) : Option α := do
  let di ← d[i]?
  pure (r + di * di)

/-- The loop `r=0.0; for(unsigned i=0;i<n;i++) r+=d[i]*d[i]; return r;` that the
documentation of `_sum2` gives. -/
def sum2Loop (n : Nat) (d : List α) : Option α :=
  (List.range n).foldlM (sum2LoopBody d) 0

/-- The body `r+=d[i]*v[i]` of the loop that documents `_dot`. -/
def dotLoopBody (d v : List α) (r : α) (i : Nat) : Option α := do
  let di ← d[i]?
  let vi ← v[i]?
  pure (r + di * vi)

/-- The loop `r=0.0; for(unsigned i=0;i<n;i++) r+=d[i]*v[i]; return r;` that the
documentation of `_dot` gives. -/
def dotLoop (n : Nat) (d v : List α) : Option α :=
  (List.range n).foldlM (dotLoopBody d v) 0

end LoopUnroller

namespace crystdistrib

/-- Modelled from the spec: the bookkeeping that `MultiValue` (core/MultiValue.h is not among
the sources) keeps for the rows of stashed matrices: for the matrix stashed at position `nmat`,
the vector `getMatrixRowDerivativeIndices(nmat)` of argument indices (a function on its
indices) and the number `getNumberOfMatrixRowDerivatives(nmat)` of its entries that are in
use. -/
structure MatrixRowDerivatives where
  indices : Nat → Nat → Nat
  number : Nat → Nat

/-- The argument indices recorded for the matrix stashed at position `nmat`: the entries in
use of its vector of indices, in order. -/
def MatrixRowDerivatives.recorded (rows : MatrixRowDerivatives) (nmat : Nat) : List Nat :=
  (List.range (rows.number nmat)).map (rows.indices nmat)

/-- The variables that the loops of `runEndOfRowJobs` update for one component: the vector
`matrix_indices`, the position `nmat_ind` of the next entry and the offset `base`. -/
structure RowVars where
  matrix_indices : Nat → Nat
  nmat_ind : Nat
  base : Nat

/-- One iteration `k` of the loop `Quaternion for first molecule` of `runEndOfRowJobs`;
`shape k` is `getPntrToArgument(k)->getShape()[0]`. -/
def firstQuaternionBody (shape : Nat → Nat) (ival : Nat) (s : RowVars) (k : Nat) : RowVars :=
  { matrix_indices := Function.update s.matrix_indices s.nmat_ind (s.base + ival),
    base := s.base + shape k,
    nmat_ind := s.nmat_ind + 1 }

/-- One iteration `k` of the loop `Quaternion of second molecule` of `runEndOfRowJobs`. -/
def secondQuaternionBody (shape : Nat → Nat) (ind2 : Nat) (s : RowVars) (k : Nat) : RowVars :=
  { matrix_indices := Function.update s.matrix_indices s.nmat_ind (s.base + ind2),
    base := s.base + shape (4 + k),
    nmat_ind := s.nmat_ind + 1 }

/-- One iteration `i` of the loop `Loop over row of matrix` of `runEndOfRowJobs`. -/
def rowBody (shape : Nat → Nat) (indices : List Nat) (s : RowVars) (i : Nat) : RowVars :=
  let ind2 := indices.getD i 0
  let ind2 := if ind2 ≥ shape 0 then indices.getD i 0 - shape 0 else ind2
  let s : RowVars := { s with base := 4 * shape 0 }
  (List.range 4).foldl (secondQuaternionBody shape ind2) s

/-- One iteration `j` of the loop over the components of `runEndOfRowJobs`. The vector
`matrix_indices` is a reference into `myvals`; its final content is stored back together with
the count given to `setNumberOfMatrixRowDerivatives`. -/
def componentBody {α : Type} (getPositionInMatrixStash : Nat → Nat) (shape : Nat → Nat)
    (ival : Nat) (indices : List Nat) (myvals : MultiValue α) (rows : MatrixRowDerivatives)
    (j : Nat) : MatrixRowDerivatives :=
  let nmat := getPositionInMatrixStash j
  let nmat_ind := rows.number nmat
  let ntwo_atoms := myvals.splitIndex
  -- Quaternion for first molecule
  let s : RowVars := { matrix_indices := rows.indices nmat, nmat_ind := nmat_ind, base := 0 }
  let s := (List.range 4).foldl (firstQuaternionBody shape ival) s
  -- Loop over row of matrix
  let s := (List.range' 1 (ntwo_atoms - 1)).foldl (rowBody shape indices) s
  { indices := Function.update rows.indices nmat s.matrix_indices,
    number := Function.update rows.number nmat s.nmat_ind }

/-- The method `QuaternionProductMatrix::runEndOfRowJobs`. `doNotCalculateDerivatives`,
`matrixChainContinues` and `getNumberOfComponents` are the values of the methods of these
names, `getPositionInMatrixStash j` is `getConstPntrToComponent(j)->getPositionInMatrixStash()`
and `shape k` is `getPntrToArgument(k)->getShape()[0]`; of `myvals` the split index is read and
the matrix-row bookkeeping `rows` is updated. -/
def runEndOfRowJobs {α : Type} (doNotCalculateDerivatives matrixChainContinues : Bool)
    (getNumberOfComponents : Nat) (getPositionInMatrixStash : Nat → Nat) (shape : Nat → Nat)
    (ival : Nat) (indices : List Nat) (myvals : MultiValue α) (rows : MatrixRowDerivatives) :
    MatrixRowDerivatives :=
  if doNotCalculateDerivatives || !matrixChainContinues then rows
  else
    (List.range getNumberOfComponents).foldl
      (componentBody getPositionInMatrixStash shape ival indices myvals) rows

/-- Sample shapes: arguments 0-3 of length 2 and arguments 4-7 of length 3, as `sampleArg`. -/
def sampleShape : Nat → Nat := fun k => if k < 4 then 2 else 3

/-- Sample matrix-row bookkeeping with nothing recorded. -/
def sampleRows : MatrixRowDerivatives := { indices := fun _ _ => 0, number := fun _ => 0 }

end crystdistrib

namespace generic

/-- Sample input `WHOLEMOLECULES ENTITY0=1,2,3`, to be read without a `MOLINFO`. -/
def sampleDefaultInput : WholeMoleculesInput :=
  { EMST := false, ADDREFERENCE := false, ENTITY := [[1, 2, 3]], RESIDUES := [], MOLTYPE := "" }

/-- Sample action with the single entity `ENTITY0=1,2,3` in default mode, as the constructor
builds it from `sampleDefaultInput`. -/
def sampleChain (V : Type) : WholeMolecules V :=
  { p_groups := [[(0, 1), (0, 2), (0, 3)]], p_roots := [[(0, 1), (0, 2)]], refs := [],
    doemst := false, addref := false }

/-- Sample minimum image for integer positions on one axis of a box of side 10: the
representative of `v2 - v1` between -5 and 4. -/
def samplePbcDistanceInt (v1 v2 : ℤ) : ℤ := (v2 - v1 + 5) % 10 - 5

/-- Sample integer positions in the box of side 10: the atoms `(0,1)`, ..., `(0,5)` sit at
1, 9, 8, 2, 6, every other atom at 0. -/
def samplePositionsInt : Nat × Nat → ℤ := fun a => [0, 1, 9, 8, 2, 6].getD a.2 0

/-- Sample action with two disjoint entities, `ENTITY0=1,2,3 ENTITY1=4,5`, in default mode. -/
def sampleDisjoint (V : Type) : WholeMolecules V :=
  { p_groups := [[(0, 1), (0, 2), (0, 3)], [(0, 4), (0, 5)]],
    p_roots := [[(0, 1), (0, 2)], [(0, 4)]], refs := [], doemst := false, addref := false }

end generic

namespace gridtools

/-- Modelled from the spec: what `gatherStoredValue` reads of the `MultiValue` of a grid task
(core/MultiValue.h is not among the sources): `get(ival)`, the value number `ival` of the
task, and `getDerivative(ival, jder)`, its derivative number `jder`. -/
structure GridTaskValues (α : Type) where
  get : Nat → α
  getDerivative : Nat → Nat → α

/-- The method `InterpolateGrid::gatherStoredValue`. `getDimension` is
`output_grid.getDimension()` and `buffer` is a function on its indices. The indices `istart` and
`istart+1+i` are computed in `unsigned` arithmetic, that is modulo `2 ^ 32`. The result is the
buffer after the call; there is none when `plumed_dbg_assert( valindex==0 )` fails. -/
def gatherStoredValue {α : Type} [Add α] (getDimension : Nat) (valindex code : Nat)
    (myvals : GridTaskValues α) (bufstart : Nat) (buffer : Nat → α) : Option (Nat → α) :=
  if valindex ≠ 0 then none
  else
    let istart := (bufstart + (1 + getDimension) * code) % 2 ^ 32
    let buffer := Function.update buffer istart (buffer istart + myvals.get 0)
    some ((List.range getDimension).foldl
      (fun buffer i =>
        Function.update buffer ((istart + 1 + i) % 2 ^ 32)
          (buffer ((istart + 1 + i) % 2 ^ 32) + myvals.getDerivative 0 i))
      buffer)

/-- Sample values of a task on a grid of dimension 2: value 7, derivatives 10 and 20. -/
def sampleTaskValues : GridTaskValues ℤ :=
  { get := fun _ => 7, getDerivative := fun _ i => 10 * (i + 1) }

end gridtools

namespace LoopUnroller

section writes

variable {α : Type} [Ring α]

/-- The method `LoopUnroller<n>::_zero`. The methods that write take the memory as a function
from addresses to numbers; a pointer `double*` is the address of its element `[0]`, so `d[i]`
is the cell `d + i` (two pointers may point into the same array). The result is the memory
after the call; there is none for `n = 0`, as for `_sum2`. -/
def _zero : Nat → (Nat → α) → Nat → Option (Nat → α)
  | 0, _, _ => none
  | 1, mem, d => some (Function.update mem (d + 0) 0)
  | n + 2, mem, d => do
    let mem ← _zero (n + 1) mem d
    pure (Function.update mem (d + (n + 1)) 0)

/-- The method `LoopUnroller<n>::_copy`, whose template tests `n==1` itself. -/
def _copy : Nat → (Nat → α) → Nat → Nat → Option (Nat → α)
  | 0, _, _, _ => none
  | n + 1, mem, d, v =>
    if n + 1 = 1 then some (Function.update mem (d + 0) (mem (v + 0)))
    else do
      let mem ← _copy n mem d v
      pure (Function.update mem (d + n) (mem (v + n)))

/-- The method `LoopUnroller<n>::_add`. -/
def _add : Nat → (Nat → α) → Nat → Nat → Option (Nat → α)
  | 0, _, _, _ => none
  | 1, mem, d, a => some (Function.update mem (d + 0) (mem (d + 0) + mem (a + 0)))
  | n + 2, mem, d, a => do
    let mem ← _add (n + 1) mem d a
    pure (Function.update mem (d + (n + 1)) (mem (d + (n + 1)) + mem (a + (n + 1))))

/-- The method `LoopUnroller<n>::_sub`. -/
def _sub : Nat → (Nat → α) → Nat → Nat → Option (Nat → α)
  | 0, _, _, _ => none
  | 1, mem, d, a => some (Function.update mem (d + 0) (mem (d + 0) - mem (a + 0)))
  | n + 2, mem, d, a => do
    let mem ← _sub (n + 1) mem d a
    pure (Function.update mem (d + (n + 1)) (mem (d + (n + 1)) - mem (a + (n + 1))))

/-- The method `LoopUnroller<n>::_mul`. -/
def _mul : Nat → (Nat → α) → Nat → α → Option (Nat → α)
  | 0, _, _, _ => none
  | 1, mem, d, s => some (Function.update mem (d + 0) (mem (d + 0) * s))
  | n + 2, mem, d, s => do
    let mem ← _mul (n + 1) mem d s
    pure (Function.update mem (d + (n + 1)) (mem (d + (n + 1)) * s))

/-- The method `LoopUnroller<n>::_neg`. -/
def _neg : Nat → (Nat → α) → Nat → Nat → Option (Nat → α)
  | 0, _, _, _ => none
  | 1, mem, d, a => some (Function.update mem (d + 0) (-mem (a + 0)))
  | n + 2, mem, d, a => do
    let mem ← _neg (n + 1) mem d a
    pure (Function.update mem (d + (n + 1)) (-mem (a + (n + 1))))

/-- The loop `for(unsigned i=0;i<n;i++) d[i]=0.0;` that the documentation of `_zero` gives. -/
def zeroLoop (n : Nat) (mem : Nat → α) (d : Nat) : Nat → α :=
  (List.range n).foldl (fun mem i => Function.update mem (d + i) 0) mem

/-- The loop `for(unsigned i=0;i<n;i++) d[i]=v[i];` that the documentation of `_copy` gives. -/
def copyLoop (n : Nat) (mem : Nat → α) (d v : Nat) : Nat → α :=
  (List.range n).foldl (fun mem i => Function.update mem (d + i) (mem (v + i))) mem

/-- The loop `for(unsigned i=0;i<n;i++) d[i]+=v[i];` that the documentation of `_add` gives. -/
def addLoop (n : Nat) (mem : Nat → α) (d v : Nat) : Nat → α :=
  (List.range n).foldl (fun mem i => Function.update mem (d + i) (mem (d + i) + mem (v + i))) mem

/-- The loop `for(unsigned i=0;i<n;i++) d[i]-=v[i];` that the documentation of `_sub` gives. -/
def subLoop (n : Nat) (mem : Nat → α) (d v : Nat) : Nat → α :=
  (List.range n).foldl (fun mem i => Function.update mem (d + i) (mem (d + i) - mem (v + i))) mem

/-- The loop `for(unsigned i=0;i<n;i++) d[i]*=s;` that the documentation of `_mul` gives. -/
def mulLoop (n : Nat) (mem : Nat → α) (d : Nat) (s : α) : Nat → α :=
  (List.range n).foldl (fun mem i => Function.update mem (d + i) (mem (d + i) * s)) mem

/-- The loop `for(unsigned i=0;i<n;i++) d[i]=-v[i];` that the documentation of `_neg` gives. -/
def negLoop (n : Nat) (mem : Nat → α) (d v : Nat) : Nat → α :=
  (List.range n).foldl (fun mem i => Function.update mem (d + i) (-mem (v + i))) mem

/-- Sample memory: the cell at address `a` holds the integer `a + 1`. -/
def sampleMemory : Nat → ℤ := fun a => a + 1

end writes

end LoopUnroller

namespace generic

/-- Sample `MOLINFO` flagged `WHOLE` whose backbone is the single group of atoms 5, 6, 7. -/
def sampleBackboneMolInfo : GenericMolInfo (Fin 3 → ℚ) :=
  { isWhole := true, getBackbone := fun _ _ => [[5, 6, 7]], getPosition := fun _ => 0 }

/-- Sample input `WHOLEMOLECULES RESIDUES=all MOLTYPE=protein EMST`, without `ENTITY`. -/
def sampleBackboneInput : WholeMoleculesInput :=
  { EMST := true, ADDREFERENCE := false, ENTITY := [], RESIDUES := ["all"],
    MOLTYPE := "protein" }

/-- Sample input `WHOLEMOLECULES ENTITY1=1,2 EMST`, in which `ENTITY0` is absent. -/
def sampleEntity1Input : WholeMoleculesInput :=
  { EMST := true, ADDREFERENCE := false, ENTITY := [[], [1, 2]], RESIDUES := [], MOLTYPE := "" }

end generic

/-! ## Properties of `QuaternionProductMatrix` -/

namespace crystdistrib

section indices

variable {α : Type}

theorem resize_length (indices : List Nat) (n : Nat) : (resize indices n).length = n := by
  simp only [resize, List.length_append, List.length_take, List.length_replicate]
  omega

theorem foldl_set_length (N : Nat) (m : Nat) (l : List Nat) :
    ((List.range m).foldl (fun ind i => ind.set (i + 1) (N + i)) l).length = l.length := by
  induction m with
  | zero => simp
  | succ m ih => simp [List.range_succ, List.foldl_append, ih]

theorem foldl_set_getElem? (N : Nat) (m : Nat) (l : List Nat) (c : Nat) (hl : m + 1 ≤ l.length) :
    ((List.range m).foldl (fun ind i => ind.set (i + 1) (N + i)) l)[c + 1]? =
      if c < m then some (N + c) else l[c + 1]? := by
  induction m with
  | zero => simp
  | succ m ih =>
    have ih := ih (by omega)
    simp only [List.range_succ, List.foldl_append, List.foldl_cons, List.foldl_nil]
    by_cases hcm : c = m
    · subst hcm
      rw [List.getElem?_set_self (by rw [foldl_set_length]; omega)]
      simp
    · rw [List.getElem?_set_ne (by omega), ih]
      by_cases h : c < m
      · simp [h, Nat.lt_succ_of_lt h]
      · have : ¬ c < m + 1 := by omega
        simp [h, this]

theorem setupForTask_indices (N M task_index : Nat) (indices : List Nat) (mv : MultiValue α)
    (c : Nat) (hc : c < M) :
    (setupForTask N M task_index indices mv).1[c + 1]? = some (N + c) := by
  simp only [setupForTask]
  rw [foldl_set_getElem?]
  · simp [hc]
  · split_ifs with h
    · rw [resize_length]
    · push_neg at h; omega

end indices

variable {α : Type} [CommRing α]

theorem range_four : List.range 4 = [0, 1, 2, 3] := rfl

section bodies
variable (nd : Bool) (q1 q2 : Nat → α) (i1 i2 : Nat) (s : LoopVars α) (i : Nat)

theorem wLoopBody_values (k : Nat) :
    (wLoopBody nd q1 q2 i1 i2 s i).myvals.values k =
      if k = 0 then s.myvals.values k + (if i > 0 then -1 else s.pref) * q1 i * q2 i
      else s.myvals.values k := by
  cases nd <;> simp [wLoopBody, MultiValue.addValue, MultiValue.addDerivativeOnVectorArgument]

theorem wLoopBody_pref : (wLoopBody nd q1 q2 i1 i2 s i).pref = if i > 0 then -1 else s.pref := by
  cases nd <;> simp [wLoopBody]

theorem wLoopBody_pref2 :
    (wLoopBody nd q1 q2 i1 i2 s i).pref2 = if i > 0 then -1 else s.pref2 := by
  cases nd <;> simp [wLoopBody]

theorem iLoopBody_values (k : Nat) :
    (iLoopBody nd q1 q2 i1 i2 s i).myvals.values k =
      if k = 1 then s.myvals.values k + (if i = 3 then -1 else 1) * q1 i * q2 ((5 - i) % 4)
      else s.myvals.values k := by
  cases nd <;> simp [iLoopBody, MultiValue.addValue, MultiValue.addDerivativeOnVectorArgument]

theorem jLoopBody_values (k : Nat) :
    (jLoopBody nd q1 q2 i1 i2 s i).myvals.values k =
      if k = 2 then s.myvals.values k + (if i = 1 then -1 else 1) * q1 i * q2 ((i + 2) % 4)
      else s.myvals.values k := by
  cases nd <;> simp [jLoopBody, MultiValue.addValue, MultiValue.addDerivativeOnVectorArgument]

theorem kLoopBody_values (k : Nat) :
    (kLoopBody nd q1 q2 i1 i2 s i).myvals.values k =
      if k = 3 then s.myvals.values k + (if i = 2 then -1 else 1) * q1 i * q2 (3 - i)
      else s.myvals.values k := by
  cases nd <;> simp [kLoopBody, MultiValue.addValue, MultiValue.addDerivativeOnVectorArgument]

theorem wLoopBody_conj :
    (wLoopBody false q1 q2 i1 i2 s i).conj = if i > 0 then -1 else s.conj := by
  simp [wLoopBody]

theorem iLoopBody_conj :
    (iLoopBody false q1 q2 i1 i2 s i).conj = if i > 0 then -1 else s.conj := by
  simp [iLoopBody]

theorem jLoopBody_conj :
    (jLoopBody false q1 q2 i1 i2 s i).conj = if i > 0 then -1 else s.conj := by
  simp [jLoopBody]

theorem kLoopBody_conj :
    (kLoopBody false q1 q2 i1 i2 s i).conj = if i > 0 then -1 else s.conj := by
  simp [kLoopBody]

theorem wLoopBody_derivatives (c a e : Nat) :
    (wLoopBody false q1 q2 i1 i2 s i).myvals.derivatives c a e =
      s.myvals.derivatives c a e
      + (if c = 0 ∧ a = i ∧ e = i1 then
          (if i > 0 then -1 else s.conj) * (if i > 0 then -1 else s.pref) * q2 i else 0)
      + (if c = 0 ∧ a = 4 + i ∧ e = i2 then (if i > 0 then -1 else s.pref2) * q1 i else 0) := by
  by_cases h1 : c = 0 ∧ a = i ∧ e = i1 <;> by_cases h2 : c = 0 ∧ a = 4 + i ∧ e = i2 <;>
    simp [wLoopBody, MultiValue.addValue, MultiValue.addDerivativeOnVectorArgument, h1, h2]

theorem iLoopBody_derivatives (c a e : Nat) :
    (iLoopBody false q1 q2 i1 i2 s i).myvals.derivatives c a e =
      s.myvals.derivatives c a e
      + (if c = 1 ∧ a = i ∧ e = i1 then
          (if i > 0 then -1 else s.conj) * (if i = 3 then -1 else 1) * q2 ((5 - i) % 4) else 0)
      + (if c = 1 ∧ a = 4 + i ∧ e = i2 then (if i = 2 then -1 else 1) * q1 ((5 - i) % 4)
          else 0) := by
  by_cases h1 : c = 1 ∧ a = i ∧ e = i1 <;> by_cases h2 : c = 1 ∧ a = 4 + i ∧ e = i2 <;>
    simp [iLoopBody, MultiValue.addValue, MultiValue.addDerivativeOnVectorArgument, h1, h2]

theorem jLoopBody_derivatives (c a e : Nat) :
    (jLoopBody false q1 q2 i1 i2 s i).myvals.derivatives c a e =
      s.myvals.derivatives c a e
      + (if c = 2 ∧ a = i ∧ e = i1 then
          (if i > 0 then -1 else s.conj) * (if i = 1 then -1 else 1) * q2 ((i + 2) % 4) else 0)
      + (if c = 2 ∧ a = 4 + i ∧ e = i2 then (if i = 3 then -1 else 1) * q1 ((i + 2) % 4)
          else 0) := by
  by_cases h1 : c = 2 ∧ a = i ∧ e = i1 <;> by_cases h2 : c = 2 ∧ a = 4 + i ∧ e = i2 <;>
    simp [jLoopBody, MultiValue.addValue, MultiValue.addDerivativeOnVectorArgument, h1, h2]

theorem kLoopBody_derivatives (c a e : Nat) :
    (kLoopBody false q1 q2 i1 i2 s i).myvals.derivatives c a e =
      s.myvals.derivatives c a e
      + (if c = 3 ∧ a = i ∧ e = i1 then
          (if i > 0 then -1 else s.conj) * (if i = 2 then -1 else 1) * q2 (3 - i) else 0)
      + (if c = 3 ∧ a = 4 + i ∧ e = i2 then (if i = 1 then -1 else 1) * q1 (3 - i) else 0) := by
  by_cases h1 : c = 3 ∧ a = i ∧ e = i1 <;> by_cases h2 : c = 3 ∧ a = 4 + i ∧ e = i2 <;>
    simp [kLoopBody, MultiValue.addValue, MultiValue.addDerivativeOnVectorArgument, h1, h2]

theorem resetPrefactors_myvals : (resetPrefactors s).myvals = s.myvals := rfl

theorem resetPrefactors_conj : (resetPrefactors s).conj = 1 := rfl

/-! Closed forms of the four loops. -/

theorem wLoop_values (mv : MultiValue α) (k : Nat) :
    ((List.range 4).foldl (wLoopBody nd q1 q2 i1 i2)
        { pref := 1, pref2 := 1, conj := 1, myvals := mv }).myvals.values k =
      if k = 0 then mv.values k + (q1 0 * q2 0 - q1 1 * q2 1 - q1 2 * q2 2 - q1 3 * q2 3)
      else mv.values k := by
  by_cases hk : k = 0
  · simp [range_four, wLoopBody_values, wLoopBody_pref, hk]
    ring
  · simp [range_four, wLoopBody_values, wLoopBody_pref, hk]

theorem iLoop_values (k : Nat) :
    ((List.range 4).foldl (iLoopBody nd q1 q2 i1 i2) (resetPrefactors s)).myvals.values k =
      if k = 1 then s.myvals.values k + (q1 0 * q2 1 + q1 1 * q2 0 + q1 2 * q2 3 - q1 3 * q2 2)
      else s.myvals.values k := by
  by_cases hk : k = 1
  · simp [range_four, iLoopBody_values, resetPrefactors_myvals, hk]
    ring
  · simp [range_four, iLoopBody_values, resetPrefactors_myvals, hk]

theorem jLoop_values (k : Nat) :
    ((List.range 4).foldl (jLoopBody nd q1 q2 i1 i2) (resetPrefactors s)).myvals.values k =
      if k = 2 then s.myvals.values k + (q1 0 * q2 2 - q1 1 * q2 3 + q1 2 * q2 0 + q1 3 * q2 1)
      else s.myvals.values k := by
  by_cases hk : k = 2
  · simp [range_four, jLoopBody_values, resetPrefactors_myvals, hk]
    ring
  · simp [range_four, jLoopBody_values, resetPrefactors_myvals, hk]

theorem kLoop_values (k : Nat) :
    ((List.range 4).foldl (kLoopBody nd q1 q2 i1 i2) (resetPrefactors s)).myvals.values k =
      if k = 3 then s.myvals.values k + (q1 0 * q2 3 + q1 1 * q2 2 - q1 2 * q2 1 + q1 3 * q2 0)
      else s.myvals.values k := by
  by_cases hk : k = 3
  · simp [range_four, kLoopBody_values, resetPrefactors_myvals, hk]
    ring
  · simp [range_four, kLoopBody_values, resetPrefactors_myvals, hk]

theorem wLoop_derivatives (mv : MultiValue α) (c a e : Nat) :
    ((List.range 4).foldl (wLoopBody false q1 q2 i1 i2)
        { pref := 1, pref2 := 1, conj := 1, myvals := mv }).myvals.derivatives c a e =
      mv.derivatives c a e
      + (if c = 0 ∧ a = 0 ∧ e = i1 then q2 0 else 0)
      + (if c = 0 ∧ a = 4 ∧ e = i2 then q1 0 else 0)
      + (if c = 0 ∧ a = 1 ∧ e = i1 then q2 1 else 0)
      + (if c = 0 ∧ a = 5 ∧ e = i2 then -q1 1 else 0)
      + (if c = 0 ∧ a = 2 ∧ e = i1 then q2 2 else 0)
      + (if c = 0 ∧ a = 6 ∧ e = i2 then -q1 2 else 0)
      + (if c = 0 ∧ a = 3 ∧ e = i1 then q2 3 else 0)
      + (if c = 0 ∧ a = 7 ∧ e = i2 then -q1 3 else 0) := by
  simp only [range_four, List.foldl_cons, List.foldl_nil, wLoopBody_derivatives,
    wLoopBody_conj, wLoopBody_pref, wLoopBody_pref2]
  simp

theorem iLoop_derivatives (c a e : Nat) :
    ((List.range 4).foldl (iLoopBody false q1 q2 i1 i2)
        (resetPrefactors s)).myvals.derivatives c a e =
      s.myvals.derivatives c a e
      + (if c = 1 ∧ a = 0 ∧ e = i1 then q2 1 else 0)
      + (if c = 1 ∧ a = 4 ∧ e = i2 then q1 1 else 0)
      + (if c = 1 ∧ a = 1 ∧ e = i1 then -q2 0 else 0)
      + (if c = 1 ∧ a = 5 ∧ e = i2 then q1 0 else 0)
      + (if c = 1 ∧ a = 2 ∧ e = i1 then -q2 3 else 0)
      + (if c = 1 ∧ a = 6 ∧ e = i2 then -q1 3 else 0)
      + (if c = 1 ∧ a = 3 ∧ e = i1 then q2 2 else 0)
      + (if c = 1 ∧ a = 7 ∧ e = i2 then q1 2 else 0) := by
  simp only [range_four, List.foldl_cons, List.foldl_nil, iLoopBody_derivatives,
    iLoopBody_conj, resetPrefactors_myvals, resetPrefactors_conj]
  simp

theorem jLoop_derivatives (c a e : Nat) :
    ((List.range 4).foldl (jLoopBody false q1 q2 i1 i2)
        (resetPrefactors s)).myvals.derivatives c a e =
      s.myvals.derivatives c a e
      + (if c = 2 ∧ a = 0 ∧ e = i1 then q2 2 else 0)
      + (if c = 2 ∧ a = 4 ∧ e = i2 then q1 2 else 0)
      + (if c = 2 ∧ a = 1 ∧ e = i1 then q2 3 else 0)
      + (if c = 2 ∧ a = 5 ∧ e = i2 then q1 3 else 0)
      + (if c = 2 ∧ a = 2 ∧ e = i1 then -q2 0 else 0)
      + (if c = 2 ∧ a = 6 ∧ e = i2 then q1 0 else 0)
      + (if c = 2 ∧ a = 3 ∧ e = i1 then -q2 1 else 0)
      + (if c = 2 ∧ a = 7 ∧ e = i2 then -q1 1 else 0) := by
  simp only [range_four, List.foldl_cons, List.foldl_nil, jLoopBody_derivatives,
    jLoopBody_conj, resetPrefactors_myvals, resetPrefactors_conj]
  simp

theorem kLoop_derivatives (c a e : Nat) :
    ((List.range 4).foldl (kLoopBody false q1 q2 i1 i2)
        (resetPrefactors s)).myvals.derivatives c a e =
      s.myvals.derivatives c a e
      + (if c = 3 ∧ a = 0 ∧ e = i1 then q2 3 else 0)
      + (if c = 3 ∧ a = 4 ∧ e = i2 then q1 3 else 0)
      + (if c = 3 ∧ a = 1 ∧ e = i1 then -q2 2 else 0)
      + (if c = 3 ∧ a = 5 ∧ e = i2 then -q1 2 else 0)
      + (if c = 3 ∧ a = 2 ∧ e = i1 then q2 1 else 0)
      + (if c = 3 ∧ a = 6 ∧ e = i2 then q1 1 else 0)
      + (if c = 3 ∧ a = 3 ∧ e = i1 then -q2 0 else 0)
      + (if c = 3 ∧ a = 7 ∧ e = i2 then q1 0 else 0) := by
  simp only [range_four, List.foldl_cons, List.foldl_nil, kLoopBody_derivatives,
    kLoopBody_conj, resetPrefactors_myvals, resetPrefactors_conj]
  simp

end bodies

theorem performTask_values (nd : Bool) (N : Nat) (arg : Nat → Nat → α) (index1 index2 : Nat)
    (mv : MultiValue α) :
    (performTask nd N arg index1 index2 mv).values 0 =
      mv.values 0 + (arg 0 index1 * arg 4 (if index2 ≥ N then index2 - N else index2)
        + arg 1 index1 * arg 5 (if index2 ≥ N then index2 - N else index2)
        + arg 2 index1 * arg 6 (if index2 ≥ N then index2 - N else index2)
        + arg 3 index1 * arg 7 (if index2 ≥ N then index2 - N else index2)) ∧
    (performTask nd N arg index1 index2 mv).values 1 =
      mv.values 1 + (arg 0 index1 * arg 5 (if index2 ≥ N then index2 - N else index2)
        - arg 1 index1 * arg 4 (if index2 ≥ N then index2 - N else index2)
        - arg 2 index1 * arg 7 (if index2 ≥ N then index2 - N else index2)
        + arg 3 index1 * arg 6 (if index2 ≥ N then index2 - N else index2)) ∧
    (performTask nd N arg index1 index2 mv).values 2 =
      mv.values 2 + (arg 0 index1 * arg 6 (if index2 ≥ N then index2 - N else index2)
        + arg 1 index1 * arg 7 (if index2 ≥ N then index2 - N else index2)
        - arg 2 index1 * arg 4 (if index2 ≥ N then index2 - N else index2)
        - arg 3 index1 * arg 5 (if index2 ≥ N then index2 - N else index2)) ∧
    (performTask nd N arg index1 index2 mv).values 3 =
      mv.values 3 + (arg 0 index1 * arg 7 (if index2 ≥ N then index2 - N else index2)
        - arg 1 index1 * arg 6 (if index2 ≥ N then index2 - N else index2)
        + arg 2 index1 * arg 5 (if index2 ≥ N then index2 - N else index2)
        - arg 3 index1 * arg 4 (if index2 ≥ N then index2 - N else index2)) := by
  simp only [performTask, kLoop_values, jLoop_values, iLoop_values, wLoop_values]
  refine ⟨?_, ?_, ?_, ?_⟩ <;> simp <;> ring

theorem performTask_derivative_exact (N : Nat) (arg : Nat → Nat → α) (index1 index2 : Nat)
    (mv : MultiValue α) (c : Fin 4) (m : Fin 8) (x : α) :
    (performTask false N (setInput arg m
        (if m.val < 4 then index1 else (if index2 ≥ N then index2 - N else index2)) x)
          index1 index2 mv).values c =
      (performTask false N arg index1 index2 mv).values c + (x - arg m
        (if m.val < 4 then index1 else (if index2 ≥ N then index2 - N else index2))) *
      ((performTask false N arg index1 index2 mv).derivatives c m
        (if m.val < 4 then index1 else (if index2 ≥ N then index2 - N else index2))
      - mv.derivatives c m
        (if m.val < 4 then index1 else (if index2 ≥ N then index2 - N else index2))) := by
  simp only [performTask, kLoop_values, jLoop_values, iLoop_values, wLoop_values,
    kLoop_derivatives, jLoop_derivatives, iLoop_derivatives, wLoop_derivatives]
  fin_cases c <;> fin_cases m <;> simp [setInput] <;> ring

/-- C1: for every row `r` and every column `c < M`, `setupForTask` stores the task index
`N + c` in `indices[c+1]`, and `performTask` at `(r, N + c)` adds to the four output components
w, i, j, k exactly the Hamilton product `conj(q1[r]) * q2[c]`, where
`q1[r] = (arg 0 r, arg 1 r, arg 2 r, arg 3 r)` and `q2[c] = (arg 4 c, arg 5 c, arg 6 c, arg 7 c)`
(whether or not derivatives are computed, and for every `r`). -/
theorem performTask_adds_conjugate_product (nd : Bool) (N M task_index : Nat)
    (arg : Nat → Nat → α) (indices : List Nat) (mv0 mv : MultiValue α) (r c : Nat)
    (hc : c < M) :
    (setupForTask N M task_index indices mv0).1[c + 1]? = some (N + c) ∧
    (performTask nd N arg r (N + c) mv).values 0 = mv.values 0 +
      (arg 0 r * arg 4 c + arg 1 r * arg 5 c + arg 2 r * arg 6 c + arg 3 r * arg 7 c) ∧
    (performTask nd N arg r (N + c) mv).values 1 = mv.values 1 +
      (arg 0 r * arg 5 c - arg 1 r * arg 4 c - arg 2 r * arg 7 c + arg 3 r * arg 6 c) ∧
    (performTask nd N arg r (N + c) mv).values 2 = mv.values 2 +
      (arg 0 r * arg 6 c + arg 1 r * arg 7 c - arg 2 r * arg 4 c - arg 3 r * arg 5 c) ∧
    (performTask nd N arg r (N + c) mv).values 3 = mv.values 3 +
      (arg 0 r * arg 7 c - arg 1 r * arg 6 c + arg 2 r * arg 5 c - arg 3 r * arg 4 c) := by
  refine ⟨setupForTask_indices N M task_index indices mv0 c hc, ?_⟩
  have h := performTask_values nd N arg r (N + c) mv
  have hge : N + c ≥ N := Nat.le_add_right N c
  simpa only [if_pos hge, Nat.add_sub_cancel_left] using h

/-- C1 at the sample input: row 1 of a first vector of length 2, column 2 of a second vector of
length 3. -/
theorem performTask_adds_conjugate_product_witness :
    (2 : Nat) < 3 ∧
    ((setupForTask 2 3 1 [] (MultiValue.cleared : MultiValue ℤ)).1[2 + 1]? = some (2 + 2) ∧
    (performTask false 2 sampleArg 1 (2 + 2) MultiValue.cleared).values 0 =
      (MultiValue.cleared : MultiValue ℤ).values 0 +
      (sampleArg 0 1 * sampleArg 4 2 + sampleArg 1 1 * sampleArg 5 2
        + sampleArg 2 1 * sampleArg 6 2 + sampleArg 3 1 * sampleArg 7 2) ∧
    (performTask false 2 sampleArg 1 (2 + 2) MultiValue.cleared).values 1 =
      (MultiValue.cleared : MultiValue ℤ).values 1 +
      (sampleArg 0 1 * sampleArg 5 2 - sampleArg 1 1 * sampleArg 4 2
        - sampleArg 2 1 * sampleArg 7 2 + sampleArg 3 1 * sampleArg 6 2) ∧
    (performTask false 2 sampleArg 1 (2 + 2) MultiValue.cleared).values 2 =
      (MultiValue.cleared : MultiValue ℤ).values 2 +
      (sampleArg 0 1 * sampleArg 6 2 + sampleArg 1 1 * sampleArg 7 2
        - sampleArg 2 1 * sampleArg 4 2 - sampleArg 3 1 * sampleArg 5 2) ∧
    (performTask false 2 sampleArg 1 (2 + 2) MultiValue.cleared).values 3 =
      (MultiValue.cleared : MultiValue ℤ).values 3 +
      (sampleArg 0 1 * sampleArg 7 2 - sampleArg 1 1 * sampleArg 6 2
        + sampleArg 2 1 * sampleArg 5 2 - sampleArg 3 1 * sampleArg 4 2)) :=
  ⟨by decide, performTask_adds_conjugate_product false 2 3 1 sampleArg []
    MultiValue.cleared MultiValue.cleared 1 2 (by decide)⟩

/-- C2: if the first quaternion read by `performTask` (element `index1` of arguments 0-3) and
the second one (element `ind2` of arguments 4-7) both have norm 1, then the 4-tuple that
`performTask` adds to the components w, i, j, k has norm 1, exactly over the reals. -/
theorem performTask_unit_norm (nd : Bool) (N : Nat) (arg : Nat → Nat → ℝ) (index1 index2 : Nat)
    (mv : MultiValue ℝ)
    (h1 : arg 0 index1 ^ 2 + arg 1 index1 ^ 2 + arg 2 index1 ^ 2 + arg 3 index1 ^ 2 = 1)
    (h2 : arg 4 (if index2 ≥ N then index2 - N else index2) ^ 2
      + arg 5 (if index2 ≥ N then index2 - N else index2) ^ 2
      + arg 6 (if index2 ≥ N then index2 - N else index2) ^ 2
      + arg 7 (if index2 ≥ N then index2 - N else index2) ^ 2 = 1) :
    ((performTask nd N arg index1 index2 mv).values 0 - mv.values 0) ^ 2
      + ((performTask nd N arg index1 index2 mv).values 1 - mv.values 1) ^ 2
      + ((performTask nd N arg index1 index2 mv).values 2 - mv.values 2) ^ 2
      + ((performTask nd N arg index1 index2 mv).values 3 - mv.values 3) ^ 2 = 1 := by
  obtain ⟨e0, e1, e2, e3⟩ := performTask_values nd N arg index1 index2 mv
  rw [e0, e1, e2, e3]
  generalize (if index2 ≥ N then index2 - N else index2) = c at h2 ⊢
  have key : ∀ a b : ℝ, a = 1 → b = 1 → a * b = 1 := fun a b ha hb => by rw [ha, hb, mul_one]
  rw [← key _ _ h1 h2]
  ring

/-- C2 at the unit quaternions `(3/5, 4/5, 0, 0)` and `(0, 0, 5/13, 12/13)`. -/
theorem performTask_unit_norm_witness :
    ((performTask false 1 (sampleUnitArg ℝ) 0 1 MultiValue.cleared).values 0
        - (MultiValue.cleared : MultiValue ℝ).values 0) ^ 2
      + ((performTask false 1 (sampleUnitArg ℝ) 0 1 MultiValue.cleared).values 1
        - (MultiValue.cleared : MultiValue ℝ).values 1) ^ 2
      + ((performTask false 1 (sampleUnitArg ℝ) 0 1 MultiValue.cleared).values 2
        - (MultiValue.cleared : MultiValue ℝ).values 2) ^ 2
      + ((performTask false 1 (sampleUnitArg ℝ) 0 1 MultiValue.cleared).values 3
        - (MultiValue.cleared : MultiValue ℝ).values 3) ^ 2 = 1 :=
  performTask_unit_norm false 1 (sampleUnitArg ℝ) 0 1 MultiValue.cleared
    (by norm_num [sampleUnitArg]) (by norm_num [sampleUnitArg])

/-- C3: with derivatives switched on, for every output component `c` (w, i, j, k) and every
input `m` (arguments 0-3: the unconjugated first quaternion at `index1`, arguments 4-7: the
second quaternion at `ind2`), the derivative that `performTask` records for `(c, m)` is the
partial derivative of output `c` with respect to input `m`: perturbing that input by `t`
changes the output by exactly `t` times the recorded derivative, and the output as a function
of that input has the recorded derivative at the current value. -/
theorem performTask_records_partial_derivatives (N : Nat) (arg : Nat → Nat → ℝ)
    (index1 index2 : Nat) (mv : MultiValue ℝ) (c : Fin 4) (m : Fin 8) :
    let e := if m.val < 4 then index1 else (if index2 ≥ N then index2 - N else index2)
    let recorded :=
      (performTask false N arg index1 index2 mv).derivatives c m e - mv.derivatives c m e
    (∀ t : ℝ, (performTask false N (setInput arg m e (arg m e + t)) index1 index2 mv).values c
      = (performTask false N arg index1 index2 mv).values c + t * recorded) ∧
    HasDerivAt (fun x => (performTask false N (setInput arg m e x) index1 index2 mv).values c)
      recorded (arg m e) := by
  intro e recorded
  have hx : ∀ x : ℝ, (performTask false N (setInput arg m e x) index1 index2 mv).values c
      = (performTask false N arg index1 index2 mv).values c + (x - arg m e) * recorded :=
    fun x => performTask_derivative_exact N arg index1 index2 mv c m x
  refine ⟨fun t => ?_, ?_⟩
  · rw [hx]
    ring
  · have hfun : (fun x => (performTask false N (setInput arg m e x) index1 index2 mv).values c)
        = fun x => (performTask false N arg index1 index2 mv).values c
          + (x - arg m e) * recorded := funext hx
    rw [hfun]
    simpa using (((hasDerivAt_id (arg m e)).sub_const (arg m e)).mul_const recorded).const_add
      ((performTask false N arg index1 index2 mv).values c)

end crystdistrib

/-! ## Properties of `LWalls` -/

namespace bias

section generic

variable {α : Type} [LinearOrderedField α]
variable (pow : α → α → α) (difference : Nat → α → α → α) (w : LWalls α)
  (getArgument : Nat → α)

theorem calculateBody_eq (s : CalcState α) (i : Nat) :
    calculateBody pow difference w getArgument s i =
      { ene := s.ene + wallEnergy pow difference w getArgument i,
        totf2 := s.totf2
          + wallForce pow difference w getArgument i * wallForce pow difference w getArgument i,
        outputForces :=
          Function.update s.outputForces i (wallForce pow difference w getArgument i) } := by
  by_cases h : (difference i (w.at_ i) (getArgument i) - w.offset i) / w.eps i < 0
  · simp [calculateBody, wallEnergy, wallForce, lscale, h]
  · simp [calculateBody, wallEnergy, wallForce, lscale, h]

theorem foldl_calculateBody (n : Nat) (s : CalcState α) :
    (List.range n).foldl (calculateBody pow difference w getArgument) s =
      { ene := s.ene + ∑ i in Finset.range n, wallEnergy pow difference w getArgument i,
        totf2 := s.totf2 + ∑ i in Finset.range n,
          wallForce pow difference w getArgument i * wallForce pow difference w getArgument i,
        outputForces := fun j =>
          if j < n then wallForce pow difference w getArgument j else s.outputForces j } := by
  induction n with
  | zero => simp
  | succ n ih =>
    rw [List.range_succ, List.foldl_append, ih]
    simp only [List.foldl_cons, List.foldl_nil, calculateBody_eq, Finset.sum_range_succ,
      add_assoc]
    congr 1
    funext j
    by_cases hj : j = n
    · subst hj
      simp
    · have : j < n + 1 ↔ j < n := by omega
      simp [Function.update_noteq hj, this]

theorem calculate_bias (n : Nat) (prev : Nat → α) :
    (calculate pow difference w n getArgument prev).bias =
      ∑ i in Finset.range n, wallEnergy pow difference w getArgument i := by
  simp [calculate, foldl_calculateBody]

theorem calculate_force2 (n : Nat) (prev : Nat → α) :
    (calculate pow difference w n getArgument prev).force2 =
      ∑ i in Finset.range n,
        wallForce pow difference w getArgument i * wallForce pow difference w getArgument i := by
  simp [calculate, foldl_calculateBody]

theorem calculate_outputForces (n : Nat) (prev : Nat → α) (i : Nat) (hi : i < n) :
    (calculate pow difference w n getArgument prev).outputForces i =
      wallForce pow difference w getArgument i := by
  simp [calculate, foldl_calculateBody, hi]


/-- C4: the bias set by `LWalls::calculate` is the sum, over exactly those arguments `i < n`
whose `lscale_i = (cv_i - offset[i]) / eps[i]` is negative, of `kappa[i] * |lscale_i|^exp[i]`
(for any periodicity-aware `difference`); for non-periodic arguments, where
`cv_i = x_i - at[i]`, this is the sum of `k_i * |(x_i - a_i - o_i)/s_i|^e_i` over the
arguments with `(x_i - a_i - o_i)/s_i < 0`. -/
theorem calculate_bias_eq_sum_engaged (n : Nat) (prev : Nat → α) :
    (calculate pow difference w n getArgument prev).bias =
      ∑ i in (Finset.range n).filter (fun i => lscale difference w getArgument i < 0),
        w.kappa i * pow |lscale difference w getArgument i| (w.exp i) ∧
    (calculate pow differenceNotPeriodic w n getArgument prev).bias =
      ∑ i in (Finset.range n).filter
          (fun i => (getArgument i - w.at_ i - w.offset i) / w.eps i < 0),
        w.kappa i * pow |(getArgument i - w.at_ i - w.offset i) / w.eps i| (w.exp i) := by
  have key : ∀ d : Nat → α → α → α, (calculate pow d w n getArgument prev).bias =
      ∑ i in (Finset.range n).filter (fun i => lscale d w getArgument i < 0),
        w.kappa i * pow |lscale d w getArgument i| (w.exp i) := by
    intro d
    rw [calculate_bias, Finset.sum_filter]
    refine Finset.sum_congr rfl (fun i _ => ?_)
    by_cases h : lscale d w getArgument i < 0
    · simp [wallEnergy, h, abs_of_neg h]
    · simp [wallEnergy, h]
  refine ⟨key difference, ?_⟩
  have h := key differenceNotPeriodic
  simpa only [lscale, differenceNotPeriodic] using h

/-- C5: if `(cv - offset[i]) / eps[i] ≥ 0` for argument `i < n`, then the force that
`LWalls::calculate` sets on argument `i` is exactly 0, iteration `i` of the loop leaves `ene`
and `totf2` unchanged, and the bias and `force2` are the sums of the contributions of the
other arguments. -/
theorem calculate_idle_argument (n : Nat) (prev : Nat → α) (i : Nat) (hi : i < n)
    (h : 0 ≤ (difference i (w.at_ i) (getArgument i) - w.offset i) / w.eps i) :
    (calculate pow difference w n getArgument prev).outputForces i = 0 ∧
    (∀ s : CalcState α,
      (calculateBody pow difference w getArgument s i).ene = s.ene ∧
      (calculateBody pow difference w getArgument s i).totf2 = s.totf2 ∧
      (calculateBody pow difference w getArgument s i).outputForces i = 0) ∧
    (calculate pow difference w n getArgument prev).bias =
      ∑ j in (Finset.range n).erase i, wallEnergy pow difference w getArgument j ∧
    (calculate pow difference w n getArgument prev).force2 =
      ∑ j in (Finset.range n).erase i,
        wallForce pow difference w getArgument j * wallForce pow difference w getArgument j := by
  have hn : ¬ lscale difference w getArgument i < 0 := not_lt.mpr h
  have hf : wallForce pow difference w getArgument i = 0 := by simp [wallForce, hn]
  have he : wallEnergy pow difference w getArgument i = 0 := by simp [wallEnergy, hn]
  have hmem : i ∈ Finset.range n := Finset.mem_range.mpr hi
  refine ⟨?_, ?_, ?_, ?_⟩
  · rw [calculate_outputForces _ _ _ _ _ _ _ hi, hf]
  · intro s
    simp [calculateBody_eq, hf, he]
  · rw [calculate_bias, ← Finset.add_sum_erase _ _ hmem, he, zero_add]
  · rw [calculate_force2, ← Finset.add_sum_erase _ _ hmem, hf, mul_zero, zero_add]

/-- C10: the `force2` component set by `LWalls::calculate` is the sum over all arguments
`i < n`, engaged or not, of the square of the force that the same call sets on argument `i`. -/
theorem calculate_force2_eq_sum_sq (n : Nat) (prev : Nat → α) :
    (calculate pow difference w n getArgument prev).force2 =
      ∑ i in Finset.range n,
        (calculate pow difference w n getArgument prev).outputForces i ^ 2 := by
  rw [calculate_force2]
  refine Finset.sum_congr rfl (fun i hi => ?_)
  rw [calculate_outputForces _ _ _ _ _ _ _ (Finset.mem_range.mp hi), sq]

/-- C8, amended: for a non-periodic argument `i` with `eps[i] > 0`, `LWalls::calculate` takes the
engaged branch `lscale < 0` exactly when the value of the argument is lower than `at[i]` plus
`offset[i]`: below that limit iteration `i` adds `k * power` to `ene`, `f * f` to `totf2` and
stores `f`; otherwise it only stores the force 0. -/
theorem calculateBody_engaged_iff_below_at_plus_offset (i : Nat) (heps : 0 < w.eps i) :
    (lscale differenceNotPeriodic w getArgument i < 0 ↔
      getArgument i < w.at_ i + w.offset i) ∧
    ∀ s : CalcState α, calculateBody pow differenceNotPeriodic w getArgument s i =
      if getArgument i < w.at_ i + w.offset i then
        { ene := s.ene + w.kappa i *
            pow (-((getArgument i - w.at_ i - w.offset i) / w.eps i)) (w.exp i),
          totf2 := s.totf2 +
            (-(w.kappa i / w.eps i) * w.exp i *
              pow (-((getArgument i - w.at_ i - w.offset i) / w.eps i)) (w.exp i) /
              ((getArgument i - w.at_ i - w.offset i) / w.eps i)) *
            (-(w.kappa i / w.eps i) * w.exp i *
              pow (-((getArgument i - w.at_ i - w.offset i) / w.eps i)) (w.exp i) /
              ((getArgument i - w.at_ i - w.offset i) / w.eps i)),
          outputForces := Function.update s.outputForces i
            (-(w.kappa i / w.eps i) * w.exp i *
              pow (-((getArgument i - w.at_ i - w.offset i) / w.eps i)) (w.exp i) /
              ((getArgument i - w.at_ i - w.offset i) / w.eps i)) }
      else { s with outputForces := Function.update s.outputForces i 0 } := by
  have hiff : (getArgument i - w.at_ i - w.offset i) / w.eps i < 0 ↔
      getArgument i < w.at_ i + w.offset i := by
    rw [div_neg_iff]
    constructor
    · rintro (⟨_, h⟩ | ⟨h, _⟩)
      · exact absurd heps (not_lt.mpr h.le)
      · linarith
    · intro h
      exact Or.inr ⟨by linarith, heps⟩
  refine ⟨by simpa only [lscale, differenceNotPeriodic] using hiff, fun s => ?_⟩
  by_cases h : getArgument i < w.at_ i + w.offset i
  · have h2 := hiff.mpr h
    simp [calculateBody, differenceNotPeriodic, h, h2]
  · have h2 : ¬ (getArgument i - w.at_ i - w.offset i) / w.eps i < 0 := fun hh => h (hiff.mp hh)
    simp [calculateBody, differenceNotPeriodic, h, h2]

end generic

section real

open Filter Topology

variable (difference : Nat → ℝ → ℝ → ℝ) (w : LWalls ℝ) (x : Nat → ℝ)

theorem wallEnergy_update_ne (pow : ℝ → ℝ → ℝ) (i j : Nat) (y : ℝ) (h : j ≠ i) :
    wallEnergy pow difference w (Function.update x i y) j = wallEnergy pow difference w x j := by
  simp [wallEnergy, lscale, Function.update_noteq h]

theorem calculate_bias_update (pow : ℝ → ℝ → ℝ) (n : Nat) (prev : Nat → ℝ) (i : Nat)
    (hi : i < n) (y : ℝ) :
    (calculate pow difference w n (Function.update x i y) prev).bias =
      wallEnergy pow difference w (Function.update x i y) i
        + ∑ j in (Finset.range n).erase i, wallEnergy pow difference w x j := by
  rw [calculate_bias, ← Finset.add_sum_erase _ _ (Finset.mem_range.mpr hi)]
  congr 1
  refine Finset.sum_congr rfl (fun j hj => ?_)
  exact wallEnergy_update_ne difference w x pow i j y (Finset.ne_of_mem_erase hj)

/-- In the engaged branch the force is `(k/eps) * e * (-lscale)^(e-1)`. -/
theorem wallForce_engaged (i : Nat) (hl : lscale difference w x i < 0) :
    wallForce Real.rpow difference w x i =
      w.kappa i / w.eps i * w.exp i * (-lscale difference w x i) ^ (w.exp i - 1) := by
  have hne : -lscale difference w x i ≠ 0 := by linarith
  have hne2 : lscale difference w x i ≠ 0 := by linarith
  rw [Real.rpow_sub_one hne]
  simp only [wallForce, if_pos hl, Real.rpow_eq_pow]
  field_simp
  ring

/-- C9: for an argument `i < n` with `lscale < 0`, `kappa[i] > 0`, `eps[i] > 0` and
`exp[i] > 0`, the force set on argument `i` is `-(kappa[i]/eps[i]) * exp[i] * |lscale|^exp[i] /
lscale`, and it is strictly positive. -/
theorem calculate_force_positive (n : Nat) (prev : Nat → ℝ) (i : Nat) (hi : i < n)
    (hl : lscale difference w x i < 0) (hk : 0 < w.kappa i) (heps : 0 < w.eps i)
    (he : 0 < w.exp i) :
    (calculate Real.rpow difference w n x prev).outputForces i =
      -(w.kappa i / w.eps i) * w.exp i * |lscale difference w x i| ^ (w.exp i)
        / lscale difference w x i ∧
    0 < (calculate Real.rpow difference w n x prev).outputForces i := by
  rw [calculate_outputForces _ _ _ _ _ _ _ hi]
  constructor
  · simp only [wallForce, if_pos hl, Real.rpow_eq_pow, abs_of_neg hl]
  · rw [wallForce_engaged difference w x i hl]
    have hpos : 0 < -lscale difference w x i := by linarith
    have := Real.rpow_pos_of_pos hpos (w.exp i - 1)
    positivity

/-- C6: for a non-periodic argument `i < n` whose value `x i` gives `lscale < 0`, the force that
`LWalls::calculate` sets on argument `i` is minus the derivative of the bias with respect to
the value of argument `i`, and equally with respect to `cv = x i - at[i]`, the other arguments
being held fixed. -/
theorem calculate_force_eq_neg_deriv (n : Nat) (prev : Nat → ℝ) (i : Nat) (hi : i < n)
    (hl : (x i - w.at_ i - w.offset i) / w.eps i < 0) :
    HasDerivAt
      (fun y => (calculate Real.rpow differenceNotPeriodic w n (Function.update x i y) prev).bias)
      (-(calculate Real.rpow differenceNotPeriodic w n x prev).outputForces i) (x i) ∧
    HasDerivAt
      (fun cv => (calculate Real.rpow differenceNotPeriodic w n
        (Function.update x i (w.at_ i + cv)) prev).bias)
      (-(calculate Real.rpow differenceNotPeriodic w n x prev).outputForces i)
      (x i - w.at_ i) := by
  have hl' : lscale differenceNotPeriodic w x i < 0 := by
    simpa only [lscale, differenceNotPeriodic] using hl
  have heps : w.eps i ≠ 0 := by
    intro h0
    rw [h0, div_zero] at hl
    exact lt_irrefl _ hl
  -- the scaled distance as a function of the value of argument `i`
  have hL : HasDerivAt (fun y : ℝ => -((y - w.at_ i - w.offset i) / w.eps i))
      (-(1 / w.eps i)) (x i) := by
    have := ((((hasDerivAt_id (x i)).sub_const (w.at_ i)).sub_const (w.offset i)).div_const
      (w.eps i)).neg
    simpa using this
  have hpow : HasDerivAt
      (fun y : ℝ => w.kappa i * (-((y - w.at_ i - w.offset i) / w.eps i)) ^ w.exp i)
      (w.kappa i * (-(1 / w.eps i) * w.exp i *
        (-((x i - w.at_ i - w.offset i) / w.eps i)) ^ (w.exp i - 1))) (x i) :=
    (hL.rpow_const (Or.inl (neg_ne_zero.mpr (ne_of_lt hl)))).const_mul (w.kappa i)
  have hev : (fun y => wallEnergy Real.rpow differenceNotPeriodic w (Function.update x i y) i)
      =ᶠ[𝓝 (x i)] fun y => w.kappa i * (-((y - w.at_ i - w.offset i) / w.eps i)) ^ w.exp i := by
    have hc : ContinuousAt (fun y : ℝ => (y - w.at_ i - w.offset i) / w.eps i) (x i) := by
      fun_prop
    filter_upwards [hc.eventually (Iio_mem_nhds hl)] with y hy
    have hy' : (y - w.at_ i - w.offset i) / w.eps i < 0 := hy
    simp [wallEnergy, lscale, differenceNotPeriodic, hy']
  have hE := hpow.congr_of_eventuallyEq hev
  have hval : -(calculate Real.rpow differenceNotPeriodic w n x prev).outputForces i =
      w.kappa i * (-(1 / w.eps i) * w.exp i *
        (-((x i - w.at_ i - w.offset i) / w.eps i)) ^ (w.exp i - 1)) := by
    rw [calculate_outputForces _ _ _ _ _ _ _ hi, wallForce_engaged _ _ _ _ hl']
    simp only [lscale, differenceNotPeriodic]
    ring
  have hx : HasDerivAt
      (fun y => (calculate Real.rpow differenceNotPeriodic w n (Function.update x i y) prev).bias)
      (-(calculate Real.rpow differenceNotPeriodic w n x prev).outputForces i) (x i) := by
    rw [hval]
    have hfun : (fun y =>
        (calculate Real.rpow differenceNotPeriodic w n (Function.update x i y) prev).bias) =
        fun y => wallEnergy Real.rpow differenceNotPeriodic w (Function.update x i y) i
          + ∑ j in (Finset.range n).erase i, wallEnergy Real.rpow differenceNotPeriodic w x j :=
      funext (fun y => calculate_bias_update differenceNotPeriodic w x Real.rpow n prev i hi y)
    rw [hfun]
    exact hE.add_const _
  refine ⟨hx, ?_⟩
  have hx' : HasDerivAt
      (fun y => (calculate Real.rpow differenceNotPeriodic w n (Function.update x i y) prev).bias)
      (-(calculate Real.rpow differenceNotPeriodic w n x prev).outputForces i)
      (w.at_ i + (x i - w.at_ i)) := by
    have e : w.at_ i + (x i - w.at_ i) = x i := by ring
    rw [e]
    exact hx
  exact hx'.comp_const_add (w.at_ i) (x i - w.at_ i)


theorem lscale_update_self (i : Nat) (y : ℝ) :
    lscale differenceNotPeriodic w (Function.update x i y) i =
      (y - w.at_ i - w.offset i) / w.eps i := by
  simp [lscale, differenceNotPeriodic]

/-- C7, amended: for a non-periodic argument `i < n` with `kappa[i] ≥ 0`, `exp[i] ≥ 1` and
`eps[i] ≠ 0`, holding the other arguments fixed, for any two values
`x2 ≤ x1 < at[i] + offset[i]` of the argument, the bias at `x2` is at least the bias at `x1`,
and the absolute value of the force on argument `i` at `x2` is at least that at `x1`. -/
theorem calculate_monotone_below_threshold (n : Nat) (prev : Nat → ℝ) (i : Nat) (hi : i < n)
    (hk : 0 ≤ w.kappa i) (he : 1 ≤ w.exp i) (heps0 : w.eps i ≠ 0) (x1 x2 : ℝ) (h21 : x2 ≤ x1)
    (h1 : x1 < w.at_ i + w.offset i) :
    (calculate Real.rpow differenceNotPeriodic w n (Function.update x i x1) prev).bias ≤
      (calculate Real.rpow differenceNotPeriodic w n (Function.update x i x2) prev).bias ∧
    |(calculate Real.rpow differenceNotPeriodic w n (Function.update x i x1) prev).outputForces i|
      ≤ |(calculate Real.rpow differenceNotPeriodic w n
            (Function.update x i x2) prev).outputForces i| := by
  rw [calculate_bias_update _ _ _ _ _ _ _ hi, calculate_bias_update _ _ _ _ _ _ _ hi,
    calculate_outputForces _ _ _ _ _ _ _ hi, calculate_outputForces _ _ _ _ _ _ _ hi]
  by_cases heps : 0 < w.eps i
  · have hl1 : lscale differenceNotPeriodic w (Function.update x i x1) i < 0 := by
      rw [lscale_update_self]
      exact div_neg_of_neg_of_pos (by linarith) heps
    have hl21 : lscale differenceNotPeriodic w (Function.update x i x2) i ≤
        lscale differenceNotPeriodic w (Function.update x i x1) i := by
      rw [lscale_update_self, lscale_update_self]
      exact div_le_div_of_nonneg_right (by linarith) heps.le
    have hl2 : lscale differenceNotPeriodic w (Function.update x i x2) i < 0 :=
      lt_of_le_of_lt hl21 hl1
    have hke : 0 ≤ w.kappa i / w.eps i * w.exp i :=
      mul_nonneg (div_nonneg hk heps.le) (by linarith)
    constructor
    · refine add_le_add_right ?_ _
      simp only [wallEnergy, if_pos hl1, if_pos hl2, Real.rpow_eq_pow]
      exact mul_le_mul_of_nonneg_left
        (Real.rpow_le_rpow (by linarith) (by linarith) (by linarith)) hk
    · rw [wallForce_engaged _ _ _ _ hl1, wallForce_engaged _ _ _ _ hl2]
      have hm : (-lscale differenceNotPeriodic w (Function.update x i x1) i) ^ (w.exp i - 1) ≤
          (-lscale differenceNotPeriodic w (Function.update x i x2) i) ^ (w.exp i - 1) :=
        Real.rpow_le_rpow (by linarith) (by linarith) (by linarith)
      have hp1 : 0 ≤
          (-lscale differenceNotPeriodic w (Function.update x i x1) i) ^ (w.exp i - 1) :=
        Real.rpow_nonneg (by linarith) _
      rw [abs_of_nonneg (mul_nonneg hke hp1), abs_of_nonneg (mul_nonneg hke (hp1.trans hm))]
      exact mul_le_mul_of_nonneg_left hm hke
  · have hneg : w.eps i < 0 := lt_of_le_of_ne (not_lt.mp heps) heps0
    have hidle : ∀ y : ℝ, y < w.at_ i + w.offset i →
        ¬ lscale differenceNotPeriodic w (Function.update x i y) i < 0 := by
      intro y hy
      rw [lscale_update_self, not_lt]
      exact div_nonneg_of_nonpos (by linarith) hneg.le
    have h1' := hidle x1 h1
    have h2' := hidle x2 (lt_of_le_of_lt h21 h1)
    simp [wallEnergy, wallForce, h1', h2']

end real

section samples

theorem four_rpow_half : (4 : ℝ) ^ ((1 : ℝ) / 2) = 2 := by
  rw [show (4 : ℝ) = 2 ^ (2 : ℝ) by norm_num, ← Real.rpow_mul (by norm_num)]
  norm_num

/-- C7 fails without conditions on the parameters. With `EXP=0.5` (`KAPPA=1 EPS=1 AT=0
OFFSET=0`) the force at `-4` is `1/4`, smaller than the force `1/2` at `-1`, although
`-4 ≤ -1 < at + offset = 0`; with `KAPPA=-1` (`EXP=2`) the bias at `-4` is `-16`, smaller than
the bias `-1` at `-1`. -/
theorem calculate_monotone_counterexample :
    ((-4 : ℝ) ≤ -1 ∧ (-1 : ℝ) < (sampleRootWalls ℝ).at_ 0 + (sampleRootWalls ℝ).offset 0 ∧
      ¬ (|(calculate Real.rpow differenceNotPeriodic (sampleRootWalls ℝ) 1
            (fun _ => -4) (fun _ => 0)).outputForces 0| ≥
          |(calculate Real.rpow differenceNotPeriodic (sampleRootWalls ℝ) 1
            (fun _ => -1) (fun _ => 0)).outputForces 0|)) ∧
    ((-4 : ℝ) ≤ -1 ∧
      (-1 : ℝ) < (sampleNegativeWalls ℝ).at_ 0 + (sampleNegativeWalls ℝ).offset 0 ∧
      ¬ ((calculate Real.rpow differenceNotPeriodic (sampleNegativeWalls ℝ) 1
            (fun _ => -4) (fun _ => 0)).bias ≥
          (calculate Real.rpow differenceNotPeriodic (sampleNegativeWalls ℝ) 1
            (fun _ => -1) (fun _ => 0)).bias)) := by
  refine ⟨⟨by norm_num, by norm_num [sampleRootWalls], ?_⟩,
    ⟨by norm_num, by norm_num [sampleNegativeWalls], ?_⟩⟩
  · rw [calculate_outputForces _ _ _ _ _ _ _ (by decide),
      calculate_outputForces _ _ _ _ _ _ _ (by decide)]
    norm_num [wallForce, lscale, differenceNotPeriodic, sampleRootWalls, four_rpow_half]
    rw [abs_of_pos (by norm_num), abs_of_pos (by norm_num)]
    norm_num
  · rw [calculate_bias, calculate_bias]
    norm_num [wallEnergy, lscale, differenceNotPeriodic, sampleNegativeWalls]

/-- C8 fails with a non-zero offset. With `AT=0 OFFSET=1 EPS=1 KAPPA=150 EXP=2` and the value 0
the wall acts (bias 150, force 300) although 0 is not lower than `at - offset = -1`. -/
theorem calculateBody_minus_offset_counterexample :
    (0 : ℝ) < (sampleWalls ℝ).eps 0 ∧
    (calculate Real.rpow differenceNotPeriodic (sampleWalls ℝ) 1 (fun _ => 0)
      (fun _ => 0)).bias = 150 ∧
    (calculate Real.rpow differenceNotPeriodic (sampleWalls ℝ) 1 (fun _ => 0)
      (fun _ => 0)).outputForces 0 = 300 ∧
    ¬ ((0 : ℝ) < (sampleWalls ℝ).at_ 0 - (sampleWalls ℝ).offset 0) := by
  refine ⟨by norm_num [sampleWalls], ?_, ?_, by norm_num [sampleWalls]⟩
  · rw [calculate_bias]
    norm_num [wallEnergy, lscale, differenceNotPeriodic, sampleWalls]
  · rw [calculate_outputForces _ _ _ _ _ _ _ (by decide)]
    norm_num [wallForce, lscale, differenceNotPeriodic, sampleWalls]

end samples

section witnesses

/-- C5 at the sample walls (limit 0, offset 1) and the value 2, above the wall. -/
theorem calculate_idle_argument_witness :
    (0 : Nat) < 1 ∧
    0 ≤ (differenceNotPeriodic 0 ((sampleWalls ℝ).at_ 0) 2 - (sampleWalls ℝ).offset 0)
      / (sampleWalls ℝ).eps 0 ∧
    (calculate Real.rpow differenceNotPeriodic (sampleWalls ℝ) 1 (fun _ => 2)
      (fun _ => 7)).outputForces 0 = 0 :=
  ⟨by decide, by norm_num [sampleWalls, differenceNotPeriodic],
    (calculate_idle_argument Real.rpow differenceNotPeriodic (sampleWalls ℝ) (fun _ => 2) 1
      (fun _ => 7) 0 (by decide) (by norm_num [sampleWalls, differenceNotPeriodic])).1⟩

/-- C6 at the sample walls and the value 0, below the wall. -/
theorem calculate_force_eq_neg_deriv_witness :
    (0 : Nat) < 1 ∧
    ((0 : ℝ) - (sampleWalls ℝ).at_ 0 - (sampleWalls ℝ).offset 0) / (sampleWalls ℝ).eps 0 < 0 ∧
    HasDerivAt
      (fun y => (calculate Real.rpow differenceNotPeriodic (sampleWalls ℝ) 1
        (Function.update (fun _ => 0) 0 y) (fun _ => 0)).bias)
      (-(calculate Real.rpow differenceNotPeriodic (sampleWalls ℝ) 1 (fun _ => 0)
        (fun _ => 0)).outputForces 0) 0 :=
  ⟨by decide, by norm_num [sampleWalls],
    (calculate_force_eq_neg_deriv (sampleWalls ℝ) (fun _ => 0) 1 (fun _ => 0) 0 (by decide)
      (by norm_num [sampleWalls])).1⟩

/-- C7, amended, at the sample walls and the values `-1 ≤ 0 < 1`. -/
theorem calculate_monotone_below_threshold_witness :
    (0 : Nat) < 1 ∧ 0 ≤ (sampleWalls ℝ).kappa 0 ∧ 1 ≤ (sampleWalls ℝ).exp 0 ∧
    (sampleWalls ℝ).eps 0 ≠ 0 ∧
    (-1 : ℝ) ≤ 0 ∧ (0 : ℝ) < (sampleWalls ℝ).at_ 0 + (sampleWalls ℝ).offset 0 ∧
    (calculate Real.rpow differenceNotPeriodic (sampleWalls ℝ) 1
        (Function.update (fun _ => 0) 0 0) (fun _ => 0)).bias ≤
      (calculate Real.rpow differenceNotPeriodic (sampleWalls ℝ) 1
        (Function.update (fun _ => 0) 0 (-1)) (fun _ => 0)).bias :=
  ⟨by decide, by norm_num [sampleWalls], by norm_num [sampleWalls], by norm_num [sampleWalls],
    by norm_num, by norm_num [sampleWalls],
    (calculate_monotone_below_threshold (sampleWalls ℝ) (fun _ => 0) 1 (fun _ => 0) 0
      (by decide) (by norm_num [sampleWalls]) (by norm_num [sampleWalls])
      (by norm_num [sampleWalls]) 0 (-1) (by norm_num) (by norm_num [sampleWalls])).1⟩

/-- C8, amended, at the sample walls and the value 0. -/
theorem calculateBody_engaged_iff_below_at_plus_offset_witness :
    (0 : ℝ) < (sampleWalls ℝ).eps 0 ∧
    (lscale differenceNotPeriodic (sampleWalls ℝ) (fun _ => 0) 0 < 0 ↔
      (0 : ℝ) < (sampleWalls ℝ).at_ 0 + (sampleWalls ℝ).offset 0) :=
  ⟨by norm_num [sampleWalls],
    (calculateBody_engaged_iff_below_at_plus_offset Real.rpow (sampleWalls ℝ) (fun _ => 0) 0
      (by norm_num [sampleWalls])).1⟩

/-- C9 at the sample walls and the value 0, below the wall. -/
theorem calculate_force_positive_witness :
    (0 : Nat) < 1 ∧ lscale differenceNotPeriodic (sampleWalls ℝ) (fun _ => 0) 0 < 0 ∧
    0 < (sampleWalls ℝ).kappa 0 ∧ 0 < (sampleWalls ℝ).eps 0 ∧ 0 < (sampleWalls ℝ).exp 0 ∧
    0 < (calculate Real.rpow differenceNotPeriodic (sampleWalls ℝ) 1 (fun _ => 0)
      (fun _ => 0)).outputForces 0 :=
  ⟨by decide, by norm_num [lscale, differenceNotPeriodic, sampleWalls],
    by norm_num [sampleWalls], by norm_num [sampleWalls], by norm_num [sampleWalls],
    (calculate_force_positive differenceNotPeriodic (sampleWalls ℝ) (fun _ => 0) 1 (fun _ => 0)
      0 (by decide) (by norm_num [lscale, differenceNotPeriodic, sampleWalls])
      (by norm_num [sampleWalls]) (by norm_num [sampleWalls]) (by norm_num [sampleWalls])).2⟩

end witnesses

end bias

/-! ## Properties of `WholeMolecules::calculate` -/

namespace generic

section loops

variable {V : Type} [AddCommGroup V] (pbcDistance : V → V → V)

theorem getD_mem_tail (g : List (Nat × Nat)) (j : Nat) (h1 : 1 ≤ j) (hj : j < g.length) :
    g.getD j default ∈ g.tail := by
  cases g with
  | nil => simp at hj
  | cons a t =>
    obtain ⟨k, rfl⟩ : ∃ k, j = k + 1 := ⟨j - 1, by omega⟩
    have hk : k < t.length := by simpa using hj
    rw [List.tail_cons, List.getD_cons_succ, List.getD_eq_getElem t default hk]
    exact List.getElem_mem hk

theorem treeLoop_frame (g r : List (Nat × Nat)) (n : Nat) (pos : Nat × Nat → V) (a : Nat × Nat)
    (ha : ∀ j, 1 ≤ j → j ≤ n → a ≠ g.getD j default) :
    (List.range' 1 n).foldl (treeBody pbcDistance g r) pos a = pos a := by
  induction n with
  | zero => simp
  | succ n ih =>
    rw [List.range'_1_concat, List.foldl_append]
    simp only [List.foldl_cons, List.foldl_nil, treeBody]
    rw [Function.update_noteq (ha (1 + n) (by omega) (by omega))]
    exact ih (fun j h1 hj => ha j h1 (by omega))

theorem treeLoop_link (g r : List (Nat × Nat))
    (hnd : ∀ m j, m < g.length → j < g.length → g.getD m default = g.getD j default → m = j)
    (hpar : ∀ j, 1 ≤ j → j < g.length →
      ∃ m, m < j ∧ r.getD (j - 1) default = g.getD m default)
    (pos : Nat × Nat → V) (n : Nat) (hn : n < g.length) (j : Nat) (h1 : 1 ≤ j) (hj : j ≤ n) :
    (List.range' 1 n).foldl (treeBody pbcDistance g r) pos (g.getD j default) =
      (List.range' 1 n).foldl (treeBody pbcDistance g r) pos (r.getD (j - 1) default)
      + pbcDistance
          ((List.range' 1 n).foldl (treeBody pbcDistance g r) pos (r.getD (j - 1) default))
          (pos (g.getD j default)) := by
  induction n with
  | zero => omega
  | succ n ih =>
    rw [List.range'_1_concat, List.foldl_append]
    simp only [List.foldl_cons, List.foldl_nil]
    have hparent : ∀ j', 1 ≤ j' → j' ≤ n + 1 →
        r.getD (j' - 1) default ≠ g.getD (1 + n) default := by
      intro j' h1' hj' heq
      obtain ⟨m, hm, hr⟩ := hpar j' h1' (by omega)
      rw [hr] at heq
      have := hnd m (1 + n) (by omega) (by omega) heq
      omega
    by_cases hjn : j = n + 1
    · subst hjn
      have e : 1 + n = n + 1 := by omega
      simp only [treeBody, e, Nat.add_sub_cancel]
      have hne := hparent (n + 1) (by omega) (by omega)
      rw [e] at hne
      simp only [Nat.add_sub_cancel] at hne
      rw [Function.update_same, Function.update_noteq hne]
      congr 2
      exact treeLoop_frame pbcDistance g r n pos _
        (fun j' h1' hj' heq => by
          have := hnd (n + 1) j' (by omega) (by omega) heq
          omega)
    · have hjn' : j ≤ n := by omega
      have hne1 : g.getD j default ≠ g.getD (1 + n) default := by
        intro heq
        have := hnd j (1 + n) (by omega) (by omega) heq
        omega
      have hne2 := hparent j h1 (by omega)
      simp only [treeBody]
      rw [Function.update_noteq hne1, Function.update_noteq hne2]
      exact ih (by omega) hjn'

theorem defaultLoop_eq_treeLoop (g : List (Nat × Nat)) (n : Nat) (s : V × (Nat × Nat → V))
    (hs : s.2 (g.getD 0 default) = s.1) :
    (List.range' 1 n).foldl (defaultBody pbcDistance g) s =
      ((List.range' 1 n).foldl (treeBody pbcDistance g g) s.2 (g.getD n default),
        (List.range' 1 n).foldl (treeBody pbcDistance g g) s.2) := by
  induction n with
  | zero =>
    simp only [List.range'_zero, List.foldl_nil]
    rw [hs]
  | succ n ih =>
    rw [List.range'_1_concat, List.foldl_append, List.foldl_append, ih]
    have e : 1 + n = n + 1 := by omega
    simp [defaultBody, treeBody, e]

end loops


section entities

variable {V : Type} [AddCommGroup V] (pbcDistance : V → V → V) (w : WholeMolecules V)

theorem nodup_getD_inj {g : List (Nat × Nat)} (hg : g.Nodup) (m j : Nat) (hm : m < g.length)
    (hj : j < g.length) (h : g.getD m default = g.getD j default) : m = j := by
  rw [List.getD_eq_getElem g default hm, List.getD_eq_getElem g default hj] at h
  exact (hg.getElem_inj_iff).mp h

theorem calculateEntity_eq_treeLoop (pos : Nat × Nat → V) (i : Nat) :
    calculateEntity pbcDistance w pos i =
      (List.range' 1 ((w.p_groups.getD i []).length - 1)).foldl
        (treeBody pbcDistance (w.p_groups.getD i [])
          (if w.doemst then w.p_roots.getD i [] else w.p_groups.getD i []))
        (anchoredPositions pbcDistance w pos i) := by
  unfold calculateEntity anchoredPositions
  cases hd : w.doemst <;> cases ha : w.addref
  all_goals simp only [Bool.not_false, Bool.not_true, if_true, if_false, Bool.false_eq_true]
  · rw [defaultLoop_eq_treeLoop pbcDistance _ _ _ rfl]
  · rw [defaultLoop_eq_treeLoop pbcDistance _ _ _ (by simp)]

theorem calculateEntity_frame (pos : Nat × Nat → V) (i : Nat) (a : Nat × Nat)
    (ha : a ∉ rewrittenAtoms w i) : calculateEntity pbcDistance w pos i a = pos a := by
  rw [calculateEntity_eq_treeLoop]
  unfold rewrittenAtoms at ha
  rw [List.mem_append, not_or] at ha
  rw [treeLoop_frame]
  · unfold anchoredPositions
    split_ifs with h
    · rw [if_pos h] at ha
      have hne : a ≠ (w.p_groups.getD i []).getD 0 default := by
        intro he
        exact ha.1 (by rw [he]; exact List.mem_singleton_self _)
      rw [Function.update_noteq hne]
    · rfl
  · intro j h1 hj he
    apply ha.2
    rw [he]
    exact getD_mem_tail _ j h1 (by omega)

theorem foldl_calculateEntity_frame (ks : List Nat) (pos : Nat × Nat → V) (a : Nat × Nat)
    (ha : ∀ k ∈ ks, a ∉ rewrittenAtoms w k) :
    ks.foldl (calculateEntity pbcDistance w) pos a = pos a := by
  induction ks generalizing pos with
  | nil => rfl
  | cons k ks ih =>
    rw [List.foldl_cons, ih _ (fun k' hk' => ha k' (List.mem_cons_of_mem _ hk'))]
    exact calculateEntity_frame pbcDistance w pos k a (ha k (List.mem_cons_self _ _))

theorem calculate_split (pos : Nat × Nat → V) (i : Nat) (hi : i < w.p_groups.length) :
    calculate pbcDistance w pos =
      (List.range' (i + 1) (w.p_groups.length - (i + 1))).foldl (calculateEntity pbcDistance w)
        (calculateEntity pbcDistance w
          ((List.range' 0 i).foldl (calculateEntity pbcDistance w) pos) i) := by
  unfold calculate
  have e : List.range w.p_groups.length =
      List.range' 0 i ++ i :: List.range' (i + 1) (w.p_groups.length - (i + 1)) := by
    obtain ⟨m, hm⟩ : ∃ m, w.p_groups.length = i + (m + 1) :=
      ⟨w.p_groups.length - (i + 1), by omega⟩
    have e2 : i + (m + 1) - (i + 1) = m := by omega
    rw [hm, e2, List.range_eq_range', Nat.add_comm i (m + 1), ← List.range'_append_1 0 i (m + 1),
      List.range'_succ, Nat.zero_add]
  rw [e, List.foldl_append, List.foldl_cons]

/-- For an atom that no other entity rewrites, the stored position after `calculate` is the one
that the reconstruction of entity `i` leaves, and entity `i` finds its position untouched. -/
theorem calculate_eq_calculateEntity (pos : Nat × Nat → V) (i : Nat)
    (hi : i < w.p_groups.length) (a : Nat × Nat)
    (ha : ∀ k, k < w.p_groups.length → k ≠ i → a ∉ rewrittenAtoms w k) :
    calculate pbcDistance w pos a =
      calculateEntity pbcDistance w
        ((List.range' 0 i).foldl (calculateEntity pbcDistance w) pos) i a ∧
    (List.range' 0 i).foldl (calculateEntity pbcDistance w) pos a = pos a := by
  constructor
  · rw [calculate_split pbcDistance w pos i hi]
    apply foldl_calculateEntity_frame
    intro k hk
    rw [List.mem_range'_1] at hk
    exact ha k (by omega) (by omega)
  · apply foldl_calculateEntity_frame
    intro k hk
    rw [List.mem_range'_1] at hk
    exact ha k (by omega) (by omega)

/-- The reconstruction of an entity of pairwise distinct atoms leaves its first atom where the
`if(addref)` statement put it. -/
theorem calculateEntity_first (pos : Nat × Nat → V) (i : Nat)
    (hnd : (w.p_groups.getD i []).Nodup) (hne : 0 < (w.p_groups.getD i []).length) :
    calculateEntity pbcDistance w pos i ((w.p_groups.getD i []).getD 0 default) =
      if w.addref then w.refs.getD i 0 +
        pbcDistance (w.refs.getD i 0) (pos ((w.p_groups.getD i []).getD 0 default))
      else pos ((w.p_groups.getD i []).getD 0 default) := by
  rw [calculateEntity_eq_treeLoop, treeLoop_frame]
  · unfold anchoredPositions
    split_ifs <;> simp
  · intro j h1 hj he
    have := nodup_getD_inj hnd 0 j hne (by omega) he
    omega

/-- The reconstruction of an entity of pairwise distinct atoms puts atom `j ≥ 1` at
`anchor + pbcDistance(anchor, old position)`, the anchor being taken at its final position. -/
theorem calculateEntity_link (pos : Nat × Nat → V) (i : Nat)
    (hnd : (w.p_groups.getD i []).Nodup)
    (hpar : w.doemst = true → ∀ j, 1 ≤ j → j < (w.p_groups.getD i []).length →
      ∃ m, m < j ∧ (w.p_roots.getD i []).getD (j - 1) default =
        (w.p_groups.getD i []).getD m default)
    (j : Nat) (h1 : 1 ≤ j) (hj : j < (w.p_groups.getD i []).length) :
    calculateEntity pbcDistance w pos i ((w.p_groups.getD i []).getD j default) =
      calculateEntity pbcDistance w pos i (anchorAtom w i j) +
        pbcDistance (calculateEntity pbcDistance w pos i (anchorAtom w i j))
          (pos ((w.p_groups.getD i []).getD j default)) := by
  have hpar2 : ∀ j, 1 ≤ j → j < (w.p_groups.getD i []).length →
      ∃ m, m < j ∧ (if w.doemst then w.p_roots.getD i [] else w.p_groups.getD i []).getD
        (j - 1) default = (w.p_groups.getD i []).getD m default := by
    intro j h1 hj
    by_cases hd : w.doemst = true
    · simpa only [hd, if_true] using hpar hd j h1 hj
    · exact ⟨j - 1, by omega, by simp only [hd, if_false, Bool.false_eq_true]⟩
  have hanchor : anchorAtom w i j =
      (if w.doemst then w.p_roots.getD i [] else w.p_groups.getD i []).getD (j - 1) default := by
    unfold anchorAtom
    split_ifs <;> rfl
  rw [calculateEntity_eq_treeLoop, hanchor,
    treeLoop_link pbcDistance _ _ (nodup_getD_inj hnd) hpar2 _ _ (by omega) j h1 (by omega)]
  congr 2
  unfold anchoredPositions
  split_ifs
  · rw [Function.update_noteq]
    intro he
    have := nodup_getD_inj hnd j 0 hj (by omega) he
    omega
  · rfl

end entities


section claims

variable {V : Type} [AddCommGroup V] (pbcDistance : V → V → V) (w : WholeMolecules V)

theorem getD_of_getElem? {β : Type} {l : List β} {n : Nat} {x : β} (d : β) (h : l[n]? = some x) :
    n < l.length ∧ l.getD n d = x := by
  obtain ⟨hn, hx⟩ := List.getElem?_eq_some.mp h
  exact ⟨hn, by rw [List.getD_eq_getElem l d hn, hx]⟩

/-- C11, amended: in default mode, for every entity `g` (entity `i`) whose atoms are pairwise
distinct and are not rewritten by another entity, after `calculate` the stored position of
atom `a = g[j]`, `j ≥ 1`, is `anchor + pbcDistance(anchor, raw)`, where `raw` is the position
of `a` before the call and `anchor` the reconstructed position of the preceding atom
`b = g[j-1]`. -/
theorem calculate_default_chain (hdef : w.doemst = false) (pos : Nat × Nat → V) (i : Nat)
    (g : List (Nat × Nat)) (hg : w.p_groups[i]? = some g) (hnd : g.Nodup)
    (hiso : ∀ k, k < w.p_groups.length → k ≠ i → ∀ a ∈ g, a ∉ rewrittenAtoms w k)
    (j : Nat) (a b : Nat × Nat) (h1 : 1 ≤ j) (ha : g[j]? = some a) (hb : g[j - 1]? = some b) :
    calculate pbcDistance w pos a =
      calculate pbcDistance w pos b + pbcDistance (calculate pbcDistance w pos b) (pos a) := by
  obtain ⟨hi, hgi⟩ := getD_of_getElem? [] hg
  obtain ⟨hj, hja⟩ := getD_of_getElem? default ha
  obtain ⟨_, hjb⟩ := getD_of_getElem? default hb
  have hmem : ∀ x, g[j]? = some x ∨ g[j - 1]? = some x → x ∈ g := by
    rintro x (h | h)
    · exact List.mem_iff_getElem?.mpr ⟨_, h⟩
    · exact List.mem_iff_getElem?.mpr ⟨_, h⟩
  obtain ⟨ea, pa⟩ := calculate_eq_calculateEntity pbcDistance w pos i hi a
    (fun k hk hki => hiso k hk hki a (hmem a (Or.inl ha)))
  obtain ⟨eb, _⟩ := calculate_eq_calculateEntity pbcDistance w pos i hi b
    (fun k hk hki => hiso k hk hki b (hmem b (Or.inr hb)))
  have hanchor : anchorAtom w i j = b := by
    unfold anchorAtom
    rw [hdef, hgi]
    exact hjb
  have hlink := calculateEntity_link pbcDistance w
    ((List.range' 0 i).foldl (calculateEntity pbcDistance w) pos) i (by rw [hgi]; exact hnd)
    (fun h => by rw [hdef] at h; exact absurd h (by decide)) j h1 (by rw [hgi]; exact hj)
  rw [hgi, hja, hanchor, pa] at hlink
  rw [ea, eb, hlink]

/-- The reconstruction of an entity of pairwise distinct atoms leaves every atom at a position
that `pbcDistance` does not tell apart from its old position, when `pbcDistance` does not tell
`u + pbcDistance(u, v)` apart from `v`. -/
theorem calculateEntity_image (hH : ∀ u v x, pbcDistance (u + pbcDistance u v) x = pbcDistance v x)
    (pos : Nat × Nat → V) (i : Nat) (hnd : (w.p_groups.getD i []).Nodup)
    (hpar : w.doemst = true → ∀ j, 1 ≤ j → j < (w.p_groups.getD i []).length →
      ∃ m, m < j ∧ (w.p_roots.getD i []).getD (j - 1) default =
        (w.p_groups.getD i []).getD m default)
    (m : Nat) (hm : m < (w.p_groups.getD i []).length) (x : V) :
    pbcDistance (calculateEntity pbcDistance w pos i ((w.p_groups.getD i []).getD m default)) x =
      pbcDistance (pos ((w.p_groups.getD i []).getD m default)) x := by
  rcases Nat.eq_zero_or_pos m with h0 | hpos
  · subst h0
    rw [calculateEntity_first pbcDistance w pos i hnd hm]
    split_ifs
    · exact hH _ _ _
    · rfl
  · rw [calculateEntity_link pbcDistance w pos i hnd hpar m hpos hm]
    exact hH _ _ _

/-- C12, amended: for every entity `g` (entity `i`) whose atoms are pairwise distinct and are
not rewritten by another entity, and every atom `a = g[j]`, `j ≥ 1`, with its anchor (the
preceding atom in default mode, the root `p_roots[i][j-1]` in tree mode, which is an earlier
atom of the list), the difference between the two reconstructed positions is the minimum-image
difference `pbcDistance` of the two original positions, so the reconstructed distance equals the
minimum-image distance. The minimum-image function is one that does not tell the image
`u + pbcDistance(u, v)` of `v` apart from `v`. -/
theorem calculate_bond_eq_minimum_image
    (hH : ∀ u v x, pbcDistance (u + pbcDistance u v) x = pbcDistance v x)
    (pos : Nat × Nat → V) (i : Nat) (g : List (Nat × Nat)) (hg : w.p_groups[i]? = some g)
    (hnd : g.Nodup)
    (hiso : ∀ k, k < w.p_groups.length → k ≠ i → ∀ a ∈ g, a ∉ rewrittenAtoms w k)
    (hpar : w.doemst = true → ∀ j, 1 ≤ j → j < g.length →
      ∃ m, m < j ∧ (w.p_roots.getD i []).getD (j - 1) default = g.getD m default)
    (j : Nat) (a : Nat × Nat) (h1 : 1 ≤ j) (ha : g[j]? = some a) :
    calculate pbcDistance w pos a - calculate pbcDistance w pos (anchorAtom w i j) =
      pbcDistance (pos (anchorAtom w i j)) (pos a) := by
  obtain ⟨hi, hgi⟩ := getD_of_getElem? [] hg
  obtain ⟨hj, hja⟩ := getD_of_getElem? default ha
  have hpar2 : w.doemst = true → ∀ j, 1 ≤ j → j < (w.p_groups.getD i []).length →
      ∃ m, m < j ∧ (w.p_roots.getD i []).getD (j - 1) default =
        (w.p_groups.getD i []).getD m default := by
    rw [hgi]
    exact hpar
  obtain ⟨m, hmj, hanchor⟩ : ∃ m, m < j ∧ anchorAtom w i j = g.getD m default := by
    unfold anchorAtom
    by_cases hd : w.doemst = true
    · rw [if_pos hd]
      exact hpar hd j h1 hj
    · rw [if_neg hd, hgi]
      exact ⟨j - 1, by omega, rfl⟩
  have hmemb : anchorAtom w i j ∈ g := by
    rw [hanchor, List.getD_eq_getElem g default (by omega)]
    exact List.getElem_mem _
  obtain ⟨ea, pa⟩ := calculate_eq_calculateEntity pbcDistance w pos i hi a
    (fun k hk hki => hiso k hk hki a (List.mem_iff_getElem?.mpr ⟨_, ha⟩))
  obtain ⟨eb, pb⟩ := calculate_eq_calculateEntity pbcDistance w pos i hi (anchorAtom w i j)
    (fun k hk hki => hiso k hk hki _ hmemb)
  have hlink := calculateEntity_link pbcDistance w
    ((List.range' 0 i).foldl (calculateEntity pbcDistance w) pos) i (by rw [hgi]; exact hnd)
    hpar2 j h1 (by rw [hgi]; exact hj)
  have himage := calculateEntity_image pbcDistance w hH
    ((List.range' 0 i).foldl (calculateEntity pbcDistance w) pos) i (by rw [hgi]; exact hnd)
    hpar2 m (by rw [hgi]; omega)
    ((List.range' 0 i).foldl (calculateEntity pbcDistance w) pos
      ((w.p_groups.getD i []).getD j default))
  rw [hgi] at himage hlink
  rw [← hanchor] at himage
  rw [hja] at himage hlink
  rw [ea, eb, hlink, himage, pa, pb]
  exact add_sub_cancel_left _ _

/-- C15: for every entity `g` (entity `i`) whose atoms are pairwise distinct and whose first
atom `a` is not rewritten by another entity, in default and in tree mode alike, `calculate`
leaves the position of `a` unchanged without ADDREFERENCE, and sets it to
`ref + pbcDistance(ref, first)` with ADDREFERENCE, `ref` being the reference `refs[i]`. -/
theorem calculate_first_atom (pos : Nat × Nat → V) (i : Nat) (g : List (Nat × Nat))
    (hg : w.p_groups[i]? = some g) (hnd : g.Nodup) (a : Nat × Nat) (ha : g[0]? = some a)
    (hiso : ∀ k, k < w.p_groups.length → k ≠ i → a ∉ rewrittenAtoms w k) :
    (w.addref = false → calculate pbcDistance w pos a = pos a) ∧
    (w.addref = true → ∀ ref, w.refs[i]? = some ref →
      calculate pbcDistance w pos a = ref + pbcDistance ref (pos a)) := by
  obtain ⟨hi, hgi⟩ := getD_of_getElem? [] hg
  obtain ⟨h0, h0a⟩ := getD_of_getElem? default ha
  obtain ⟨ea, pa⟩ := calculate_eq_calculateEntity pbcDistance w pos i hi a hiso
  have hfirst := calculateEntity_first pbcDistance w
    ((List.range' 0 i).foldl (calculateEntity pbcDistance w) pos) i (by rw [hgi]; exact hnd)
    (by rw [hgi]; exact h0)
  rw [hgi, h0a, pa] at hfirst
  rw [ea, hfirst]
  refine ⟨fun h => ?_, fun h ref href => ?_⟩
  · rw [h]
    rfl
  · rw [h, if_pos rfl, (getD_of_getElem? 0 href).2]

end claims


section orthorhombic

variable {α : Type} [LinearOrderedField α] [FloorRing α] (box : Fin 3 → α)

theorem round_eq_of_near (x : α) (n : ℤ) (h1 : (n : α) - 1 / 2 ≤ x) (h2 : x < n + 1 / 2) :
    round x = n := by
  rw [round_eq, Int.floor_eq_iff]
  constructor <;> linarith

omit [FloorRing α] in
theorem IsLatticeVector.sub {s t : Fin 3 → α} (hs : IsLatticeVector box s)
    (ht : IsLatticeVector box t) : IsLatticeVector box (s - t) := by
  intro k
  obtain ⟨m, hm⟩ := hs k
  obtain ⟨n, hn⟩ := ht k
  exact ⟨m - n, by rw [Pi.sub_apply, hm, hn]; push_cast; ring⟩

omit [FloorRing α] in
theorem IsLatticeVector.add {s t : Fin 3 → α} (hs : IsLatticeVector box s)
    (ht : IsLatticeVector box t) : IsLatticeVector box (s + t) := by
  intro k
  obtain ⟨m, hm⟩ := hs k
  obtain ⟨n, hn⟩ := ht k
  exact ⟨m + n, by rw [Pi.add_apply, hm, hn]; push_cast; ring⟩

/-- The orthorhombic minimum image differs from the plain difference by a lattice
translation. -/
theorem pbcDistanceOrthorhombic_lattice (x y : Fin 3 → α) :
    IsLatticeVector box (x + pbcDistanceOrthorhombic box x y - y) := by
  intro k
  refine ⟨-round ((y k - x k) / box k), ?_⟩
  simp only [pbcDistanceOrthorhombic, Pi.add_apply, Pi.sub_apply]
  push_cast
  ring

/-- If `y - x` is a lattice translation away from a vector `d` that is shorter than half a box
side along every axis, the orthorhombic minimum image of `y - x` is `d`. -/
theorem pbcDistanceOrthorhombic_of_close (hbox : ∀ k, 0 < box k) (x y d : Fin 3 → α)
    (hd : ∀ k, |d k| < box k / 2) (ht : IsLatticeVector box (y - x - d)) :
    pbcDistanceOrthorhombic box x y = d := by
  funext k
  obtain ⟨n, hn⟩ := ht k
  simp only [Pi.sub_apply] at hn
  have hb := hbox k
  have hyx : y k - x k = d k + n * box k := by linarith
  have hdiv : (y k - x k) / box k = d k / box k + n := by
    rw [hyx]
    field_simp
  have hr0 : round (d k / box k) = 0 := by
    apply round_eq_of_near
    · have := (abs_lt.mp (hd k)).1
      rw [le_div_iff₀ hb]
      push_cast
      linarith
    · have := (abs_lt.mp (hd k)).2
      rw [div_lt_iff₀ hb]
      push_cast
      linarith
  simp only [pbcDistanceOrthorhombic]
  rw [hdiv, round_add_int, hr0, hyx]
  push_cast
  ring

/-- Invariant of the default-mode loop on images of an unwrapped configuration whose consecutive
atoms are close: after `n` iterations the atoms `g[0..n]` all carry the lattice translation of
the first atom, and every atom of the list is still an image. -/
theorem treeLoop_whole (hbox : ∀ k, 0 < box k) (g : List (Nat × Nat))
    (truePos Q : Nat × Nat → Fin 3 → α)
    (himg : ∀ m, m < g.length →
      IsLatticeVector box (Q (g.getD m default) - truePos (g.getD m default)))
    (hclose : ∀ m, m + 1 < g.length → ∀ k,
      |truePos (g.getD (m + 1) default) k - truePos (g.getD m default) k| < box k / 2)
    (n : Nat) (hn : n < g.length) :
    (∀ m, m ≤ n →
      (List.range' 1 n).foldl (treeBody (pbcDistanceOrthorhombic box) g g) Q (g.getD m default)
        - truePos (g.getD m default) = Q (g.getD 0 default) - truePos (g.getD 0 default)) ∧
    (∀ m, m < g.length → IsLatticeVector box
      ((List.range' 1 n).foldl (treeBody (pbcDistanceOrthorhombic box) g g) Q (g.getD m default)
        - truePos (g.getD m default))) := by
  induction n with
  | zero =>
    refine ⟨fun m hm => ?_, fun m hm => ?_⟩
    · have : m = 0 := by omega
      subst this
      rfl
    · exact himg m hm
  | succ n ih =>
    obtain ⟨ih1, ih2⟩ := ih (by omega)
    have e : 1 + n = n + 1 := by omega
    have hstep : (List.range' 1 (n + 1)).foldl (treeBody (pbcDistanceOrthorhombic box) g g) Q =
        Function.update
          ((List.range' 1 n).foldl (treeBody (pbcDistanceOrthorhombic box) g g) Q)
          (g.getD (n + 1) default)
          (truePos (g.getD (n + 1) default)
            + (Q (g.getD 0 default) - truePos (g.getD 0 default))) := by
      rw [List.range'_1_concat, List.foldl_append]
      simp only [List.foldl_cons, List.foldl_nil, treeBody, e, Nat.add_sub_cancel]
      have hc := ih1 n (le_refl n)
      have hpbc := pbcDistanceOrthorhombic_of_close box hbox
        ((List.range' 1 n).foldl (treeBody (pbcDistanceOrthorhombic box) g g) Q
          (g.getD n default))
        ((List.range' 1 n).foldl (treeBody (pbcDistanceOrthorhombic box) g g) Q
          (g.getD (n + 1) default))
        (truePos (g.getD (n + 1) default) - truePos (g.getD n default))
        (hclose n hn)
        (by
          have h := (ih2 (n + 1) hn).sub box (ih2 n (by omega))
          rw [sub_sub_sub_comm]
          exact h)
      rw [hpbc]
      rw [sub_eq_iff_eq_add] at hc
      rw [hc]
      refine congrArg (Function.update _ _) ?_
      funext k
      simp only [Pi.add_apply, Pi.sub_apply]
      ring
    rw [hstep]
    refine ⟨fun m hm => ?_, fun m hm => ?_⟩
    · by_cases hmn : g.getD m default = g.getD (n + 1) default
      · rw [hmn, Function.update_same]
        exact add_sub_cancel_left _ _
      · rw [Function.update_noteq hmn]
        have : m ≤ n := by
          rcases Nat.lt_or_ge n m with h | h
          · have : m = n + 1 := by omega
            subst this
            exact absurd rfl hmn
          · exact h
        exact ih1 m this
    · by_cases hmn : g.getD m default = g.getD (n + 1) default
      · rw [hmn, Function.update_same]
        have h0 := ih2 0 (by omega)
        rw [ih1 0 (Nat.zero_le n)] at h0
        rw [add_sub_cancel_left]
        exact h0
      · rw [Function.update_noteq hmn]
        exact ih2 m hm

/-- The orthorhombic minimum image does not tell the image `u + pbcDistance(u, v)` of `v`
apart from `v`. -/
theorem pbcDistanceOrthorhombic_image (u v x : Fin 3 → α) :
    pbcDistanceOrthorhombic box (u + pbcDistanceOrthorhombic box u v) x =
      pbcDistanceOrthorhombic box v x := by
  funext k
  simp only [pbcDistanceOrthorhombic, Pi.add_apply]
  by_cases hb : box k = 0
  · rw [hb]
    ring
  · have e : (x k - (u k + (v k - u k - box k * (round ((v k - u k) / box k) : ℤ)))) / box k =
        (x k - v k) / box k + (round ((v k - u k) / box k) : ℤ) := by
      field_simp
      ring
    rw [e, round_add_int]
    push_cast
    ring

/-- C13, amended: in default mode with an orthorhombic box, for an entity `g` (entity `i`)
whose atoms are not rewritten by another entity, if the stored positions of its atoms are
lattice-translated images of a configuration `truePos` in which every two consecutive atoms of
the list are closer than half a box side along every axis, then after `calculate` the entity is
whole: `reconstructed[g_j] - reconstructed[g_0] = truePos[g_j] - truePos[g_0]` for every `j`. -/
theorem calculate_entity_whole (hbox : ∀ k, 0 < box k) (w : WholeMolecules (Fin 3 → α))
    (hdef : w.doemst = false) (pos truePos : Nat × Nat → Fin 3 → α) (i : Nat)
    (g : List (Nat × Nat)) (hg : w.p_groups[i]? = some g)
    (hiso : ∀ k, k < w.p_groups.length → k ≠ i → ∀ a ∈ g, a ∉ rewrittenAtoms w k)
    (himg : ∀ a ∈ g, IsLatticeVector box (pos a - truePos a))
    (hclose : ∀ m a b, g[m]? = some a → g[m + 1]? = some b →
      ∀ k, |truePos b k - truePos a k| < box k / 2)
    (j : Nat) (a a0 : Nat × Nat) (ha : g[j]? = some a) (h0 : g[0]? = some a0) :
    calculate (pbcDistanceOrthorhombic box) w pos a
        - calculate (pbcDistanceOrthorhombic box) w pos a0 = truePos a - truePos a0 := by
  obtain ⟨hi, hgi⟩ := getD_of_getElem? [] hg
  obtain ⟨hj, hja⟩ := getD_of_getElem? default ha
  obtain ⟨hlen, h0a⟩ := getD_of_getElem? default h0
  have hmem : ∀ m, m < g.length → g.getD m default ∈ g := by
    intro m hm
    rw [List.getD_eq_getElem g default hm]
    exact List.getElem_mem _
  have hfin : ∀ x ∈ g, calculate (pbcDistanceOrthorhombic box) w pos x =
      calculateEntity (pbcDistanceOrthorhombic box) w
        ((List.range' 0 i).foldl (calculateEntity (pbcDistanceOrthorhombic box) w) pos) i x ∧
      (List.range' 0 i).foldl (calculateEntity (pbcDistanceOrthorhombic box) w) pos x = pos x :=
    fun x hx => calculate_eq_calculateEntity _ w pos i hi x (fun k hk hki => hiso k hk hki x hx)
  have hQ : ∀ m, m < g.length → IsLatticeVector box
      (anchoredPositions (pbcDistanceOrthorhombic box) w
        ((List.range' 0 i).foldl (calculateEntity (pbcDistanceOrthorhombic box) w) pos) i
        (g.getD m default) - truePos (g.getD m default)) := by
    intro m hm
    have hP := himg _ (hmem m hm)
    rw [← (hfin _ (hmem m hm)).2] at hP
    unfold anchoredPositions
    split_ifs with hadd
    · rw [hgi]
      by_cases hm0 : g.getD m default = g.getD 0 default
      · rw [hm0, Function.update_same]
        rw [hm0] at hP
        have hl := pbcDistanceOrthorhombic_lattice box (w.refs.getD i 0)
          ((List.range' 0 i).foldl (calculateEntity (pbcDistanceOrthorhombic box) w) pos
            (g.getD 0 default))
        have := hl.add box hP
        rw [sub_add_sub_cancel] at this
        exact this
      · rw [Function.update_noteq hm0]
        exact hP
    · exact hP
  have hclose2 : ∀ m, m + 1 < g.length → ∀ k,
      |truePos (g.getD (m + 1) default) k - truePos (g.getD m default) k| < box k / 2 := by
    intro m hm
    apply hclose m
    · rw [List.getElem?_eq_getElem (by omega), List.getD_eq_getElem g default (by omega)]
    · rw [List.getElem?_eq_getElem hm, List.getD_eq_getElem g default hm]
  obtain ⟨hw, _⟩ := treeLoop_whole box hbox g truePos _ hQ hclose2 (g.length - 1) (by omega)
  have hE : ∀ m, m < g.length →
      calculate (pbcDistanceOrthorhombic box) w pos (g.getD m default)
        - truePos (g.getD m default) =
      anchoredPositions (pbcDistanceOrthorhombic box) w
        ((List.range' 0 i).foldl (calculateEntity (pbcDistanceOrthorhombic box) w) pos) i
        (g.getD 0 default) - truePos (g.getD 0 default) := by
    intro m hm
    rw [(hfin _ (hmem m hm)).1, calculateEntity_eq_treeLoop, hdef, hgi]
    simp only [Bool.false_eq_true, if_false]
    exact hw m (by omega)
  have e3 := (hE j hj).trans (hE 0 hlen).symm
  rw [hja, h0a] at e3
  rw [sub_eq_sub_iff_add_eq_add] at e3 ⊢
  rw [e3, add_comm]

/-- C14: for two distinct atoms `a0`, `a1` forming the one entity of the action, at coordinates
0.1 and 9.9 along an axis `k` of length 10 (fractional positions 0.01 and 0.99), after
`calculate` in default mode without ADDREFERENCE the coordinate of `a1` on that axis is the
coordinate of `a0` minus 0.2, that is -0.1, and the coordinate of `a0` is still 0.1. -/
theorem calculate_two_atoms (pos : Nat × Nat → Fin 3 → α) (a0 a1 : Nat × Nat) (hne : a0 ≠ a1)
    (roots : List (List (Nat × Nat))) (refs : List (Fin 3 → α)) (k : Fin 3)
    (hbox : box k = 10) (h0 : pos a0 k = 1 / 10) (h1 : pos a1 k = 99 / 10) :
    calculate (pbcDistanceOrthorhombic box)
        { p_groups := [[a0, a1]], p_roots := roots, refs := refs, doemst := false,
          addref := false } pos a1 k =
      calculate (pbcDistanceOrthorhombic box)
        { p_groups := [[a0, a1]], p_roots := roots, refs := refs, doemst := false,
          addref := false } pos a0 k - 2 / 10 ∧
    calculate (pbcDistanceOrthorhombic box)
        { p_groups := [[a0, a1]], p_roots := roots, refs := refs, doemst := false,
          addref := false } pos a1 k = -1 / 10 ∧
    calculate (pbcDistanceOrthorhombic box)
        { p_groups := [[a0, a1]], p_roots := roots, refs := refs, doemst := false,
          addref := false } pos a0 k = 1 / 10 := by
  have r1 : round ((49 : α) / 50) = 1 := round_eq_of_near _ 1 (by norm_num) (by norm_num)
  have e : ((99 : α) / 10 - 1 / 10) / 10 = 49 / 50 := by norm_num
  have c1 : calculate (pbcDistanceOrthorhombic box)
      { p_groups := [[a0, a1]], p_roots := roots, refs := refs, doemst := false,
        addref := false } pos a1 = pos a0 + pbcDistanceOrthorhombic box (pos a0) (pos a1) := by
    simp [calculate, calculateEntity, defaultBody, List.range_succ, List.range']
  have c0 : calculate (pbcDistanceOrthorhombic box)
      { p_groups := [[a0, a1]], p_roots := roots, refs := refs, doemst := false,
        addref := false } pos a0 = pos a0 := by
    simp [calculate, calculateEntity, defaultBody, List.range_succ, List.range',
      Function.update_noteq hne]
  rw [c1, c0]
  simp only [Pi.add_apply, pbcDistanceOrthorhombic, hbox, h0, h1, e, r1]
  norm_num

end orthorhombic


section samples

theorem round_sample_near : round ((49 : ℚ) / 50) = 1 :=
  round_eq_of_near _ 1 (by norm_num) (by norm_num)

theorem round_sample_far : round (-((26 : ℚ) / 25)) = -1 :=
  round_eq_of_near _ (-1) (by norm_num) (by norm_num)

theorem calculate_sampleOverlap (pbcDistance : (Fin 3 → ℚ) → (Fin 3 → ℚ) → (Fin 3 → ℚ))
    (pos : Nat × Nat → Fin 3 → ℚ) :
    calculate pbcDistance (sampleOverlap (Fin 3 → ℚ)) pos (0, 2) =
      pos (0, 3) + pbcDistance (pos (0, 3)) (pos (0, 1) + pbcDistance (pos (0, 1)) (pos (0, 2))) ∧
    calculate pbcDistance (sampleOverlap (Fin 3 → ℚ)) pos (0, 1) = pos (0, 1) := by
  simp [calculate, calculateEntity, sampleOverlap, defaultBody, List.range_succ, List.range',
    Function.update_apply]

/-- On the sample with two overlapping entities the second entity moves the shared atom back
to 9.9, and the first atom stays at 0.1. -/
theorem calculate_sampleOverlap_positions :
    calculate (pbcDistanceOrthorhombic (sampleBox ℚ)) (sampleOverlap (Fin 3 → ℚ))
      (samplePositions ℚ) (0, 2) = samplePositions ℚ (0, 2) ∧
    calculate (pbcDistanceOrthorhombic (sampleBox ℚ)) (sampleOverlap (Fin 3 → ℚ))
      (samplePositions ℚ) (0, 1) = samplePositions ℚ (0, 1) := by
  refine ⟨?_, (calculate_sampleOverlap _ _).2⟩
  rw [(calculate_sampleOverlap _ _).1]
  funext k
  by_cases hk : k = 0
  · subst hk
    simp only [pbcDistanceOrthorhombic, samplePositions, sampleBox, Pi.add_apply, if_true,
      Prod.mk.injEq]
    norm_num
    rw [round_sample_near]
    norm_num
    rw [round_sample_far]
    norm_num
  · simp [pbcDistanceOrthorhombic, samplePositions, sampleBox, hk]

/-- The minimum-image difference between the sample positions of atoms `(0,1)` and `(0,2)` is
`-0.2` along x. -/
theorem pbcDistance_samplePositions :
    pbcDistanceOrthorhombic (sampleBox ℚ) (samplePositions ℚ (0, 1)) (samplePositions ℚ (0, 2)) =
      fun k => if k = 0 then -1 / 5 else 0 := by
  funext k
  by_cases hk : k = 0
  · subst hk
    simp only [pbcDistanceOrthorhombic, samplePositions, sampleBox, if_true, Prod.mk.injEq]
    norm_num
    rw [round_sample_near]
    norm_num
  · simp [pbcDistanceOrthorhombic, samplePositions, sampleBox, hk]

/-- C11 fails when another entity rewrites an atom of the entity. With `ENTITY0=1,2
ENTITY1=3,2`, atoms 1, 2, 3 at 0.1, 9.9, 10.3 on an axis of length 10, entity 0 has distinct
atoms, but atom 2 ends at 9.9 (put there by entity 1), not at
`anchor + pbcDistance(anchor, raw) = 0.1 - 0.2 = -0.1`. -/
theorem calculate_default_chain_counterexample :
    (sampleOverlap (Fin 3 → ℚ)).doemst = false ∧
    (sampleOverlap (Fin 3 → ℚ)).p_groups[0]? = some [(0, 1), (0, 2)] ∧
    [((0 : Nat), (1 : Nat)), (0, 2)].Nodup ∧
    calculate (pbcDistanceOrthorhombic (sampleBox ℚ)) (sampleOverlap (Fin 3 → ℚ))
        (samplePositions ℚ) (0, 2) 0 = 99 / 10 ∧
    (calculate (pbcDistanceOrthorhombic (sampleBox ℚ)) (sampleOverlap (Fin 3 → ℚ))
        (samplePositions ℚ) (0, 1) +
      pbcDistanceOrthorhombic (sampleBox ℚ)
        (calculate (pbcDistanceOrthorhombic (sampleBox ℚ)) (sampleOverlap (Fin 3 → ℚ))
          (samplePositions ℚ) (0, 1)) (samplePositions ℚ (0, 2))) 0 = -1 / 10 ∧
    calculate (pbcDistanceOrthorhombic (sampleBox ℚ)) (sampleOverlap (Fin 3 → ℚ))
        (samplePositions ℚ) (0, 2) ≠
      calculate (pbcDistanceOrthorhombic (sampleBox ℚ)) (sampleOverlap (Fin 3 → ℚ))
        (samplePositions ℚ) (0, 1) +
      pbcDistanceOrthorhombic (sampleBox ℚ)
        (calculate (pbcDistanceOrthorhombic (sampleBox ℚ)) (sampleOverlap (Fin 3 → ℚ))
          (samplePositions ℚ) (0, 1)) (samplePositions ℚ (0, 2)) := by
  have hb : calculate (pbcDistanceOrthorhombic (sampleBox ℚ)) (sampleOverlap (Fin 3 → ℚ))
      (samplePositions ℚ) (0, 2) 0 = 99 / 10 := by
    rw [calculate_sampleOverlap_positions.1]
    simp [samplePositions]
  have hr : (calculate (pbcDistanceOrthorhombic (sampleBox ℚ)) (sampleOverlap (Fin 3 → ℚ))
        (samplePositions ℚ) (0, 1) +
      pbcDistanceOrthorhombic (sampleBox ℚ)
        (calculate (pbcDistanceOrthorhombic (sampleBox ℚ)) (sampleOverlap (Fin 3 → ℚ))
          (samplePositions ℚ) (0, 1)) (samplePositions ℚ (0, 2))) 0 = -1 / 10 := by
    rw [calculate_sampleOverlap_positions.2, pbcDistance_samplePositions]
    simp [samplePositions]
    norm_num
  refine ⟨rfl, rfl, by decide, hb, hr, fun h => ?_⟩
  have h0 := congrFun h 0
  rw [hb, hr] at h0
  norm_num at h0

/-- C12 fails when another entity rewrites an atom of the entity. With `ENTITY0=1,2
ENTITY1=3,2`, atoms 1, 2, 3 at 0.1, 9.9, 10.3 on an axis of length 10, the reconstructed
positions of the consecutive atoms 1 and 2 of entity 0 are 9.8 apart (squared distance
2401/25), while their minimum-image distance is 0.2 (squared 1/25). -/
theorem calculate_bond_counterexample :
    (sampleOverlap (Fin 3 → ℚ)).p_groups[0]? = some [(0, 1), (0, 2)] ∧
    [((0 : Nat), (1 : Nat)), (0, 2)].Nodup ∧
    anchorAtom (sampleOverlap (Fin 3 → ℚ)) 0 1 = (0, 1) ∧
    ∑ k : Fin 3,
      (calculate (pbcDistanceOrthorhombic (sampleBox ℚ)) (sampleOverlap (Fin 3 → ℚ))
          (samplePositions ℚ) (0, 2) k -
        calculate (pbcDistanceOrthorhombic (sampleBox ℚ)) (sampleOverlap (Fin 3 → ℚ))
          (samplePositions ℚ) (0, 1) k) ^ 2 = 2401 / 25 ∧
    ∑ k : Fin 3,
      (pbcDistanceOrthorhombic (sampleBox ℚ) (samplePositions ℚ (0, 1))
        (samplePositions ℚ (0, 2)) k) ^ 2 = 1 / 25 := by
  refine ⟨rfl, by decide, rfl, ?_, ?_⟩
  · rw [calculate_sampleOverlap_positions.1, calculate_sampleOverlap_positions.2]
    simp [Fin.sum_univ_three, samplePositions]
    norm_num
  · rw [pbcDistance_samplePositions]
    simp [Fin.sum_univ_three]
    norm_num

/-- The sample stored positions of atoms `(0,1)` and `(0,2)` are lattice images of the sample
unwrapped configuration. -/
theorem samplePositions_images :
    ∀ a ∈ [((0 : Nat), (1 : Nat)), (0, 2)],
      IsLatticeVector (sampleBox ℚ) (samplePositions ℚ a - sampleTruePositions ℚ a) := by
  intro a ha k
  simp only [List.mem_cons, List.mem_singleton, List.not_mem_nil, or_false] at ha
  rcases ha with rfl | rfl
  · exact ⟨0, by simp [samplePositions, sampleTruePositions]⟩
  · by_cases hk : k = 0
    · exact ⟨1, by simp [samplePositions, sampleTruePositions, sampleBox, hk]; norm_num⟩
    · exact ⟨0, by simp [samplePositions, sampleTruePositions, hk]⟩

/-- In the sample unwrapped configuration atoms `(0,1)` and `(0,2)` are closer than half a box
side along every axis. -/
theorem sampleTruePositions_close :
    ∀ k, |sampleTruePositions ℚ (0, 2) k - sampleTruePositions ℚ (0, 1) k|
      < sampleBox ℚ k / 2 := by
  intro k
  by_cases hk : k = 0
  · simp [sampleTruePositions, sampleBox, hk]
    rw [abs_lt]
    constructor <;> norm_num
  · simp [sampleTruePositions, sampleBox, hk]

/-- C13 fails when another entity rewrites an atom of the entity. With `ENTITY0=1,2
ENTITY1=3,2` in a cubic box of side 10, the stored positions 0.1, 9.9, 10.3 of atoms 1, 2, 3
are lattice images of the configuration 0.1, -0.1, 0.3, whose atoms 1 and 2 are 0.2 apart, but
after `calculate` atom 2 is at 9.9 and atom 1 at 0.1: entity 0 is not whole. -/
theorem calculate_entity_whole_counterexample :
    (∀ k, 0 < sampleBox ℚ k) ∧
    (sampleOverlap (Fin 3 → ℚ)).doemst = false ∧
    (sampleOverlap (Fin 3 → ℚ)).p_groups[0]? = some [(0, 1), (0, 2)] ∧
    (∀ a ∈ [((0 : Nat), (1 : Nat)), (0, 2)],
      IsLatticeVector (sampleBox ℚ) (samplePositions ℚ a - sampleTruePositions ℚ a)) ∧
    (∀ k, |sampleTruePositions ℚ (0, 2) k - sampleTruePositions ℚ (0, 1) k|
      < sampleBox ℚ k / 2) ∧
    calculate (pbcDistanceOrthorhombic (sampleBox ℚ)) (sampleOverlap (Fin 3 → ℚ))
        (samplePositions ℚ) (0, 2) -
      calculate (pbcDistanceOrthorhombic (sampleBox ℚ)) (sampleOverlap (Fin 3 → ℚ))
        (samplePositions ℚ) (0, 1) ≠
      sampleTruePositions ℚ (0, 2) - sampleTruePositions ℚ (0, 1) := by
  refine ⟨fun k => by norm_num [sampleBox], rfl, rfl, samplePositions_images,
    sampleTruePositions_close, fun h => ?_⟩
  have h0 := congrFun h 0
  rw [calculate_sampleOverlap_positions.1, calculate_sampleOverlap_positions.2] at h0
  simp [samplePositions, sampleTruePositions] at h0
  norm_num at h0

end samples


section witnesses

/-- C11, amended, at the sample action with the single entity `ENTITY0=1,2`. -/
theorem calculate_default_chain_witness :
    [((0 : Nat), (1 : Nat)), (0, 2)].Nodup ∧
    calculate (pbcDistanceOrthorhombic (sampleBox ℚ)) (sampleWhole (Fin 3 → ℚ))
        (samplePositions ℚ) (0, 2) =
      calculate (pbcDistanceOrthorhombic (sampleBox ℚ)) (sampleWhole (Fin 3 → ℚ))
        (samplePositions ℚ) (0, 1) +
      pbcDistanceOrthorhombic (sampleBox ℚ)
        (calculate (pbcDistanceOrthorhombic (sampleBox ℚ)) (sampleWhole (Fin 3 → ℚ))
          (samplePositions ℚ) (0, 1)) (samplePositions ℚ (0, 2)) :=
  ⟨by decide,
    calculate_default_chain (pbcDistanceOrthorhombic (sampleBox ℚ)) (sampleWhole (Fin 3 → ℚ)) rfl
      (samplePositions ℚ) 0 [(0, 1), (0, 2)] rfl (by decide)
      (fun k hk hne => absurd (Nat.lt_one_iff.mp hk) hne) 1 (0, 2) (0, 1) (le_refl 1) rfl rfl⟩

/-- C12, amended, at the sample action with the single entity `ENTITY0=1,2`. -/
theorem calculate_bond_eq_minimum_image_witness :
    [((0 : Nat), (1 : Nat)), (0, 2)].Nodup ∧
    calculate (pbcDistanceOrthorhombic (sampleBox ℚ)) (sampleWhole (Fin 3 → ℚ))
        (samplePositions ℚ) (0, 2) -
      calculate (pbcDistanceOrthorhombic (sampleBox ℚ)) (sampleWhole (Fin 3 → ℚ))
        (samplePositions ℚ) (anchorAtom (sampleWhole (Fin 3 → ℚ)) 0 1) =
      pbcDistanceOrthorhombic (sampleBox ℚ)
        (samplePositions ℚ (anchorAtom (sampleWhole (Fin 3 → ℚ)) 0 1))
        (samplePositions ℚ (0, 2)) :=
  ⟨by decide,
    calculate_bond_eq_minimum_image (pbcDistanceOrthorhombic (sampleBox ℚ))
      (sampleWhole (Fin 3 → ℚ)) (pbcDistanceOrthorhombic_image (sampleBox ℚ))
      (samplePositions ℚ) 0 [(0, 1), (0, 2)] rfl (by decide)
      (fun k hk hne => absurd (Nat.lt_one_iff.mp hk) hne)
      (fun h => absurd h (by decide)) 1 (0, 2) (le_refl 1) rfl⟩

/-- C13, amended, at the sample action with the single entity `ENTITY0=1,2`, whose stored
positions 0.1 and 9.9 are images of the configuration 0.1, -0.1. -/
theorem calculate_entity_whole_witness :
    (∀ k, 0 < sampleBox ℚ k) ∧
    calculate (pbcDistanceOrthorhombic (sampleBox ℚ)) (sampleWhole (Fin 3 → ℚ))
        (samplePositions ℚ) (0, 2) -
      calculate (pbcDistanceOrthorhombic (sampleBox ℚ)) (sampleWhole (Fin 3 → ℚ))
        (samplePositions ℚ) (0, 1) =
      sampleTruePositions ℚ (0, 2) - sampleTruePositions ℚ (0, 1) :=
  ⟨fun k => by norm_num [sampleBox],
    calculate_entity_whole (sampleBox ℚ) (fun k => by norm_num [sampleBox])
      (sampleWhole (Fin 3 → ℚ)) rfl (samplePositions ℚ) (sampleTruePositions ℚ) 0
      [(0, 1), (0, 2)] rfl (fun k hk hne => absurd (Nat.lt_one_iff.mp hk) hne)
      samplePositions_images
      (fun m a b ha hb k => by
        match m, ha, hb with
        | 0, ha, hb =>
          simp only [List.getElem?_cons_zero, List.getElem?_cons_succ, Option.some.injEq] at ha hb
          subst ha
          subst hb
          exact sampleTruePositions_close k
        | 1, ha, hb => simp at hb
        | (m + 2), ha, hb => simp at ha)
      1 (0, 2) (0, 1) rfl rfl⟩

/-- C14 at the sample positions: atoms `(0,1)` and `(0,2)` at 0.1 and 9.9 on the x axis of the
cubic box of side 10. -/
theorem calculate_two_atoms_witness :
    ((0 : Nat), (1 : Nat)) ≠ (0, 2) ∧ sampleBox ℚ 0 = 10 ∧ samplePositions ℚ (0, 1) 0 = 1 / 10 ∧
    samplePositions ℚ (0, 2) 0 = 99 / 10 ∧
    calculate (pbcDistanceOrthorhombic (sampleBox ℚ))
        { p_groups := [[(0, 1), (0, 2)]], p_roots := [], refs := [], doemst := false,
          addref := false } (samplePositions ℚ) (0, 2) 0 = -1 / 10 :=
  ⟨by decide, rfl, by simp [samplePositions], by simp [samplePositions],
    (calculate_two_atoms (sampleBox ℚ) (samplePositions ℚ) (0, 1) (0, 2) (by decide) [] [] 0 rfl
      (by simp [samplePositions]) (by simp [samplePositions])).2.1⟩

/-- C15 at the sample action with the single entity `ENTITY0=1,2`, without ADDREFERENCE. -/
theorem calculate_first_atom_witness :
    [((0 : Nat), (1 : Nat)), (0, 2)].Nodup ∧ (sampleWhole (Fin 3 → ℚ)).addref = false ∧
    calculate (pbcDistanceOrthorhombic (sampleBox ℚ)) (sampleWhole (Fin 3 → ℚ))
      (samplePositions ℚ) (0, 1) = samplePositions ℚ (0, 1) :=
  ⟨by decide, rfl,
    (calculate_first_atom (pbcDistanceOrthorhombic (sampleBox ℚ)) (sampleWhole (Fin 3 → ℚ))
      (samplePositions ℚ) 0 [(0, 1), (0, 2)] rfl (by decide) (0, 1) rfl
      (fun k hk hne => absurd (Nat.lt_one_iff.mp hk) hne)).1 rfl⟩

end witnesses

end generic

/-! ## Properties of the constructor of `WholeMolecules` -/

namespace generic

section constructor

variable {V : Type} (getValueIndices : Nat → Nat × Nat)
  (tree : GenericMolInfo V → List Nat → List Nat × List Nat)
  (removeDuplicates : List Nat → List Nat) (moldat : Option (GenericMolInfo V))
  (input : WholeMoleculesInput)

theorem readResidues_error (groups : List (List Nat)) (hres : input.RESIDUES ≠ [])
    (hmol : input.MOLTYPE.length = 0) :
    readResidues moldat input groups =
      Except.error
        "Found RESIDUES keyword without specification of the molecule - use MOLTYPE" := by
  have hlen : input.RESIDUES.length > 0 := List.length_pos.mpr hres
  simp only [readResidues, hlen, hmol, if_true]

/-- C18: constructing `WholeMolecules` with a non-empty `RESIDUES` list and an empty `MOLTYPE`
fails with the configuration error about the missing `MOLTYPE`, whether or not a `MOLINFO` is
present (`moldat` is arbitrary); the construction gives no action, so `requestAtoms` is not
reached. -/
theorem constructor_residues_without_moltype (hres : input.RESIDUES ≠ [])
    (hmol : input.MOLTYPE.length = 0) :
    WholeMolecules.WholeMolecules getValueIndices tree removeDuplicates moldat input =
      Except.error
        "Found RESIDUES keyword without specification of the molecule - use MOLTYPE" ∧
    ∀ r, WholeMolecules.WholeMolecules getValueIndices tree removeDuplicates moldat input ≠
      Except.ok r := by
  have h : WholeMolecules.WholeMolecules getValueIndices tree removeDuplicates moldat input =
      Except.error
        "Found RESIDUES keyword without specification of the molecule - use MOLTYPE" := by
    simp only [WholeMolecules.WholeMolecules, readResidues_error moldat input _ hres hmol]
  refine ⟨h, fun r hr => ?_⟩
  rw [h] at hr
  exact absurd hr (by simp)

/-- Without `RESIDUES`, or with `RESIDUES` and `MOLTYPE` and a `MOLINFO`, the groups read are
those of the `ENTITY` keywords followed by the backbone groups. -/
theorem readResidues_ok (groups : List (List Nat))
    (h2 : ¬ (input.RESIDUES ≠ [] ∧ input.MOLTYPE.length = 0))
    (h3 : input.RESIDUES = [] ∨ moldat ≠ none) :
    ∃ extra, readResidues moldat input groups = Except.ok (groups ++ extra) := by
  by_cases hres : input.RESIDUES = []
  · exact ⟨[], by simp [readResidues, hres]⟩
  · have hlen : input.RESIDUES.length > 0 := List.length_pos.mpr hres
    have hmol : ¬ input.MOLTYPE.length = 0 := fun h => h2 ⟨hres, h⟩
    rcases h3 with h3 | h3
    · exact absurd h3 hres
    · cases moldat with
      | none => exact absurd rfl h3
      | some m =>
        exact ⟨m.getBackbone (if input.RESIDUES.length = 1 ∧ input.RESIDUES.getD 0 "" = "all"
          then ["all-ter"] else input.RESIDUES) input.MOLTYPE,
          by simp only [readResidues, hlen, hmol, if_true, if_false]⟩


theorem takeWhile_entity_ne_nil (h1 : ∃ g rest, input.ENTITY = g :: rest ∧ g ≠ []) :
    input.ENTITY.takeWhile (fun group => !group.isEmpty) ≠ [] := by
  obtain ⟨g, rest, hE, hg⟩ := h1
  rw [hE]
  cases g with
  | nil => exact absurd rfl hg
  | cons a t => simp [List.takeWhile]

theorem readResidues_error_cases (groups : List (List Nat)) (e : String)
    (h : readResidues moldat input groups = Except.error e) :
    e = "Found RESIDUES keyword without specification of the molecule - use MOLTYPE" ∨
    (e = "MOLINFO is required to use RESIDUES" ∧ moldat = none) := by
  unfold readResidues at h
  simp only at h
  split_ifs at h
  all_goals
    first
    | exact Or.inl (Except.error.inj h).symm
    | cases moldat with
      | none => exact Or.inr ⟨(Except.error.inj h).symm, rfl⟩
      | some m => cases h

theorem buildRoots_error_cases (doemst : Bool) (groups : List (List Nat)) (e : String)
    (h : buildRoots tree moldat doemst groups = Except.error e) :
    doemst = true ∧ moldat = none := by
  unfold buildRoots at h
  split_ifs at h with hd
  cases moldat with
  | none => exact ⟨hd, rfl⟩
  | some m => cases h

theorem buildRefs_error_cases (addref : Bool) (groups : List (List Nat)) (e : String)
    (h : (buildRefs moldat addref groups : Except String (List V)) = Except.error e) :
    e = "MOLINFO is required to use ADDREFERENCE" ∧ moldat = none := by
  unfold buildRefs at h
  split_ifs at h
  cases moldat with
  | none => exact ⟨(Except.error.inj h).symm, rfl⟩
  | some m => cases h

theorem buildRoots_ok_of_some (m : GenericMolInfo V) (doemst : Bool) (groups : List (List Nat)) :
    ∃ r, buildRoots tree (some m) doemst groups = Except.ok r := by
  unfold buildRoots
  split_ifs
  · exact ⟨_, rfl⟩
  · exact ⟨_, rfl⟩

theorem buildRefs_ok_of_some (m : GenericMolInfo V) (addref : Bool) (groups : List (List Nat)) :
    ∃ r, (buildRefs (some m) addref groups : Except String (List V)) = Except.ok r := by
  unfold buildRefs
  split_ifs
  · exact ⟨_, rfl⟩
  · exact ⟨_, rfl⟩

/-- The outcomes of the constructor: every error message it can give, and the `doemst` of the
action it constructs. -/
theorem constructor_outcome :
    (∀ e, WholeMolecules.WholeMolecules getValueIndices tree removeDuplicates moldat input =
        Except.error e →
      e = "Found RESIDUES keyword without specification of the molecule - use MOLTYPE" ∨
      e = "MOLINFO is required to use RESIDUES" ∨
      e = "no atoms found for WHOLEMOLECULES!" ∨
      e = "cannot enable EMST if MOLINFO is not WHOLE" ∨
      e = "MOLINFO is required to use ADDREFERENCE") ∧
    (∀ r, WholeMolecules.WholeMolecules getValueIndices tree removeDuplicates moldat input =
        Except.ok r →
      r.1.doemst = molInfoIsWhole moldat ∧
      (input.EMST = true → r.1.doemst = true)) := by
  unfold WholeMolecules.WholeMolecules
  dsimp only
  cases hr : readResidues moldat input (List.takeWhile (fun group => !group.isEmpty) input.ENTITY) with
  | error e0 =>
    dsimp only
    refine ⟨fun e he => ?_, fun r hr2 => by cases hr2⟩
    have := Except.error.inj he
    subst this
    rcases readResidues_error_cases moldat input _ _ hr with h | h
    · exact Or.inl h
    · exact Or.inr (Or.inl h.1)
  | ok groups =>
    dsimp only
    by_cases hlen : groups.length = 0
    · rw [if_pos hlen]
      exact ⟨fun e he => Or.inr (Or.inr (Or.inl (Except.error.inj he).symm)),
        fun r hr2 => by cases hr2⟩
    · rw [if_neg hlen]
      by_cases hem : (input.EMST && !molInfoIsWhole moldat) = true
      · rw [if_pos hem]
        exact ⟨fun e he => Or.inr (Or.inr (Or.inr (Or.inl (Except.error.inj he).symm))),
          fun r hr2 => by cases hr2⟩
      · rw [if_neg hem]
        cases hb : buildRoots tree moldat (molInfoIsWhole moldat) groups with
        | error e1 =>
          dsimp only
          have hcase := buildRoots_error_cases tree moldat _ _ _ hb
          rw [hcase.2] at hcase
          exact absurd hcase.1 (by simp [molInfoIsWhole])
        | ok gr =>
          obtain ⟨groups2, roots⟩ := gr
          dsimp only
          cases hf : (buildRefs moldat input.ADDREFERENCE groups2 : Except String (List V)) with
          | error e2 =>
            dsimp only
            refine ⟨fun e he => ?_, fun r hr2 => by cases hr2⟩
            have := Except.error.inj he
            subst this
            exact Or.inr (Or.inr (Or.inr (Or.inr
              (buildRefs_error_cases moldat _ _ _ hf).1)))
          | ok refs =>
            dsimp only
            refine ⟨fun e he => (by cases he), fun r hr2 => ?_⟩
            have := Except.ok.inj hr2
            subst this
            refine ⟨rfl, fun hE => ?_⟩
            simp only [hE, Bool.true_and, Bool.not_eq_true', Bool.not_eq_false] at hem
            simpa using hem


theorem molInfoIsWhole_iff :
    molInfoIsWhole moldat = true ↔ ∃ m, moldat = some m ∧ m.isWhole = true := by
  cases moldat with
  | none => simp [molInfoIsWhole]
  | some m => simp [molInfoIsWhole]

/-- With a `MOLINFO` flagged `WHOLE`, at least one group read from `ENTITY0` or from `RESIDUES`,
and no `RESIDUES` without `MOLTYPE`, the constructor succeeds. -/
theorem constructor_ok_of_whole (m : GenericMolInfo V)
    (h1 : (∃ g rest, input.ENTITY = g :: rest ∧ g ≠ []) ∨
      (input.RESIDUES ≠ [] ∧
        m.getBackbone (if input.RESIDUES.length = 1 ∧ input.RESIDUES.getD 0 "" = "all"
          then ["all-ter"] else input.RESIDUES) input.MOLTYPE ≠ []))
    (h2 : ¬ (input.RESIDUES ≠ [] ∧ input.MOLTYPE.length = 0)) (hw : m.isWhole = true) :
    ∃ r, WholeMolecules.WholeMolecules getValueIndices tree removeDuplicates (some m) input =
      Except.ok r := by
  have hread : ∃ groups, readResidues (some m) input
      (List.takeWhile (fun group => !group.isEmpty) input.ENTITY) = Except.ok groups ∧
      ¬ groups.length = 0 := by
    by_cases hres : input.RESIDUES = []
    · refine ⟨List.takeWhile (fun group => !group.isEmpty) input.ENTITY,
        by simp [readResidues, hres], ?_⟩
      rcases h1 with h1 | h1
      · rw [List.length_eq_zero]
        exact takeWhile_entity_ne_nil input h1
      · exact absurd hres h1.1
    · have hlen : input.RESIDUES.length > 0 := List.length_pos.mpr hres
      have hmol : ¬ input.MOLTYPE.length = 0 := fun h => h2 ⟨hres, h⟩
      refine ⟨List.takeWhile (fun group => !group.isEmpty) input.ENTITY ++
        m.getBackbone (if input.RESIDUES.length = 1 ∧ input.RESIDUES.getD 0 "" = "all"
          then ["all-ter"] else input.RESIDUES) input.MOLTYPE,
        by simp only [readResidues, hlen, hmol, if_true, if_false], ?_⟩
      rw [List.length_eq_zero]
      intro h
      rcases h1 with h1 | h1
      · exact takeWhile_entity_ne_nil input h1 (List.append_eq_nil.mp h).1
      · exact h1.2 (List.append_eq_nil.mp h).2
  obtain ⟨groups, hr, hlen⟩ := hread
  have hem : ¬ (input.EMST && !molInfoIsWhole (some m)) = true := by
    simp [molInfoIsWhole, hw]
  obtain ⟨gr, hb⟩ := buildRoots_ok_of_some tree m (molInfoIsWhole (some m)) groups
  obtain ⟨refs, hf⟩ := buildRefs_ok_of_some m input.ADDREFERENCE gr.1
  unfold WholeMolecules.WholeMolecules
  dsimp only
  rw [hr]
  dsimp only
  rw [if_neg hlen, if_neg hem, hb]
  dsimp only
  rw [hf]
  exact ⟨_, rfl⟩

/-- C19, amended: given that the constructor reads at least one group of atoms (`ENTITY0` is not
empty, the numbered `ENTITY` keywords being read up to the first empty one, or `RESIDUES` is
given and the backbone that a preceding `MOLINFO` returns for it is not empty) and that
`RESIDUES` is not given without `MOLTYPE`, tree-based reconstruction is enabled in the
constructed action exactly when a preceding `MOLINFO` exists and is flagged `WHOLE`;
constructing with the `EMST` flag fails with a configuration error if and only if no preceding
`MOLINFO` flagged `WHOLE` exists; and the error "MOLINFO is required to use EMST" is never the
outcome. -/
theorem constructor_emst
    (h1 : (∃ g rest, input.ENTITY = g :: rest ∧ g ≠ []) ∨
      (input.RESIDUES ≠ [] ∧ ∀ m, moldat = some m →
        m.getBackbone (if input.RESIDUES.length = 1 ∧ input.RESIDUES.getD 0 "" = "all"
          then ["all-ter"] else input.RESIDUES) input.MOLTYPE ≠ []))
    (h2 : ¬ (input.RESIDUES ≠ [] ∧ input.MOLTYPE.length = 0)) :
    (∀ r, WholeMolecules.WholeMolecules getValueIndices tree removeDuplicates moldat input =
        Except.ok r →
      (r.1.doemst = true ↔ ∃ m, moldat = some m ∧ m.isWhole = true)) ∧
    (input.EMST = true →
      ((∃ e, WholeMolecules.WholeMolecules getValueIndices tree removeDuplicates moldat input =
          Except.error e) ↔ ¬ ∃ m, moldat = some m ∧ m.isWhole = true)) ∧
    WholeMolecules.WholeMolecules getValueIndices tree removeDuplicates moldat input ≠
      Except.error "MOLINFO is required to use EMST" := by
  obtain ⟨herr, hok⟩ := constructor_outcome getValueIndices tree removeDuplicates moldat input
  refine ⟨fun r hr => ?_, fun hE => ⟨?_, ?_⟩, fun h => ?_⟩
  · rw [(hok r hr).1]
    exact molInfoIsWhole_iff moldat
  · rintro ⟨e, he⟩ ⟨m, hm, hw⟩
    subst hm
    have h1m : (∃ g rest, input.ENTITY = g :: rest ∧ g ≠ []) ∨
        (input.RESIDUES ≠ [] ∧
          m.getBackbone (if input.RESIDUES.length = 1 ∧ input.RESIDUES.getD 0 "" = "all"
            then ["all-ter"] else input.RESIDUES) input.MOLTYPE ≠ []) := by
      rcases h1 with h1 | h1
      · exact Or.inl h1
      · exact Or.inr ⟨h1.1, h1.2 m rfl⟩
    obtain ⟨r, hr⟩ :=
      constructor_ok_of_whole getValueIndices tree removeDuplicates input m h1m h2 hw
    rw [hr] at he
    cases he
  · intro hno
    cases hc : WholeMolecules.WholeMolecules getValueIndices tree removeDuplicates moldat input with
    | error e => exact ⟨e, rfl⟩
    | ok r =>
      have h := hok r hc
      have hd := h.2 hE
      rw [h.1] at hd
      exact absurd ((molInfoIsWhole_iff moldat).mp hd) hno
  · rcases herr _ h with h | h | h | h | h
    all_goals exact absurd h (by decide)

/-- C19 fails in two ways, each with the `EMST` flag and a preceding `MOLINFO` flagged `WHOLE`:
with `ENTITY0=1,2 RESIDUES=all` and no `MOLTYPE` the construction fails on the `MOLTYPE` check,
and with `ENTITY1=1,2` alone (a non-empty entity, but `ENTITY0` is absent, so that no entity is
read) it fails because no atoms are found. -/
theorem constructor_emst_counterexample :
    (sampleResiduesInput.EMST = true ∧
      (∃ g, g ∈ sampleResiduesInput.ENTITY ∧ g ≠ []) ∧
      (∃ m, some sampleMolInfo = some m ∧ m.isWhole = true) ∧
      WholeMolecules.WholeMolecules (fun a => (0, a)) (fun _ g => (g, g.take (g.length - 1))) id
          (some sampleMolInfo) sampleResiduesInput =
        Except.error
          "Found RESIDUES keyword without specification of the molecule - use MOLTYPE") ∧
    (sampleEntity1Input.EMST = true ∧
      (∃ g, g ∈ sampleEntity1Input.ENTITY ∧ g ≠ []) ∧
      (∃ m, some sampleMolInfo = some m ∧ m.isWhole = true) ∧
      WholeMolecules.WholeMolecules (fun a => (0, a)) (fun _ g => (g, g.take (g.length - 1))) id
          (some sampleMolInfo) sampleEntity1Input =
        Except.error "no atoms found for WHOLEMOLECULES!") := by
  refine ⟨⟨rfl, ⟨[1, 2], by simp [sampleResiduesInput], by simp⟩, ⟨sampleMolInfo, rfl, rfl⟩, ?_⟩,
    ⟨rfl, ⟨[1, 2], by simp [sampleEntity1Input], by simp⟩, ⟨sampleMolInfo, rfl, rfl⟩, rfl⟩⟩
  simp only [WholeMolecules.WholeMolecules,
    readResidues_error (some sampleMolInfo) sampleResiduesInput _
      (by simp [sampleResiduesInput]) (by simp [sampleResiduesInput])]

/-- C18 at the sample input `ENTITY0=1,2 RESIDUES=all EMST` with a `MOLINFO`. -/
theorem constructor_residues_without_moltype_witness :
    sampleResiduesInput.RESIDUES ≠ [] ∧ sampleResiduesInput.MOLTYPE.length = 0 ∧
    ∀ r, WholeMolecules.WholeMolecules (fun a => (0, a)) (fun _ g => (g, g.take (g.length - 1)))
      id (some sampleMolInfo) sampleResiduesInput ≠ Except.ok r :=
  ⟨by simp [sampleResiduesInput], by simp [sampleResiduesInput],
    (constructor_residues_without_moltype (fun a => (0, a))
      (fun _ g => (g, g.take (g.length - 1))) id (some sampleMolInfo) sampleResiduesInput
      (by simp [sampleResiduesInput]) (by simp [sampleResiduesInput])).2⟩

/-- C19, amended, at the sample input `ENTITY0=1,2 EMST` with a `MOLINFO` flagged `WHOLE`, and
at the sample input `RESIDUES=all MOLTYPE=protein EMST` with a `MOLINFO` flagged `WHOLE` whose
backbone is one group: both constructions succeed. -/
theorem constructor_emst_witness :
    ((∃ g rest, sampleEntityInput.ENTITY = g :: rest ∧ g ≠ []) ∧
      ¬ (sampleEntityInput.RESIDUES ≠ [] ∧ sampleEntityInput.MOLTYPE.length = 0) ∧
      ((∃ e, WholeMolecules.WholeMolecules (fun a => (0, a))
          (fun _ g => (g, g.take (g.length - 1))) id (some sampleMolInfo) sampleEntityInput =
            Except.error e) ↔ ¬ ∃ m, some sampleMolInfo = some m ∧ m.isWhole = true)) ∧
    ((sampleBackboneInput.RESIDUES ≠ [] ∧ ∀ m, some sampleBackboneMolInfo = some m →
        m.getBackbone (if sampleBackboneInput.RESIDUES.length = 1 ∧
            sampleBackboneInput.RESIDUES.getD 0 "" = "all"
          then ["all-ter"] else sampleBackboneInput.RESIDUES) sampleBackboneInput.MOLTYPE ≠ []) ∧
      ¬ (sampleBackboneInput.RESIDUES ≠ [] ∧ sampleBackboneInput.MOLTYPE.length = 0) ∧
      ((∃ e, WholeMolecules.WholeMolecules (fun a => (0, a))
          (fun _ g => (g, g.take (g.length - 1))) id (some sampleBackboneMolInfo)
            sampleBackboneInput = Except.error e) ↔
        ¬ ∃ m, some sampleBackboneMolInfo = some m ∧ m.isWhole = true)) :=
  ⟨⟨⟨[1, 2], [], rfl, by simp⟩, by simp [sampleEntityInput],
    (constructor_emst (fun a => (0, a)) (fun _ g => (g, g.take (g.length - 1))) id
      (some sampleMolInfo) sampleEntityInput (Or.inl ⟨[1, 2], [], rfl, by simp⟩)
      (by simp [sampleEntityInput])).2.1 rfl⟩,
   ⟨⟨by simp [sampleBackboneInput], fun m hm => by
      cases hm
      simp [sampleBackboneMolInfo]⟩,
    by simp only [sampleBackboneInput]; decide,
    (constructor_emst (fun a => (0, a)) (fun _ g => (g, g.take (g.length - 1))) id
      (some sampleBackboneMolInfo) sampleBackboneInput
      (Or.inr ⟨by simp [sampleBackboneInput], fun m hm => by
        cases hm
        simp [sampleBackboneMolInfo]⟩)
      (by simp only [sampleBackboneInput]; decide)).2.1 rfl⟩⟩

end constructor
end generic

/-! ## Properties of `InterpolateGrid::setupOnFirstStep` -/

namespace gridtools

section midpoints

variable {α : Type} [Field α] (input_grid : EvaluateGridFunction α) (incalc : Bool)

/-- The bin count that iteration `i` of the `MIDPOINTS` loop stores in `nbin[i]`. -/
theorem midpointsBody_nbin (s : MidpointsVars α) (i : Nat) :
    (midpointsBody input_grid incalc s i).nbin =
      s.nbin.set i (if input_grid.getPbc i then input_grid.getNbin i
        else (input_grid.getNbin i + (2 ^ 64 - 1)) % 2 ^ 64) := by
  unfold midpointsBody
  cases incalc <;> cases input_grid.getPbc i <;> simp

theorem midpointsBody_str_min (s : MidpointsVars α) (i : Nat) :
    (midpointsBody input_grid incalc s i).str_min =
      if incalc then
        Function.update s.str_min i (s.str_min i + 1 / 2 * input_grid.getGridSpacing i)
      else s.str_min := by
  unfold midpointsBody
  cases incalc <;> cases input_grid.getPbc i <;> simp

theorem midpointsBody_str_max (s : MidpointsVars α) (i : Nat) :
    (midpointsBody input_grid incalc s i).str_max =
      if incalc then
        Function.update s.str_max i
          (if input_grid.getPbc i then s.str_max i + 1 / 2 * input_grid.getGridSpacing i
            else s.str_max i - 1 / 2 * input_grid.getGridSpacing i)
      else s.str_max := by
  unfold midpointsBody
  cases incalc <;> cases input_grid.getPbc i <;> simp

/-- Closed form of the first `n` iterations of the `MIDPOINTS` loop. -/
theorem midpointsLoop_closed (s : MidpointsVars α) (n : Nat) (hn : n ≤ s.nbin.length) :
    (∀ i, ((List.range n).foldl (midpointsBody input_grid incalc) s).nbin[i]? =
      if i < n then
        some (if input_grid.getPbc i then input_grid.getNbin i
          else (input_grid.getNbin i + (2 ^ 64 - 1)) % 2 ^ 64)
      else s.nbin[i]?) ∧
    ((List.range n).foldl (midpointsBody input_grid incalc) s).nbin.length = s.nbin.length ∧
    (∀ i, ((List.range n).foldl (midpointsBody input_grid incalc) s).str_min i =
      if incalc = true ∧ i < n then s.str_min i + 1 / 2 * input_grid.getGridSpacing i
      else s.str_min i) ∧
    (∀ i, ((List.range n).foldl (midpointsBody input_grid incalc) s).str_max i =
      if incalc = true ∧ i < n then
        (if input_grid.getPbc i then s.str_max i + 1 / 2 * input_grid.getGridSpacing i
          else s.str_max i - 1 / 2 * input_grid.getGridSpacing i)
      else s.str_max i) := by
  induction n with
  | zero => simp
  | succ n ih =>
    obtain ⟨ih1, ih2, ih3, ih4⟩ := ih (by omega)
    rw [List.range_succ, List.foldl_append]
    simp only [List.foldl_cons, List.foldl_nil, midpointsBody_nbin, midpointsBody_str_min,
      midpointsBody_str_max, List.length_set]
    refine ⟨fun i => ?_, ih2, fun i => ?_, fun i => ?_⟩
    · by_cases hin : i = n
      · subst hin
        rw [List.getElem?_set_self (by rw [ih2]; omega)]
        simp
      · rw [List.getElem?_set_ne (fun h => hin h.symm), ih1]
        by_cases h : i < n
        · simp [h, Nat.lt_succ_of_lt h]
        · have : ¬ i < n + 1 := by omega
          simp [h, this]
    · cases incalc
      · simp [ih3]
      · by_cases hin : i = n
        · subst hin
          simp [ih3]
        · have hlt : i < n + 1 ↔ i < n := by omega
          simp [Function.update_noteq hin, ih3, hlt]
    · cases incalc
      · simp [ih4]
      · by_cases hin : i = n
        · subst hin
          simp [ih4]
        · have hlt : i < n + 1 ↔ i < n := by omega
          simp [Function.update_noteq hin, ih4, hlt]

end midpoints

section setup

variable {α : Type} [Field α] (rank : Nat) (mygridMin mygridMax : Nat → α)
  (self : InterpolateGrid α)

theorem setupOnFirstStep_midpoints (hmid : self.midpoints = true) (incalc : Bool) (i : Nat)
    (hi : i < rank) :
    (setupOnFirstStep rank mygridMin mygridMax self incalc).nbin[i]? =
      some (if self.input_grid.getPbc i then self.input_grid.getNbin i
        else (self.input_grid.getNbin i + (2 ^ 64 - 1)) % 2 ^ 64) ∧
    (setupOnFirstStep rank mygridMin mygridMax self incalc).output_grid.nbin =
      (setupOnFirstStep rank mygridMin mygridMax self incalc).nbin ∧
    (setupOnFirstStep rank mygridMin mygridMax self incalc).output_grid.str_min i =
      (if incalc then self.input_grid.getMin i + 1 / 2 * self.input_grid.getGridSpacing i
        else self.input_grid.getMin i) ∧
    (setupOnFirstStep rank mygridMin mygridMax self incalc).output_grid.str_max i =
      (if incalc then
        (if self.input_grid.getPbc i then
          self.input_grid.getMax i + 1 / 2 * self.input_grid.getGridSpacing i
        else self.input_grid.getMax i - 1 / 2 * self.input_grid.getGridSpacing i)
      else self.input_grid.getMax i) := by
  have hlen := crystdistrib.resize_length self.nbin rank
  obtain ⟨h1, _, h3, h4⟩ := midpointsLoop_closed self.input_grid incalc
    { min := 0, max := 0, str_min := self.input_grid.getMin, str_max := self.input_grid.getMax,
      nbin := crystdistrib.resize self.nbin rank } (crystdistrib.resize self.nbin rank).length
    (le_refl _)
  have hi2 : i < (crystdistrib.resize self.nbin rank).length := by rw [hlen]; exact hi
  have e1 := h1 i
  have e3 := h3 i
  have e4 := h4 i
  rw [if_pos hi2] at e1
  unfold setupOnFirstStep
  cases incalc
  · simp only [hmid, if_true, Bool.not_false, Bool.false_eq_true, if_false]
    refine ⟨e1, trivial, ?_, ?_⟩
    · simpa using e3
    · simpa using e4
  · simp only [hmid, if_true, Bool.not_true, Bool.false_eq_true, if_false]
    refine ⟨e1, trivial, ?_, ?_⟩
    · simpa [hi2] using e3
    · simpa [hi2] using e4

end setup

end gridtools

namespace gridtools

section claims

variable {α : Type} [Field α] (rank : Nat) (mygridMin mygridMax : Nat → α)
  (self : InterpolateGrid α)

/-- Subtracting one from a positive `std::size_t` does not wrap around. -/
theorem size_t_sub_one (N : Nat) (hN : 1 ≤ N) (hsz : N < 2 ^ 64) :
    (N + (2 ^ 64 - 1)) % 2 ^ 64 = N - 1 := by
  norm_num at hsz ⊢
  omega

/-- C16. In `MIDPOINTS` mode, for an input grid with `N ≥ 1` bins in dimension `i` (a
`std::size_t`, so `N < 2 ^ 64`), every call of `InterpolateGrid::setupOnFirstStep` leaves in
the member `nbin`, and hands to the output grid, the bin count `N - 1` if the dimension is not
periodic and `N` if it is periodic, whatever `GRID_BIN` held before (`self.nbin` is arbitrary). -/
theorem setupOnFirstStep_midpoints_nbin (incalc : Bool) (i : Nat)
    (hmid : self.midpoints = true) (hi : i < rank) (hN : 1 ≤ self.input_grid.getNbin i)
    (hsz : self.input_grid.getNbin i < 2 ^ 64) :
    (setupOnFirstStep rank mygridMin mygridMax self incalc).output_grid.nbin[i]? =
      some (if self.input_grid.getPbc i then self.input_grid.getNbin i
        else self.input_grid.getNbin i - 1) ∧
    (setupOnFirstStep rank mygridMin mygridMax self incalc).nbin[i]? =
      some (if self.input_grid.getPbc i then self.input_grid.getNbin i
        else self.input_grid.getNbin i - 1) := by
  obtain ⟨h1, h2, _, _⟩ := setupOnFirstStep_midpoints rank mygridMin mygridMax self hmid incalc i hi
  rw [size_t_sub_one _ hN hsz] at h1
  rw [h2]
  exact ⟨h1, h1⟩

/-- C17, as amended. In `MIDPOINTS` mode, a call `setupOnFirstStep(true)` (the one made during
the calculation) gives the output grid, in every dimension, the bounds of the input grid offset
by half the input spacing: the minimum is increased, the maximum is increased in a periodic
dimension and decreased in a non-periodic one. The call `setupOnFirstStep(false)` made by the
constructor gives the output grid the bounds of the input grid unchanged. -/
theorem setupOnFirstStep_midpoints_bounds (i : Nat) (hmid : self.midpoints = true)
    (hi : i < rank) :
    ((setupOnFirstStep rank mygridMin mygridMax self true).output_grid.str_min i =
        self.input_grid.getMin i + self.input_grid.getGridSpacing i / 2 ∧
      (setupOnFirstStep rank mygridMin mygridMax self true).output_grid.str_max i =
        (if self.input_grid.getPbc i then
          self.input_grid.getMax i + self.input_grid.getGridSpacing i / 2
        else self.input_grid.getMax i - self.input_grid.getGridSpacing i / 2)) ∧
    ((setupOnFirstStep rank mygridMin mygridMax self false).output_grid.str_min i =
        self.input_grid.getMin i ∧
      (setupOnFirstStep rank mygridMin mygridMax self false).output_grid.str_max i =
        self.input_grid.getMax i) := by
  obtain ⟨_, _, h3, h4⟩ := setupOnFirstStep_midpoints rank mygridMin mygridMax self hmid true i hi
  obtain ⟨_, _, h5, h6⟩ := setupOnFirstStep_midpoints rank mygridMin mygridMax self hmid false i hi
  have e : (1 : α) / 2 * self.input_grid.getGridSpacing i =
      self.input_grid.getGridSpacing i / 2 := by ring
  rw [e] at h3 h4
  exact ⟨⟨h3, h4⟩, h5, h6⟩

/-- C17 fails as stated: on the sample `INTERPOLATE_GRID ... MIDPOINTS` (input bounds 0 and 3,
spacing 0.03), the call `setupOnFirstStep(false)` that the constructor makes gives the output
grid the minimum 0 and the maximum 3 of the input grid in both dimensions, not the bounds
offset by half a spacing. -/
theorem setupOnFirstStep_bounds_counterexample :
    (sampleInterpolateGrid ℚ).midpoints = true ∧
    (setupOnFirstStep 2 (fun _ => 0) (fun _ => 3) (sampleInterpolateGrid ℚ) false).output_grid.str_min 0
      = 0 ∧
    (setupOnFirstStep 2 (fun _ => 0) (fun _ => 3) (sampleInterpolateGrid ℚ) false).output_grid.str_max 1
      = 3 ∧
    (setupOnFirstStep 2 (fun _ => 0) (fun _ => 3) (sampleInterpolateGrid ℚ) false).output_grid.str_min 0
      ≠ (sampleInterpolateGrid ℚ).input_grid.getMin 0 +
          (sampleInterpolateGrid ℚ).input_grid.getGridSpacing 0 / 2 ∧
    (setupOnFirstStep 2 (fun _ => 0) (fun _ => 3) (sampleInterpolateGrid ℚ) false).output_grid.str_max 1
      ≠ (sampleInterpolateGrid ℚ).input_grid.getMax 1 -
          (sampleInterpolateGrid ℚ).input_grid.getGridSpacing 1 / 2 := by
  obtain ⟨_, _, h3, _⟩ := setupOnFirstStep_midpoints 2 (fun _ => (0 : ℚ)) (fun _ => 3)
    (sampleInterpolateGrid ℚ) rfl false 0 (by decide)
  obtain ⟨_, _, _, h4⟩ := setupOnFirstStep_midpoints 2 (fun _ => (0 : ℚ)) (fun _ => 3)
    (sampleInterpolateGrid ℚ) rfl false 1 (by decide)
  rw [h3, h4]
  simp only [sampleInterpolateGrid, sampleInputGrid]
  norm_num

theorem setupOnFirstStep_midpoints_nbin_witness :
    ((sampleInterpolateGrid ℚ).midpoints = true ∧ 1 < 2 ∧
      1 ≤ (sampleInterpolateGrid ℚ).input_grid.getNbin 1 ∧
      (sampleInterpolateGrid ℚ).input_grid.getNbin 1 < 2 ^ 64) ∧
    (setupOnFirstStep 2 (fun _ => 0) (fun _ => 3) (sampleInterpolateGrid ℚ) true).output_grid.nbin[1]?
      = some 99 ∧
    (setupOnFirstStep 2 (fun _ => 0) (fun _ => 3) (sampleInterpolateGrid ℚ) true).nbin[1]?
      = some 99 :=
  ⟨⟨rfl, by decide, by decide, by decide⟩,
    setupOnFirstStep_midpoints_nbin 2 (fun _ => (0 : ℚ)) (fun _ => 3) (sampleInterpolateGrid ℚ)
      true 1 rfl (by decide) (by decide) (by decide)⟩

theorem setupOnFirstStep_midpoints_bounds_witness :
    ((sampleInterpolateGrid ℚ).midpoints = true ∧ 1 < 2) ∧
    ((setupOnFirstStep 2 (fun _ => 0) (fun _ => 3) (sampleInterpolateGrid ℚ) true).output_grid.str_min 1
        = 3 / 200 ∧
      (setupOnFirstStep 2 (fun _ => 0) (fun _ => 3) (sampleInterpolateGrid ℚ) true).output_grid.str_max 1
        = 597 / 200) := by
  have h := (setupOnFirstStep_midpoints_bounds 2 (fun _ => (0 : ℚ)) (fun _ => 3)
    (sampleInterpolateGrid ℚ) 1 rfl (by decide)).1
  refine ⟨⟨rfl, by decide⟩, ?_, ?_⟩
  · rw [h.1]
    simp only [sampleInterpolateGrid, sampleInputGrid]
    norm_num
  · rw [h.2]
    simp only [sampleInterpolateGrid, sampleInputGrid]
    norm_num

end claims

end gridtools

/-! ## Properties of `LoopUnroller` -/

namespace LoopUnroller

variable {α : Type} [Mul α] [AddZeroClass α]

theorem _dot_eq_dotLoop (n : Nat) (d v : List α) :
    _dot (n + 1) d v = dotLoop (n + 1) d v := by
  induction n with
  | zero =>
    simp only [_dot, dotLoop, List.range_succ, List.range_zero, List.nil_append,
      List.foldlM_cons, List.foldlM_nil, dotLoopBody, zero_add]
    cases d[0]? <;> cases v[0]? <;> rfl
  | succ n ih =>
    rw [_dot, ih]
    unfold dotLoop
    rw [List.range_succ (n + 1), List.foldlM_append]
    simp only [List.foldlM_cons, List.foldlM_nil, dotLoopBody]
    cases List.foldlM (dotLoopBody d v) 0 (List.range (n + 1)) with
    | none => rfl
    | some r => cases d[n + 1]? <;> cases v[n + 1]? <;> rfl

theorem _sum2_eq_dot (n : Nat) (d : List α) : _sum2 n d = _dot n d d := by
  induction n using Nat.strongRecOn with
  | _ n ih =>
    match n with
    | 0 => rfl
    | 1 =>
      simp only [_sum2, _dot]
      cases d[0]? <;> rfl
    | n + 2 =>
      rw [_sum2, _dot, ih (n + 1) (by omega)]
      cases _dot (n + 1) d d with
      | none => rfl
      | some r => cases d[n + 1]? <;> rfl

theorem sum2Loop_eq_dotLoop (n : Nat) (d : List α) : sum2Loop n d = dotLoop n d d := by
  have h : sum2LoopBody d = dotLoopBody d d := by
    funext r i
    simp only [sum2LoopBody, dotLoopBody]
    cases d[i]? <;> rfl
  rw [sum2Loop, dotLoop, h]

theorem dotLoop_isSome (n : Nat) (d v : List α) (hd : n ≤ d.length) (hv : n ≤ v.length) :
    ∃ r, dotLoop n d v = some r := by
  induction n with
  | zero => exact ⟨0, rfl⟩
  | succ n ih =>
    obtain ⟨r, hr⟩ := ih (by omega) (by omega)
    unfold dotLoop at hr ⊢
    rw [List.range_succ, List.foldlM_append, hr]
    have h1 : d[n]? = some (d.get ⟨n, by omega⟩) := List.getElem?_eq_getElem (by omega)
    have h2 : v[n]? = some (v.get ⟨n, by omega⟩) := List.getElem?_eq_getElem (by omega)
    refine ⟨r + d.get ⟨n, by omega⟩ * v.get ⟨n, by omega⟩, ?_⟩
    simp only [List.foldlM_cons, List.foldlM_nil, dotLoopBody, h1, h2]
    rfl

/-- C20. For every `n ≥ 1` and arrays `d`, `v` with at least `n` elements, the recursion
`LoopUnroller<n>::_dot(d,v)` returns a value, the one of the documented loop
`r=0.0; for(i<n) r+=d[i]*v[i]`; `LoopUnroller<n>::_sum2(d)` returns the value of
`r=0.0; for(i<n) r+=d[i]*d[i]`; and `_sum2(d) = _dot(d,d)`. Only `0 + x = x` is used of the
arithmetic, the additions being done in the same order by the recursion and by the loop. -/
theorem _dot_sum2_eq_loop (n : Nat) (d v : List α) (hn : 1 ≤ n) (hd : n ≤ d.length)
    (hv : n ≤ v.length) :
    (∃ r, _dot n d v = some r ∧ dotLoop n d v = some r) ∧
    (∃ r, _sum2 n d = some r ∧ sum2Loop n d = some r) ∧
    _sum2 n d = _dot n d d := by
  obtain ⟨m, rfl⟩ : ∃ m, n = m + 1 := ⟨n - 1, by omega⟩
  obtain ⟨r, hr⟩ := dotLoop_isSome (m + 1) d v hd hv
  obtain ⟨s, hs⟩ := dotLoop_isSome (m + 1) d d hd hd
  refine ⟨⟨r, ?_, hr⟩, ⟨s, ?_, ?_⟩, _sum2_eq_dot _ d⟩
  · rw [_dot_eq_dotLoop, hr]
  · rw [_sum2_eq_dot, _dot_eq_dotLoop, hs]
  · rw [sum2Loop_eq_dotLoop, hs]

theorem _dot_sum2_eq_loop_witness :
    (1 ≤ 3 ∧ 3 ≤ [(1 : ℤ), 2, 3].length ∧ 3 ≤ [(4 : ℤ), 5, 6].length) ∧
    _dot 3 [(1 : ℤ), 2, 3] [4, 5, 6] = some 32 ∧ _sum2 3 [(1 : ℤ), 2, 3] = some 14 ∧
    ((∃ r, _dot 3 [(1 : ℤ), 2, 3] [4, 5, 6] = some r ∧ dotLoop 3 [1, 2, 3] [4, 5, 6] = some r) ∧
    (∃ r, _sum2 3 [(1 : ℤ), 2, 3] = some r ∧ sum2Loop 3 [1, 2, 3] = some r) ∧
    _sum2 3 [(1 : ℤ), 2, 3] = _dot 3 [1, 2, 3] [1, 2, 3]) :=
  ⟨by decide, by decide, by decide,
    _dot_sum2_eq_loop 3 [1, 2, 3] [4, 5, 6] (by decide) (by decide) (by decide)⟩

end LoopUnroller

/-! ## Properties of the writing methods of `LoopUnroller` -/

namespace LoopUnroller

section writes

variable {α : Type}

/-- A loop that writes the cells `d + 0, ..., d + (n-1)` leaves every other cell as it was. -/
theorem writeLoop_frame (h : Nat → (Nat → α) → α) (n : Nat) (mem : Nat → α) (d a : Nat)
    (ha : ∀ i, i < n → a ≠ d + i) :
    (List.range n).foldl (fun mem i => Function.update mem (d + i) (h i mem)) mem a = mem a := by
  induction n with
  | zero => rfl
  | succ n ih =>
    rw [List.range_succ, List.foldl_append]
    simp only [List.foldl_cons, List.foldl_nil]
    rw [Function.update_noteq (ha n (by omega))]
    exact ih (fun i hi => ha i (by omega))

/-- The cell `d + i` holds after the loop what iteration `i` wrote into it. -/
theorem writeLoop_value (h : Nat → (Nat → α) → α) (n : Nat) (mem : Nat → α) (d i : Nat)
    (hi : i < n) :
    (List.range n).foldl (fun mem i => Function.update mem (d + i) (h i mem)) mem (d + i) =
      h i ((List.range i).foldl (fun mem i => Function.update mem (d + i) (h i mem)) mem) := by
  induction n with
  | zero => omega
  | succ n ih =>
    rw [List.range_succ, List.foldl_append]
    simp only [List.foldl_cons, List.foldl_nil]
    by_cases hin : i = n
    · subst hin
      rw [Function.update_same]
    · rw [Function.update_noteq (by omega)]
      exact ih (by omega)

/-- What a loop `d[i] = f(d[i], v[i])` leaves, when its reads of `v` meet no cell written
before: the new `d[i]`, and every cell outside `d[0..n)` unchanged. -/
theorem writeLoop_spec (f : α → α → α) (n : Nat) (mem : Nat → α) (d v m : Nat) (hm : n ≤ m)
    (hdv : ∀ i, i < n → ∀ j, j < m → v + j ≠ d + i) :
    (∀ i, i < n →
      (List.range n).foldl (fun mem i => Function.update mem (d + i) (f (mem (d + i)) (mem (v + i))))
        mem (d + i) = f (mem (d + i)) (mem (v + i))) ∧
    (∀ i, n ≤ i →
      (List.range n).foldl (fun mem i => Function.update mem (d + i) (f (mem (d + i)) (mem (v + i))))
        mem (d + i) = mem (d + i)) ∧
    (∀ j, j < m →
      (List.range n).foldl (fun mem i => Function.update mem (d + i) (f (mem (d + i)) (mem (v + i))))
        mem (v + j) = mem (v + j)) := by
  refine ⟨fun i hi => ?_, fun i hi => ?_, fun j hj => ?_⟩
  · rw [writeLoop_value (fun i mem => f (mem (d + i)) (mem (v + i))) n mem d i hi]
    rw [writeLoop_frame (fun i mem => f (mem (d + i)) (mem (v + i))) i mem d (d + i)
        (fun k hk => by omega),
      writeLoop_frame (fun i mem => f (mem (d + i)) (mem (v + i))) i mem d (v + i)
        (fun k hk => hdv k (by omega) i (by omega))]
  · exact writeLoop_frame (fun i mem => f (mem (d + i)) (mem (v + i))) n mem d (d + i)
      (fun k hk => by omega)
  · exact writeLoop_frame (fun i mem => f (mem (d + i)) (mem (v + i))) n mem d (v + j)
      (fun k hk => hdv k hk j hj)

theorem _copy_eq_copyLoop (n : Nat) (mem : Nat → α) (d v : Nat) :
    _copy (n + 1) mem d v = some (copyLoop (n + 1) mem d v) := by
  induction n with
  | zero => rfl
  | succ n ih =>
    rw [_copy, if_neg (by omega), ih]
    unfold copyLoop
    rw [List.range_succ (n + 1), List.foldl_append]
    rfl

variable [Ring α]

theorem _zero_eq_zeroLoop (n : Nat) (mem : Nat → α) (d : Nat) :
    _zero (n + 1) mem d = some (zeroLoop (n + 1) mem d) := by
  induction n with
  | zero => rfl
  | succ n ih =>
    rw [_zero, ih]
    unfold zeroLoop
    rw [List.range_succ (n + 1), List.foldl_append]
    rfl

theorem _add_eq_addLoop (n : Nat) (mem : Nat → α) (d v : Nat) :
    _add (n + 1) mem d v = some (addLoop (n + 1) mem d v) := by
  induction n with
  | zero => rfl
  | succ n ih =>
    rw [_add, ih]
    unfold addLoop
    rw [List.range_succ (n + 1), List.foldl_append]
    rfl

theorem _sub_eq_subLoop (n : Nat) (mem : Nat → α) (d v : Nat) :
    _sub (n + 1) mem d v = some (subLoop (n + 1) mem d v) := by
  induction n with
  | zero => rfl
  | succ n ih =>
    rw [_sub, ih]
    unfold subLoop
    rw [List.range_succ (n + 1), List.foldl_append]
    rfl

theorem _mul_eq_mulLoop (n : Nat) (mem : Nat → α) (d : Nat) (s : α) :
    _mul (n + 1) mem d s = some (mulLoop (n + 1) mem d s) := by
  induction n with
  | zero => rfl
  | succ n ih =>
    rw [_mul, ih]
    unfold mulLoop
    rw [List.range_succ (n + 1), List.foldl_append]
    rfl

theorem _neg_eq_negLoop (n : Nat) (mem : Nat → α) (d v : Nat) :
    _neg (n + 1) mem d v = some (negLoop (n + 1) mem d v) := by
  induction n with
  | zero => rfl
  | succ n ih =>
    rw [_neg, ih]
    unfold negLoop
    rw [List.range_succ (n + 1), List.foldl_append]
    rfl

end writes

end LoopUnroller

namespace LoopUnroller

section writes

variable {α : Type} [Ring α]

/-- C21, as amended. For every `n ≥ 1`, each of `LoopUnroller<n>::_zero`, `_copy`, `_add`,
`_sub`, `_mul` and `_neg` returns, and leaves the memory that its documented loop leaves. When
`v` is an array of `m ≥ n` elements none of which is one of `d[0], ..., d[n-1]`, then `d[i]` for
`i < n` is `0`, `v[i]`, `d[i]+v[i]`, `d[i]-v[i]`, `d[i]*s`, `-v[i]` respectively (in terms of
the values before the call), and every `d[i]` with `i ≥ n` and every element of `v` is
unchanged. -/
theorem unrolled_writes_eq_loop (n : Nat) (mem : Nat → α) (d v m : Nat) (s : α) (hn : 1 ≤ n)
    (hm : n ≤ m) (hdv : ∀ i, i < n → ∀ j, j < m → v + j ≠ d + i) :
    (∃ r, _zero n mem d = some r ∧ r = zeroLoop n mem d ∧
      (∀ i, i < n → r (d + i) = 0) ∧
      (∀ i, n ≤ i → r (d + i) = mem (d + i)) ∧ (∀ j, j < m → r (v + j) = mem (v + j))) ∧
    (∃ r, _copy n mem d v = some r ∧ r = copyLoop n mem d v ∧
      (∀ i, i < n → r (d + i) = mem (v + i)) ∧
      (∀ i, n ≤ i → r (d + i) = mem (d + i)) ∧ (∀ j, j < m → r (v + j) = mem (v + j))) ∧
    (∃ r, _add n mem d v = some r ∧ r = addLoop n mem d v ∧
      (∀ i, i < n → r (d + i) = mem (d + i) + mem (v + i)) ∧
      (∀ i, n ≤ i → r (d + i) = mem (d + i)) ∧ (∀ j, j < m → r (v + j) = mem (v + j))) ∧
    (∃ r, _sub n mem d v = some r ∧ r = subLoop n mem d v ∧
      (∀ i, i < n → r (d + i) = mem (d + i) - mem (v + i)) ∧
      (∀ i, n ≤ i → r (d + i) = mem (d + i)) ∧ (∀ j, j < m → r (v + j) = mem (v + j))) ∧
    (∃ r, _mul n mem d s = some r ∧ r = mulLoop n mem d s ∧
      (∀ i, i < n → r (d + i) = mem (d + i) * s) ∧
      (∀ i, n ≤ i → r (d + i) = mem (d + i)) ∧ (∀ j, j < m → r (v + j) = mem (v + j))) ∧
    (∃ r, _neg n mem d v = some r ∧ r = negLoop n mem d v ∧
      (∀ i, i < n → r (d + i) = -mem (v + i)) ∧
      (∀ i, n ≤ i → r (d + i) = mem (d + i)) ∧ (∀ j, j < m → r (v + j) = mem (v + j))) := by
  obtain ⟨k, rfl⟩ : ∃ k, n = k + 1 := ⟨n - 1, by omega⟩
  refine ⟨⟨_, _zero_eq_zeroLoop k mem d, rfl, ?_⟩, ⟨_, _copy_eq_copyLoop k mem d v, rfl, ?_⟩,
    ⟨_, _add_eq_addLoop k mem d v, rfl, ?_⟩, ⟨_, _sub_eq_subLoop k mem d v, rfl, ?_⟩,
    ⟨_, _mul_eq_mulLoop k mem d s, rfl, ?_⟩, ⟨_, _neg_eq_negLoop k mem d v, rfl, ?_⟩⟩
  · exact writeLoop_spec (fun _ _ => 0) (k + 1) mem d v m hm hdv
  · exact writeLoop_spec (fun _ y => y) (k + 1) mem d v m hm hdv
  · exact writeLoop_spec (fun x y => x + y) (k + 1) mem d v m hm hdv
  · exact writeLoop_spec (fun x y => x - y) (k + 1) mem d v m hm hdv
  · exact writeLoop_spec (fun x _ => x * s) (k + 1) mem d v m hm hdv
  · exact writeLoop_spec (fun _ y => -y) (k + 1) mem d v m hm hdv

/-- C21 fails when `v` is the array `d` itself: on the sample memory `1, 2, 3, ...` the call
`LoopUnroller<2>::_add(d, d)` leaves `2, 4` in the two elements of `v`, which held `1, 2`. -/
theorem unrolled_writes_counterexample :
    (_add 2 sampleMemory 0 0).map (fun r => [r (0 + 0), r (0 + 1)]) = some [2, 4] ∧
    [sampleMemory (0 + 0), sampleMemory (0 + 1)] = [1, 2] ∧
    ∃ r, _add 2 sampleMemory 0 0 = some r ∧ r (0 + 0) ≠ sampleMemory (0 + 0) :=
  ⟨by decide, by decide, _, rfl, by decide⟩

/-- C21, as amended, on the sample memory `1, 2, 3, 4, 5, ...` with `n = 2`, `d` at address 0 and `v` at
address 3: `_add` leaves `5, 7, 3, 4, 5`. -/
theorem unrolled_writes_eq_loop_witness :
    (1 ≤ 2 ∧ 2 ≤ 2 ∧ ∀ i, i < 2 → ∀ j, j < 2 → 3 + j ≠ 0 + i) ∧
    (_add 2 sampleMemory 0 3).map (fun r => [r 0, r 1, r 2, r 3, r 4]) = some [5, 7, 3, 4, 5] ∧
    (∃ r, _add 2 sampleMemory 0 3 = some r ∧ r = addLoop 2 sampleMemory 0 3 ∧
      (∀ i, i < 2 → r (0 + i) = sampleMemory (0 + i) + sampleMemory (3 + i)) ∧
      (∀ i, 2 ≤ i → r (0 + i) = sampleMemory (0 + i)) ∧
      (∀ j, j < 2 → r (3 + j) = sampleMemory (3 + j))) :=
  ⟨⟨by decide, by decide, fun i _ j _ => by omega⟩, by decide,
    (unrolled_writes_eq_loop 2 sampleMemory 0 3 2 7 (by decide) (by decide)
      (fun i _ j _ => by omega)).2.2.1⟩

end writes

end LoopUnroller

/-! ## Properties of `QuaternionProductMatrix::runEndOfRowJobs` -/

namespace crystdistrib

section endOfRow

theorem map_range_update (mi : Nat → Nat) (L x : Nat) :
    (List.range (L + 1)).map (Function.update mi L x) = (List.range L).map mi ++ [x] := by
  rw [List.range_succ, List.map_append, List.map_singleton, Function.update_same]
  congr 1
  apply List.map_congr_left
  intro p hp
  rw [List.mem_range] at hp
  rw [Function.update_noteq (by omega)]

/-- The four iterations that record one quaternion append its four argument indices. -/
theorem firstQuaternionLoop (shape : Nat → Nat) (S x : Nat) (s : RowVars)
    (h : ∀ k, k < 4 → shape k = S) :
    ((List.range 4).foldl (firstQuaternionBody shape x) s).nmat_ind = s.nmat_ind + 4 ∧
    ((List.range 4).foldl (firstQuaternionBody shape x) s).base = s.base + 4 * S ∧
    (List.range (s.nmat_ind + 4)).map
        ((List.range 4).foldl (firstQuaternionBody shape x) s).matrix_indices =
      (List.range s.nmat_ind).map s.matrix_indices ++
        [s.base + x, s.base + S + x, s.base + 2 * S + x, s.base + 3 * S + x] := by
  simp only [range_four, List.foldl_cons, List.foldl_nil, firstQuaternionBody,
    h 0 (by omega), h 1 (by omega), h 2 (by omega), h 3 (by omega)]
  refine ⟨trivial, by omega, ?_⟩
  have e4 : s.nmat_ind + 4 = (s.nmat_ind + 1 + 1 + 1) + 1 := by omega
  rw [e4, map_range_update, map_range_update, map_range_update, map_range_update]
  simp only [List.append_assoc, List.cons_append, List.nil_append]
  congr 1
  simp only [List.cons.injEq, and_true, true_and]
  omega

theorem secondQuaternionBody_eq (shape : Nat → Nat) (ind2 : Nat) :
    secondQuaternionBody shape ind2 = firstQuaternionBody (fun k => shape (4 + k)) ind2 := rfl

/-- The loop over the row appends, for every column `c` in turn, the four argument indices of
the column quaternion. -/
theorem rowLoop (shape : Nat → Nat) (N M : Nat) (indices : List Nat) (hN : shape 0 = N)
    (hshape2 : ∀ k, k < 4 → shape (4 + k) = M) (m : Nat)
    (hind : ∀ c, c < m → indices.getD (c + 1) 0 = N + c) (s : RowVars) :
    ((List.range' 1 m).foldl (rowBody shape indices) s).nmat_ind = s.nmat_ind + 4 * m ∧
    (List.range (s.nmat_ind + 4 * m)).map
        ((List.range' 1 m).foldl (rowBody shape indices) s).matrix_indices =
      (List.range s.nmat_ind).map s.matrix_indices ++
        (List.range m).flatMap
          (fun c => [4 * N + c, 4 * N + M + c, 4 * N + 2 * M + c, 4 * N + 3 * M + c]) := by
  induction m with
  | zero => simp
  | succ m ih =>
    obtain ⟨ih1, ih2⟩ := ih (fun c hc => hind c (by omega))
    rw [List.range'_1_concat, List.foldl_append, List.foldl_cons, List.foldl_nil]
    have hi : indices.getD (1 + m) 0 = N + m := by rw [Nat.add_comm]; exact hind m (by omega)
    have hbody : ∀ t : RowVars, rowBody shape indices t (1 + m) =
        (List.range 4).foldl (firstQuaternionBody (fun k => shape (4 + k)) m)
          { t with base := 4 * N } := by
      intro t
      simp only [rowBody, hi, hN, secondQuaternionBody_eq]
      rw [if_pos (by omega), Nat.add_sub_cancel_left]
    rw [hbody]
    obtain ⟨h1, _, h3⟩ := firstQuaternionLoop (fun k => shape (4 + k)) M m
      { (List.foldl (rowBody shape indices) s (List.range' 1 m)) with base := 4 * N } hshape2
    dsimp only at h1 h3
    refine ⟨by rw [h1, ih1]; omega, ?_⟩
    have e : s.nmat_ind + 4 * (m + 1) =
        (List.foldl (rowBody shape indices) s (List.range' 1 m)).nmat_ind + 4 := by
      rw [ih1]; omega
    rw [e, h3, ih1, ih2, List.range_succ, List.flatMap_append, List.append_assoc]
    simp

theorem expected_mem (N M ival x : Nat) :
    x ∈ (List.range 4).map (fun k => k * N + ival) ++
        (List.range M).flatMap (fun c => (List.range 4).map (fun k => 4 * N + k * M + c)) ↔
      (x = ival ∨ x = N + ival ∨ x = 2 * N + ival ∨ x = 3 * N + ival) ∨
      ∃ c, c < M ∧ (x = 4 * N + c ∨ x = 4 * N + M + c ∨ x = 4 * N + 2 * M + c ∨
        x = 4 * N + 3 * M + c) := by
  simp only [range_four, List.map_cons, List.map_nil, List.mem_append, List.mem_cons,
    List.mem_flatMap, List.mem_range, List.not_mem_nil, or_false, Nat.zero_mul, Nat.one_mul,
    Nat.zero_add, Nat.add_zero]

/-- The recorded argument indices are pairwise distinct. -/
theorem expected_nodup (N M ival : Nat) (hival : ival < N) :
    ((List.range 4).map (fun k => k * N + ival) ++
      (List.range M).flatMap
        (fun c => (List.range 4).map (fun k => 4 * N + k * M + c))).Nodup := by
  rw [List.nodup_append]
  refine ⟨?_, ?_, ?_⟩
  · simp only [range_four, List.map_cons, List.map_nil, List.nodup_cons, List.mem_cons,
      List.not_mem_nil, or_false, List.nodup_nil, and_true, not_false_eq_true, Nat.zero_mul,
      Nat.one_mul, Nat.zero_add]
    omega
  · rw [List.nodup_flatMap]
    constructor
    · intro c hc
      rw [List.mem_range] at hc
      simp only [range_four, List.map_cons, List.map_nil, List.nodup_cons, List.mem_cons,
        List.not_mem_nil, or_false, List.nodup_nil, and_true, not_false_eq_true, Nat.zero_mul,
      Nat.one_mul, Nat.zero_add]
      omega
    · refine List.Pairwise.imp_of_mem ?_ (List.nodup_range M)
      intro c c' hc hc' hne
      rw [List.mem_range] at hc hc'
      simp only [Function.onFun, range_four, List.map_cons, List.map_nil]
      intro x hx hx'
      simp only [List.mem_cons, List.not_mem_nil, or_false] at hx hx'
      omega
  · intro x hx hx'
    simp only [range_four, List.map_cons, List.map_nil, List.mem_cons, List.not_mem_nil,
      or_false, List.mem_flatMap, List.mem_range] at hx hx'
    obtain ⟨c, hc, h⟩ := hx'
    omega

/-- Every recorded argument index names an entry of one of the eight arguments. -/
theorem expected_lt (N M ival : Nat) (hival : ival < N) (x : Nat)
    (hx : x ∈ (List.range 4).map (fun k => k * N + ival) ++
      (List.range M).flatMap (fun c => (List.range 4).map (fun k => 4 * N + k * M + c))) :
    x < 4 * N + 4 * M := by
  rw [expected_mem] at hx
  obtain h | ⟨c, hc, h⟩ := hx <;> omega

end endOfRow

end crystdistrib

namespace crystdistrib

section endOfRowJobs

variable {α : Type} (pos : Nat → Nat) (shape : Nat → Nat) (N M ival : Nat) (indices : List Nat)
  (myvals : MultiValue α)

/-- What one iteration of the loop over the components records for its own matrix, and that it
leaves the bookkeeping of every other matrix alone. -/
theorem componentBody_spec (hshape1 : ∀ k, k < 4 → shape k = N)
    (hshape2 : ∀ k, k < 4 → shape (4 + k) = M) (hsplit : myvals.splitIndex = M + 1)
    (hind : ∀ c, c < M → indices.getD (c + 1) 0 = N + c) (rows : MatrixRowDerivatives) (j : Nat)
    (hempty : rows.number (pos j) = 0) :
    (componentBody pos shape ival indices myvals rows j).number (pos j) = 4 * (M + 1) ∧
    (componentBody pos shape ival indices myvals rows j).recorded (pos j) =
      (List.range 4).map (fun k => k * N + ival) ++
        (List.range M).flatMap (fun c => (List.range 4).map (fun k => 4 * N + k * M + c)) ∧
    ∀ nmat, nmat ≠ pos j →
      (componentBody pos shape ival indices myvals rows j).number nmat = rows.number nmat ∧
      (componentBody pos shape ival indices myvals rows j).indices nmat = rows.indices nmat := by
  obtain ⟨h1, _, h3⟩ := firstQuaternionLoop shape N ival
    { matrix_indices := rows.indices (pos j), nmat_ind := rows.number (pos j), base := 0 } hshape1
  obtain ⟨h4, h5⟩ := rowLoop shape N M indices (hshape1 0 (by omega)) hshape2 M hind
    ((List.range 4).foldl (firstQuaternionBody shape ival)
      { matrix_indices := rows.indices (pos j), nmat_ind := rows.number (pos j), base := 0 })
  dsimp only at h1 h3
  rw [hempty] at h1 h3 h4 h5
  rw [h1] at h4 h5
  rw [h3] at h5
  have hn : (componentBody pos shape ival indices myvals rows j).number (pos j) =
      4 * (M + 1) := by
    simp only [componentBody, Function.update_same, hsplit, Nat.add_sub_cancel, hempty]
    rw [h4]
    omega
  refine ⟨hn, ?_, fun nmat hne => ?_⟩
  · unfold MatrixRowDerivatives.recorded
    rw [hn]
    simp only [componentBody, Function.update_same, hsplit, Nat.add_sub_cancel, hempty]
    have e : 4 * (M + 1) = 0 + 4 + 4 * M := by omega
    rw [e, h5]
    simp [range_four]
  · simp only [componentBody, Function.update_noteq hne, and_self]

/-- The loop over the components `js` leaves alone the matrices of other components. -/
theorem componentLoop_frame (js : List Nat) (rows : MatrixRowDerivatives) (nmat : Nat)
    (hn : ∀ j, j ∈ js → nmat ≠ pos j) :
    (js.foldl (componentBody pos shape ival indices myvals) rows).number nmat =
      rows.number nmat ∧
    (js.foldl (componentBody pos shape ival indices myvals) rows).indices nmat =
      rows.indices nmat := by
  induction js generalizing rows with
  | nil => exact ⟨rfl, rfl⟩
  | cons j js ih =>
    rw [List.foldl_cons]
    obtain ⟨h1, h2⟩ := ih (componentBody pos shape ival indices myvals rows j)
      (fun j' hj' => hn j' (List.mem_cons_of_mem _ hj'))
    have hne : nmat ≠ pos j := hn j (List.mem_cons_self _ _)
    rw [h1, h2]
    simp only [componentBody, Function.update_noteq hne, and_self]

theorem componentLoop_spec (hshape1 : ∀ k, k < 4 → shape k = N)
    (hshape2 : ∀ k, k < 4 → shape (4 + k) = M) (hsplit : myvals.splitIndex = M + 1)
    (hind : ∀ c, c < M → indices.getD (c + 1) 0 = N + c) (js : List Nat)
    (hjs : (js.map pos).Nodup) (rows : MatrixRowDerivatives)
    (hempty : ∀ j, j ∈ js → rows.number (pos j) = 0) (j : Nat) (hj : j ∈ js) :
    (js.foldl (componentBody pos shape ival indices myvals) rows).number (pos j) =
      4 * (M + 1) ∧
    (js.foldl (componentBody pos shape ival indices myvals) rows).recorded (pos j) =
      (List.range 4).map (fun k => k * N + ival) ++
        (List.range M).flatMap (fun c => (List.range 4).map (fun k => 4 * N + k * M + c)) := by
  induction js generalizing rows with
  | nil => cases hj
  | cons j0 js ih =>
    rw [List.map_cons, List.nodup_cons] at hjs
    obtain ⟨hnotin, hnd⟩ := hjs
    obtain ⟨c1, c2, c3⟩ := componentBody_spec pos shape N M ival indices myvals hshape1 hshape2
      hsplit hind rows j0 (hempty j0 (List.mem_cons_self _ _))
    rw [List.foldl_cons]
    rcases List.mem_cons.mp hj with rfl | hj'
    · obtain ⟨f1, f2⟩ := componentLoop_frame pos shape ival indices myvals js
        (componentBody pos shape ival indices myvals rows j) (pos j)
        (fun j' hj' he => hnotin (by rw [he]; exact List.mem_map_of_mem pos hj'))
      refine ⟨by rw [f1, c1], ?_⟩
      unfold MatrixRowDerivatives.recorded at c2 ⊢
      rw [f1, f2, c2]
    · refine ih hnd _ (fun j' hj'' => ?_) hj'
      have hne : pos j' ≠ pos j0 := fun he => hnotin (by rw [← he]; exact List.mem_map_of_mem pos hj'')
      rw [(c3 (pos j') hne).1]
      exact hempty j' (List.mem_cons_of_mem _ hj'')

theorem setupForTask_getD (task_index : Nat) (indices0 : List Nat) (mv : MultiValue α) (c : Nat)
    (hc : c < M) : (setupForTask N M task_index indices0 mv).1.getD (c + 1) 0 = N + c := by
  rw [List.getD_eq_getElem?_getD, setupForTask_indices N M task_index indices0 mv c hc]
  rfl

/-- C22. When derivatives are computed and the matrix chain continues, with arguments 0-3 all
of length `N`, arguments 4-7 all of length `M`, a row `ival < N`, the split index and the
indices that `setupForTask` sets, and nothing recorded yet for the matrices of the four
components (which are stashed at four different positions), `runEndOfRowJobs` records for each
of the four components exactly `4*(M+1)` argument indices: `k*N+ival` for `k=0..3` followed, for
each column `c`, by `4N+k*M+c` for `k=0..3`; they are pairwise distinct and each is smaller
than `4N+4M`. -/
theorem runEndOfRowJobs_records (task_index : Nat) (indices0 : List Nat) (myvals0 : MultiValue α)
    (rows : MatrixRowDerivatives) (hshape1 : ∀ k, k < 4 → shape k = N)
    (hshape2 : ∀ k, k < 4 → shape (4 + k) = M) (hival : ival < N)
    (hpos : ∀ j j', j < 4 → j' < 4 → pos j = pos j' → j = j')
    (hempty : ∀ j, j < 4 → rows.number (pos j) = 0) (j : Nat) (hj : j < 4) :
    (runEndOfRowJobs false true 4 pos shape ival (setupForTask N M task_index indices0 myvals0).1
        (setupForTask N M task_index indices0 myvals0).2 rows).number (pos j) = 4 * (M + 1) ∧
    (runEndOfRowJobs false true 4 pos shape ival (setupForTask N M task_index indices0 myvals0).1
        (setupForTask N M task_index indices0 myvals0).2 rows).recorded (pos j) =
      (List.range 4).map (fun k => k * N + ival) ++
        (List.range M).flatMap (fun c => (List.range 4).map (fun k => 4 * N + k * M + c)) ∧
    ((runEndOfRowJobs false true 4 pos shape ival (setupForTask N M task_index indices0 myvals0).1
        (setupForTask N M task_index indices0 myvals0).2 rows).recorded (pos j)).Nodup ∧
    ∀ x, x ∈ (runEndOfRowJobs false true 4 pos shape ival
        (setupForTask N M task_index indices0 myvals0).1
        (setupForTask N M task_index indices0 myvals0).2 rows).recorded (pos j) →
      x < 4 * N + 4 * M := by
  have hjs : ((List.range 4).map pos).Nodup := by
    refine List.Nodup.map_on ?_ (List.nodup_range 4)
    intro a ha b hb hab
    rw [List.mem_range] at ha hb
    exact hpos a b ha hb hab
  obtain ⟨h1, h2⟩ := componentLoop_spec pos shape N M ival
    (setupForTask N M task_index indices0 myvals0).1
    (setupForTask N M task_index indices0 myvals0).2 hshape1 hshape2 rfl
    (fun c hc => setupForTask_getD N M task_index indices0 myvals0 c hc) (List.range 4) hjs rows
    (fun j' hj' => hempty j' (List.mem_range.mp hj')) j (List.mem_range.mpr hj)
  have hrun : runEndOfRowJobs false true 4 pos shape ival
      (setupForTask N M task_index indices0 myvals0).1
      (setupForTask N M task_index indices0 myvals0).2 rows =
      (List.range 4).foldl (componentBody pos shape ival
        (setupForTask N M task_index indices0 myvals0).1
        (setupForTask N M task_index indices0 myvals0).2) rows := rfl
  rw [hrun, h2]
  exact ⟨h1, rfl, expected_nodup N M ival hival, expected_lt N M ival hival⟩

/-- C22 on the sample arguments (`N = 2`, `M = 3`) for row `ival = 1` and the component `k`
(number 3): sixteen indices are recorded. -/
theorem runEndOfRowJobs_records_witness :
    ((∀ k, k < 4 → sampleShape k = 2) ∧ (∀ k, k < 4 → sampleShape (4 + k) = 3) ∧ 1 < 2 ∧
      (∀ j j', j < 4 → j' < 4 → id j = id j' → j = j') ∧
      (∀ j, j < 4 → sampleRows.number (id j) = 0) ∧ 3 < 4) ∧
    (runEndOfRowJobs false true 4 id sampleShape 1
        (setupForTask 2 3 0 [] (MultiValue.cleared : MultiValue ℤ)).1
        (setupForTask 2 3 0 [] (MultiValue.cleared : MultiValue ℤ)).2 sampleRows).recorded (id 3) =
      [1, 3, 5, 7, 8, 11, 14, 17, 9, 12, 15, 18, 10, 13, 16, 19] :=
  ⟨⟨by decide, by decide, by decide, fun _ _ _ _ h => h, fun _ _ => rfl, by decide⟩,
    (runEndOfRowJobs_records id sampleShape 2 3 1 0 [] (MultiValue.cleared : MultiValue ℤ)
      sampleRows (by decide) (by decide) (by decide) (fun _ _ _ _ h => h) (fun _ _ => rfl) 3
      (by decide)).2.1⟩

end endOfRowJobs

end crystdistrib

/-! ## Properties of `InterpolateGrid::gatherStoredValue` -/

namespace gridtools

section gather

variable {α : Type} [Add α]

/-- The blocks of `1 + D` buffer entries of two different grid points do not meet. -/
theorem block_disjoint (D bufstart code code' i : Nat) (hne : code' ≠ code) (hi : i ≤ D) :
    bufstart + (1 + D) * code' + i < bufstart + (1 + D) * code ∨
      bufstart + (1 + D) * code + D < bufstart + (1 + D) * code' + i := by
  rcases Nat.lt_or_gt_of_ne hne with h | h
  · left
    have h2 := Nat.mul_le_mul_left (1 + D) (Nat.succ_le_of_lt h)
    rw [Nat.succ_eq_add_one, Nat.mul_add, Nat.mul_one] at h2
    omega
  · right
    have h2 := Nat.mul_le_mul_left (1 + D) (Nat.succ_le_of_lt h)
    rw [Nat.succ_eq_add_one, Nat.mul_add, Nat.mul_one] at h2
    omega

/-- Without wrap-around of the `unsigned` index arithmetic, `gatherStoredValue` is the update
of `buffer[istart]` followed by the loop over `buffer[istart+1+i]`. -/
theorem gatherStoredValue_of_lt (D code bufstart : Nat) (myvals : GridTaskValues α)
    (buffer : Nat → α) (hb : bufstart + (1 + D) * code + D < 2 ^ 32) :
    gatherStoredValue D 0 code myvals bufstart buffer =
      some ((List.range D).foldl
        (fun buffer i => Function.update buffer (bufstart + (1 + D) * code + 1 + i)
          (buffer (bufstart + (1 + D) * code + 1 + i) + myvals.getDerivative 0 i))
        (Function.update buffer (bufstart + (1 + D) * code)
          (buffer (bufstart + (1 + D) * code) + myvals.get 0))) := by
  have e0 : (bufstart + (1 + D) * code) % 2 ^ 32 = bufstart + (1 + D) * code :=
    Nat.mod_eq_of_lt (by omega)
  unfold gatherStoredValue
  rw [if_neg (by simp)]
  simp only [e0]
  congr 1
  apply List.foldl_ext
  intro b i hi
  rw [List.mem_range] at hi
  rw [Nat.mod_eq_of_lt (by omega)]

/-- C23, as amended. For an output grid of dimension `D` and a grid point `code` whose entries
lie within the range of `unsigned` (`bufstart+(1+D)*code+D < 2^32`),
`InterpolateGrid::gatherStoredValue` (called with `valindex = 0`, as it asserts) adds the task's
value to `buffer[bufstart+(1+D)*code]` and its `i`-th derivative to
`buffer[bufstart+(1+D)*code+1+i]` for `i < D`, and changes no other buffer entry; in particular
it changes none of the `1 + D` entries of another such grid point `code'`. -/
theorem gatherStoredValue_adds (D code bufstart : Nat) (myvals : GridTaskValues α)
    (buffer : Nat → α) (hb : bufstart + (1 + D) * code + D < 2 ^ 32) :
    ∃ r, gatherStoredValue D 0 code myvals bufstart buffer = some r ∧
      r (bufstart + (1 + D) * code) = buffer (bufstart + (1 + D) * code) + myvals.get 0 ∧
      (∀ i, i < D → r (bufstart + (1 + D) * code + 1 + i) =
        buffer (bufstart + (1 + D) * code + 1 + i) + myvals.getDerivative 0 i) ∧
      (∀ a, a < bufstart + (1 + D) * code ∨ bufstart + (1 + D) * code + D < a →
        r a = buffer a) ∧
      (∀ code', code' ≠ code → bufstart + (1 + D) * code' + D < 2 ^ 32 → ∀ i, i ≤ D →
        r (bufstart + (1 + D) * code' + i) = buffer (bufstart + (1 + D) * code' + i)) := by
  have hframe : ∀ a, a < bufstart + (1 + D) * code ∨ bufstart + (1 + D) * code + D < a →
      (List.range D).foldl
        (fun buffer i => Function.update buffer (bufstart + (1 + D) * code + 1 + i)
          (buffer (bufstart + (1 + D) * code + 1 + i) + myvals.getDerivative 0 i))
        (Function.update buffer (bufstart + (1 + D) * code)
          (buffer (bufstart + (1 + D) * code) + myvals.get 0)) a = buffer a := by
    intro a ha
    rw [LoopUnroller.writeLoop_frame
      (fun i buffer => buffer (bufstart + (1 + D) * code + 1 + i) + myvals.getDerivative 0 i) D _
      (bufstart + (1 + D) * code + 1) a (fun i hi => by omega)]
    rw [Function.update_noteq (by omega)]
  refine ⟨_, gatherStoredValue_of_lt D code bufstart myvals buffer hb, ?_, fun i hi => ?_,
    hframe, fun code' hne _ i hi => ?_⟩
  · rw [LoopUnroller.writeLoop_frame
      (fun i buffer => buffer (bufstart + (1 + D) * code + 1 + i) + myvals.getDerivative 0 i) D _
      (bufstart + (1 + D) * code + 1) _ (fun i hi => by omega)]
    rw [Function.update_same]
  · rw [LoopUnroller.writeLoop_value
      (fun i buffer => buffer (bufstart + (1 + D) * code + 1 + i) + myvals.getDerivative 0 i) D _
      (bufstart + (1 + D) * code + 1) i hi]
    rw [LoopUnroller.writeLoop_frame
      (fun i buffer => buffer (bufstart + (1 + D) * code + 1 + i) + myvals.getDerivative 0 i) i _
      (bufstart + (1 + D) * code + 1) _ (fun k hk => by omega)]
    rw [Function.update_noteq (by omega)]
  · exact hframe _ (block_disjoint D bufstart code code' i hne hi)

/-- C23 fails once the index arithmetic wraps around: on a grid of dimension 3 with
`bufstart = 0`, the call for the grid point `2^30` computes `istart = 4 * 2^30 mod 2^32 = 0`, so
it adds the value and the derivatives to the entries 0, 1, 2, 3, which are those of the grid
point 0, and leaves `buffer[bufstart+(1+D)*code]` as it was. -/
theorem gatherStoredValue_counterexample :
    (gatherStoredValue 3 0 (2 ^ 30) sampleTaskValues 0 (fun _ => 0)).map
        (fun r => [r 0, r 1, r 2, r 3, r (0 + (1 + 3) * 2 ^ 30)]) = some [7, 10, 20, 30, 0] ∧
    (gatherStoredValue 3 0 0 sampleTaskValues 0 (fun _ => 0)).map
        (fun r => [r 0, r 1, r 2, r 3]) = some [7, 10, 20, 30] := by
  constructor <;> decide

/-- C23, as amended, on a grid of dimension 2 with `bufstart = 1`, for the grid point 1 of a
buffer of zeros: the entries 4, 5, 6 receive the value and the two derivatives. -/
theorem gatherStoredValue_adds_witness :
    1 + (1 + 2) * 1 + 2 < 2 ^ 32 ∧
    (gatherStoredValue 2 0 1 sampleTaskValues 1 (fun _ => 0)).map
        (fun r => (List.range 9).map r) = some [0, 0, 0, 0, 7, 10, 20, 0, 0] ∧
    ∃ r, gatherStoredValue 2 0 1 sampleTaskValues 1 (fun _ => 0) = some r ∧
      r (1 + (1 + 2) * 1) = 0 + sampleTaskValues.get 0 ∧
      (∀ i, i < 2 → r (1 + (1 + 2) * 1 + 1 + i) = 0 + sampleTaskValues.getDerivative 0 i) ∧
      (∀ a, a < 1 + (1 + 2) * 1 ∨ 1 + (1 + 2) * 1 + 2 < a → r a = 0) ∧
      (∀ code', code' ≠ 1 → 1 + (1 + 2) * code' + 2 < 2 ^ 32 → ∀ i, i ≤ 2 →
        r (1 + (1 + 2) * code' + i) = 0) :=
  ⟨by decide, by decide,
    gatherStoredValue_adds 2 1 1 sampleTaskValues (fun _ => 0) (by decide)⟩

end gather

end gridtools

/-! ## Default mode, tree mode and idempotence of `WholeMolecules::calculate` -/

namespace generic

section defaultRoots

variable {V : Type} [AddCommGroup V] (pbcDistance : V → V → V)

/-- The tree loop reads the root list only at the places `0, ..., n-1`. -/
theorem treeLoop_congr_roots (g r r' : List (Nat × Nat)) (n : Nat) (pos : Nat × Nat → V)
    (h : ∀ j, 1 ≤ j → j ≤ n → r.getD (j - 1) default = r'.getD (j - 1) default) :
    (List.range' 1 n).foldl (treeBody pbcDistance g r) pos =
      (List.range' 1 n).foldl (treeBody pbcDistance g r') pos := by
  induction n with
  | zero => rfl
  | succ n ih =>
    rw [List.range'_1_concat, List.foldl_append, List.foldl_append,
      ih (fun j h1 hj => h j h1 (by omega))]
    simp only [List.foldl_cons, List.foldl_nil, treeBody]
    rw [h (1 + n) (by omega) (by omega)]

theorem getD_take_pred (g : List (Nat × Nat)) (k : Nat) (hk : k < g.length - 1) :
    (g.take (g.length - 1)).getD k default = g.getD k default := by
  rw [List.getD_eq_getElem?_getD, List.getD_eq_getElem?_getD, List.getElem?_take_of_lt hk]

theorem getD_map_getD {β : Type} (f : List β → List β) (hf : f [] = []) (l : List (List β))
    (i : Nat) :
    (l.map f).getD i [] = f (l.getD i []) := by
  rw [List.getD_eq_getElem?_getD, List.getD_eq_getElem?_getD, List.getElem?_map]
  cases l[i]? with
  | none => exact hf.symm
  | some g => rfl

end defaultRoots

section constructorRoots

variable {V : Type} (getValueIndices : Nat → Nat × Nat)
  (tree : GenericMolInfo V → List Nat → List Nat × List Nat)
  (removeDuplicates : List Nat → List Nat) (moldat : Option (GenericMolInfo V))
  (input : WholeMoleculesInput)

/-- In default mode the constructor stores, as root list of every entity, the entity without
its last atom. -/
theorem constructor_default_roots (w : WholeMolecules V) (atoms : List Nat)
    (hc : WholeMolecules.WholeMolecules getValueIndices tree removeDuplicates moldat input =
      Except.ok (w, atoms))
    (hd : w.doemst = false) :
    w.p_roots = w.p_groups.map (fun g => g.take (g.length - 1)) := by
  have hw := ((constructor_outcome getValueIndices tree removeDuplicates moldat input).2
    (w, atoms) hc).1
  rw [hd] at hw
  unfold WholeMolecules.WholeMolecules at hc
  dsimp only at hc
  rw [← hw] at hc
  cases hr : readResidues moldat input
      (List.takeWhile (fun group => !group.isEmpty) input.ENTITY) with
  | error e0 => rw [hr] at hc; cases hc
  | ok groups =>
    rw [hr] at hc
    dsimp only at hc
    by_cases hlen : groups.length = 0
    · rw [if_pos hlen] at hc; cases hc
    · rw [if_neg hlen] at hc
      by_cases hem : (input.EMST && !false) = true
      · rw [if_pos hem] at hc; cases hc
      · rw [if_neg hem] at hc
        have hb : buildRoots tree moldat false groups =
            Except.ok (groups, groups.map (fun g => g.take (g.length - 1))) := rfl
        rw [hb] at hc
        dsimp only at hc
        cases hf : (buildRefs moldat input.ADDREFERENCE groups : Except String (List V)) with
        | error e1 => rw [hf] at hc; cases hc
        | ok refs =>
          rw [hf] at hc
          dsimp only at hc
          have hw2 := (Prod.mk.inj (Except.ok.inj hc)).1
          rw [← hw2]
          dsimp only
          rw [List.map_map, List.map_map]
          apply List.map_congr_left
          intro g _
          simp only [Function.comp, List.length_map, List.map_take]

end constructorRoots

section defaultTree

variable {V : Type} [AddCommGroup V] (getValueIndices : Nat → Nat × Nat)
  (tree : GenericMolInfo V → List Nat → List Nat × List Nat)
  (removeDuplicates : List Nat → List Nat) (moldat : Option (GenericMolInfo V))
  (input : WholeMoleculesInput)

/-- C24. For an action that the constructor builds in default mode, the root list of a
non-empty entity has one entry less than the entity, root `j-1` being atom `j-1`; and
`WholeMolecules::calculate` run in tree mode with these root lists leaves, entity by entity and
as a whole, the same stored positions as the default-mode loop, for every minimum-image
function `pbcDistance` (every box) and all initial positions, duplicates allowed. -/
theorem calculate_default_eq_tree (w : WholeMolecules V) (atoms : List Nat)
    (hc : WholeMolecules.WholeMolecules getValueIndices tree removeDuplicates moldat input =
      Except.ok (w, atoms))
    (hd : w.doemst = false) (pbcDistance : V → V → V) (pos : Nat × Nat → V) :
    (∀ i, i < w.p_groups.length → w.p_groups.getD i [] ≠ [] →
      (w.p_roots.getD i []).length = (w.p_groups.getD i []).length - 1 ∧
      ∀ j, 1 ≤ j → j < (w.p_groups.getD i []).length →
        (w.p_roots.getD i []).getD (j - 1) default =
          (w.p_groups.getD i []).getD (j - 1) default) ∧
    (∀ i, calculateEntity pbcDistance { w with doemst := true } pos i =
      calculateEntity pbcDistance w pos i) ∧
    calculate pbcDistance { w with doemst := true } pos = calculate pbcDistance w pos := by
  have hroots := constructor_default_roots getValueIndices tree removeDuplicates moldat input
    w atoms hc hd
  have hri : ∀ i, w.p_roots.getD i [] =
      (w.p_groups.getD i []).take ((w.p_groups.getD i []).length - 1) := by
    intro i
    rw [hroots]
    exact getD_map_getD (fun g : List (Nat × Nat) => g.take (g.length - 1)) rfl w.p_groups i
  have hent : ∀ (q : Nat × Nat → V) (i : Nat),
      calculateEntity pbcDistance { w with doemst := true } q i =
        calculateEntity pbcDistance w q i := by
    intro q i
    rw [calculateEntity_eq_treeLoop, calculateEntity_eq_treeLoop]
    have ha : anchoredPositions pbcDistance { w with doemst := true } q i =
        anchoredPositions pbcDistance w q i := rfl
    rw [ha]
    simp only [hd, if_true, if_false, Bool.false_eq_true]
    apply treeLoop_congr_roots
    intro j h1 hj
    rw [hri i]
    exact getD_take_pred _ (j - 1) (by omega)
  refine ⟨fun i _ _ => ⟨?_, fun j h1 hj => ?_⟩, hent pos, ?_⟩
  · rw [hri i, List.length_take]
    omega
  · rw [hri i]
    exact getD_take_pred _ (j - 1) (by omega)
  · unfold calculate
    have hfun : calculateEntity pbcDistance { w with doemst := true } =
        calculateEntity pbcDistance w := by
      funext q i
      exact hent q i
    rw [hfun]

/-- C24 on the action constructed from `ENTITY0=1,2,3` without `MOLINFO`. -/
theorem calculate_default_eq_tree_witness :
    (WholeMolecules.WholeMolecules (fun a => (0, a)) (fun _ g => (g, g)) id
        (none : Option (GenericMolInfo ℤ)) sampleDefaultInput =
      Except.ok (sampleChain ℤ, [1, 2, 3]) ∧ (sampleChain ℤ).doemst = false) ∧
    calculate samplePbcDistanceInt { sampleChain ℤ with doemst := true } samplePositionsInt =
      calculate samplePbcDistanceInt (sampleChain ℤ) samplePositionsInt :=
  ⟨⟨rfl, rfl⟩, (calculate_default_eq_tree (fun a => (0, a)) (fun _ g => (g, g)) id
    (none : Option (GenericMolInfo ℤ)) sampleDefaultInput (sampleChain ℤ) [1, 2, 3] rfl rfl
    samplePbcDistanceInt samplePositionsInt).2.2⟩

end defaultTree

end generic

namespace generic

section rewritten

variable {V : Type} (w : WholeMolecules V)

/-- Without `ADDREFERENCE`, an entity rewrites only atoms of its own list. -/
theorem not_mem_rewrittenAtoms (href : w.addref = false) (k : Nat) (a : Nat × Nat)
    (ha : a ∉ w.p_groups.getD k []) : a ∉ rewrittenAtoms w k := by
  unfold rewrittenAtoms
  rw [href]
  simp only [Bool.false_eq_true, if_false, List.nil_append]
  exact fun h => ha (List.mem_of_mem_tail h)

end rewritten

section idempotent

variable {V : Type} [AddCommGroup V] (pbcDistance : V → V → V) (w : WholeMolecules V)

/-- Running the default-mode reconstruction of entity `i` on positions where the entity is
already reconstructed changes nothing: `q` and `q'` are the positions that entity `i` finds at
the first and at the second application. -/
theorem calculateEntity_idempotent (hdef : w.doemst = false) (href : w.addref = false)
    (hI : ∀ a b, pbcDistance a (a + pbcDistance a b) = pbcDistance a b) (i : Nat)
    (hnd : (w.p_groups.getD i []).Nodup) (q q' : Nat × Nat → V)
    (hq : ∀ j, j < (w.p_groups.getD i []).length →
      q' ((w.p_groups.getD i []).getD j default) =
        calculateEntity pbcDistance w q i ((w.p_groups.getD i []).getD j default))
    (j : Nat) (hj : j < (w.p_groups.getD i []).length) :
    calculateEntity pbcDistance w q' i ((w.p_groups.getD i []).getD j default) =
      calculateEntity pbcDistance w q i ((w.p_groups.getD i []).getD j default) := by
  have hpar : w.doemst = true → ∀ j, 1 ≤ j → j < (w.p_groups.getD i []).length →
      ∃ m, m < j ∧ (w.p_roots.getD i []).getD (j - 1) default =
        (w.p_groups.getD i []).getD m default := by
    intro h
    rw [hdef] at h
    cases h
  have hanchor : ∀ j, anchorAtom w i j = (w.p_groups.getD i []).getD (j - 1) default := by
    intro j
    unfold anchorAtom
    rw [hdef]
    rfl
  induction j with
  | zero =>
    rw [calculateEntity_first pbcDistance w q' i hnd hj, href]
    simp only [Bool.false_eq_true, if_false]
    exact hq 0 hj
  | succ j ih =>
    have ih := ih (by omega)
    rw [calculateEntity_link pbcDistance w q' i hnd hpar (j + 1) (by omega) hj,
      calculateEntity_link pbcDistance w q i hnd hpar (j + 1) (by omega) hj, hanchor,
      Nat.add_sub_cancel, ih, hq (j + 1) hj,
      calculateEntity_link pbcDistance w q i hnd hpar (j + 1) (by omega) hj, hanchor,
      Nat.add_sub_cancel, hI]

/-- C25. In default mode without `ADDREFERENCE`, for disjoint entities of pairwise distinct
atoms and a minimum-image function with `pbcDistance(a, a+pbcDistance(a,b)) = pbcDistance(a,b)`,
applying `WholeMolecules::calculate` a second time leaves every stored position equal to its
value after the first application, and the position of an atom in no entity is changed by
neither application. -/
theorem calculate_idempotent (hdef : w.doemst = false) (href : w.addref = false)
    (hnd : ∀ i, i < w.p_groups.length → (w.p_groups.getD i []).Nodup)
    (hdisj : ∀ i, i < w.p_groups.length → ∀ k, k < w.p_groups.length → i ≠ k →
      ∀ a, a ∈ w.p_groups.getD i [] → a ∉ w.p_groups.getD k [])
    (hI : ∀ a b, pbcDistance a (a + pbcDistance a b) = pbcDistance a b)
    (pos : Nat × Nat → V) :
    (∀ a, calculate pbcDistance w (calculate pbcDistance w pos) a =
      calculate pbcDistance w pos a) ∧
    (∀ a, (∀ i, i < w.p_groups.length → a ∉ w.p_groups.getD i []) →
      calculate pbcDistance w pos a = pos a ∧
      calculate pbcDistance w (calculate pbcDistance w pos) a = pos a) := by
  have hout : ∀ (q : Nat × Nat → V) (a : Nat × Nat),
      (∀ i, i < w.p_groups.length → a ∉ w.p_groups.getD i []) →
      calculate pbcDistance w q a = q a := by
    intro q a ha
    unfold calculate
    apply foldl_calculateEntity_frame
    intro k hk
    exact not_mem_rewrittenAtoms w href k a (ha k (List.mem_range.mp hk))
  refine ⟨fun a => ?_, fun a ha => ⟨hout pos a ha, by rw [hout _ a ha, hout pos a ha]⟩⟩
  by_cases hin : ∀ i, i < w.p_groups.length → a ∉ w.p_groups.getD i []
  · rw [hout _ a hin]
  · push_neg at hin
    obtain ⟨i, hi, hai⟩ := hin
    have hother : ∀ b, b ∈ w.p_groups.getD i [] → ∀ k, k < w.p_groups.length → k ≠ i →
        b ∉ rewrittenAtoms w k := fun b hb k hk hne =>
      not_mem_rewrittenAtoms w href k b (hdisj i hi k hk (fun h => hne h.symm) b hb)
    have hmemj : ∀ j, j < (w.p_groups.getD i []).length →
        (w.p_groups.getD i []).getD j default ∈ w.p_groups.getD i [] := by
      intro j hj
      rw [List.getD_eq_getElem _ _ hj]
      exact List.getElem_mem hj
    have hkey : ∀ j, j < (w.p_groups.getD i []).length →
        calculate pbcDistance w (calculate pbcDistance w pos)
            ((w.p_groups.getD i []).getD j default) =
          calculate pbcDistance w pos ((w.p_groups.getD i []).getD j default) := by
      intro j hj
      obtain ⟨e1, _⟩ := calculate_eq_calculateEntity pbcDistance w pos i hi _
        (hother _ (hmemj j hj))
      obtain ⟨e2, _⟩ := calculate_eq_calculateEntity pbcDistance w
        (calculate pbcDistance w pos) i hi _ (hother _ (hmemj j hj))
      rw [e2, e1]
      apply calculateEntity_idempotent pbcDistance w hdef href hI i (hnd i hi)
      · intro j' hj'
        obtain ⟨e3, _⟩ := calculate_eq_calculateEntity pbcDistance w pos i hi _
          (hother _ (hmemj j' hj'))
        obtain ⟨_, e4⟩ := calculate_eq_calculateEntity pbcDistance w
          (calculate pbcDistance w pos) i hi _ (hother _ (hmemj j' hj'))
        rw [e4, e3]
      · exact hj
    obtain ⟨j, hj, rfl⟩ : ∃ j, j < (w.p_groups.getD i []).length ∧
        (w.p_groups.getD i []).getD j default = a := by
      obtain ⟨j, hj, he⟩ := List.getElem_of_mem hai
      exact ⟨j, hj, by rw [List.getD_eq_getElem _ _ hj]; exact he⟩
    exact hkey j hj

theorem samplePbcDistanceInt_image (a b : ℤ) :
    samplePbcDistanceInt a (a + samplePbcDistanceInt a b) = samplePbcDistanceInt a b := by
  unfold samplePbcDistanceInt
  omega

theorem sampleDisjoint_disjoint :
    ∀ i, i < (sampleDisjoint ℤ).p_groups.length →
      ∀ k, k < (sampleDisjoint ℤ).p_groups.length → i ≠ k →
      ∀ a, a ∈ (sampleDisjoint ℤ).p_groups.getD i [] →
        a ∉ (sampleDisjoint ℤ).p_groups.getD k [] := by
  intro i hi k hk hne
  have hi2 : i < 2 := hi
  have hk2 : k < 2 := hk
  interval_cases i <;> interval_cases k <;> first | exact absurd rfl hne | decide

end idempotent

section idempotentWitness

/-- C25 on the two disjoint entities `ENTITY0=1,2,3 ENTITY1=4,5` in an integer box of side 10. -/
theorem calculate_idempotent_witness :
    ((sampleDisjoint ℤ).doemst = false ∧ (sampleDisjoint ℤ).addref = false ∧
      (∀ i, i < (sampleDisjoint ℤ).p_groups.length →
        ((sampleDisjoint ℤ).p_groups.getD i []).Nodup) ∧
      (∀ i, i < (sampleDisjoint ℤ).p_groups.length →
        ∀ k, k < (sampleDisjoint ℤ).p_groups.length → i ≠ k →
        ∀ a, a ∈ (sampleDisjoint ℤ).p_groups.getD i [] →
          a ∉ (sampleDisjoint ℤ).p_groups.getD k []) ∧
      ∀ a b, samplePbcDistanceInt a (a + samplePbcDistanceInt a b) =
        samplePbcDistanceInt a b) ∧
    (List.range 7).map (fun a =>
        calculate samplePbcDistanceInt (sampleDisjoint ℤ) samplePositionsInt (0, a)) =
      [0, 1, -1, -2, 2, 6, 0] ∧
    ∀ a, calculate samplePbcDistanceInt (sampleDisjoint ℤ)
        (calculate samplePbcDistanceInt (sampleDisjoint ℤ) samplePositionsInt) a =
      calculate samplePbcDistanceInt (sampleDisjoint ℤ) samplePositionsInt a :=
  ⟨⟨rfl, rfl, by decide, sampleDisjoint_disjoint, samplePbcDistanceInt_image⟩, by decide,
    (calculate_idempotent samplePbcDistanceInt (sampleDisjoint ℤ) rfl rfl (by decide)
      sampleDisjoint_disjoint samplePbcDistanceInt_image samplePositionsInt).1⟩

end idempotentWitness

end generic

end PLMD
